import Mathlib

/-!
# libvmdk offset table and handle

A shallow embedding of `libvmdk_offset_table.c` (initialize, resize, fill, compare,
seek_grain_offset) and of `libvmdk_handle.c` (initialize, free, signal_abort, open,
open_file_io_pool, close, open_read, open_read_signature), and the properties proved
about them.

Conventions of the embedding

* `uint32_t` values are natural numbers; every 32-bit sum is reduced modulo `2 ^ 32`
  where the source computes it.
* `size_t` values are natural numbers; products computed in `size_t` are reduced modulo
  `2 ^ size_bits`.
* The heap block behind `offset_table->grain_offset` is a list of whole elements; `none`
  is the NULL pointer.  An access outside the block is `Result.undefined`.
* The pointer arguments `offset_table` and `grain_table` are passed as values, so the
  NULL checks on them have no counterpart; the same holds for the handle, the pool and the
  filenames in the handle functions.
* Every `libcerror_error_set` call is recorded, oldest first.
-/

namespace Libvmdk

/-- The libcerror error domains the library uses; `IO_DOMAIN` is
`LIBCERROR_ERROR_DOMAIN_IO`. -/
inductive ErrorDomain where
  | ARGUMENTS
  | MEMORY
  | RUNTIME
  | IO_DOMAIN
  deriving DecidableEq, Repr

/-- The libcerror error codes the library uses, named as in the source. -/
inductive ErrorCode where
  | ARGUMENT_ERROR_INVALID_VALUE
  | ARGUMENT_ERROR_VALUE_ZERO_OR_LESS
  | ARGUMENT_ERROR_VALUE_OUT_OF_RANGE
  | MEMORY_ERROR_INSUFFICIENT
  | MEMORY_ERROR_SET_FAILED
  | RUNTIME_ERROR_VALUE_MISSING
  | RUNTIME_ERROR_VALUE_ALREADY_SET
  | RUNTIME_ERROR_RESIZE_FAILED
  | RUNTIME_ERROR_VALUE_OUT_OF_RANGE
  | RUNTIME_ERROR_VALUE_EXCEEDS_MAXIMUM
  | RUNTIME_ERROR_UNSUPPORTED_VALUE
  | ARGUMENT_ERROR_UNSUPPORTED_VALUE
  | ARGUMENT_ERROR_VALUE_TOO_SMALL
  | RUNTIME_ERROR_INITIALIZE_FAILED
  | RUNTIME_ERROR_FINALIZE_FAILED
  | RUNTIME_ERROR_GET_FAILED
  | RUNTIME_ERROR_SET_FAILED
  | RUNTIME_ERROR_APPEND_FAILED
  | IO_ERROR_OPEN_FAILED
  | IO_ERROR_CLOSE_FAILED
  | IO_ERROR_SEEK_FAILED
  | IO_ERROR_READ_FAILED
  deriving DecidableEq, Repr

/-- One `libcerror_error_set( error, domain, code, ... )` call. -/
structure libcerror_error_t where
  domain : ErrorDomain
  code : ErrorCode
  deriving DecidableEq, Repr

/-- What a call leaves behind: `success v` is a return of 1 (or of the value sought),
`failure v e` a return of -1 with the errors `e` set, `undefined` a run that leaves the
behaviour defined by C (an access outside a block). `v` is the state after the call. -/
inductive Result (α : Type) where
  | success (value : α)
  | failure (value : α) (error : List libcerror_error_t)
  | undefined
  deriving DecidableEq, Repr

/-- The parts of the build the source takes from headers that are not among the sources:
the width of `size_t`, the two structure sizes and the flag constant. `size_bits` is at
least 32 on every platform the library builds on. -/
structure Platform where
  size_bits : Nat
  sizeof_grain_offset : Nat
  sizeof_offset_table : Nat
  GRAIN_OFFSET_FLAGS_CORRUPTED : Nat
  deriving DecidableEq, Repr

/-- `SSIZE_MAX`, the largest value of the signed counterpart of `size_t`. -/
def SSIZE_MAX (p : Platform) : Nat := 2 ^ (p.size_bits - 1) - 1

/-- A product or sum computed in `size_t`. -/
def size_t (p : Platform) (x : Nat) : Nat := x % 2 ^ p.size_bits

/-- A sum computed in `uint32_t`. -/
def uint32_t (x : Nat) : Nat := x % 2 ^ 32

/-- A value stored in an `off64_t` (two's complement, 64 bits). -/
def off64_t (x : Int) : Int := (x + 2 ^ 63) % 2 ^ 64 - 2 ^ 63

/-- A byte of a grain table. -/
abbrev Byte := Fin 256

/-- Modelled from the spec: `LIBVMDK_SECTOR_SIZE` of libvmdk_definitions.h, which is not
among the sources; the spec gives the sector size as 512. -/
def LIBVMDK_SECTOR_SIZE : Int := 512

/-- Modelled from the spec: the macro `byte_stream_copy_to_uint32_little_endian` of
byte_stream.h, which is not among the sources; the spec reads a grain table entry as a
4-byte little-endian unsigned number. -/
def byte_stream_copy_to_uint32_little_endian (b0 b1 b2 b3 : Byte) : Nat :=
  b0.val + 2 ^ 8 * b1.val + 2 ^ 16 * b2.val + 2 ^ 24 * b3.val

/-- An element of the table: `libvmdk_grain_offset_t`. -/
structure libvmdk_grain_offset_t where
  file_offset : Int
  size : Nat
  flags : Nat
  deriving DecidableEq, Repr

/-- The element `memory_set( ..., 0, ... )` leaves behind. -/
def zero_grain_offset : libvmdk_grain_offset_t := ⟨0, 0, 0⟩

/-- The table: `libvmdk_offset_table_t`. `grain_offset` is the heap block, `none` for NULL. -/
structure libvmdk_offset_table_t where
  number_of_grain_offsets : Nat
  last_grain_offset_filled : Nat
  last_grain_offset_compared : Nat
  grain_offset : Option (List libvmdk_grain_offset_t)
  deriving DecidableEq, Repr

/-- The allocator as the code sees it: which requests (by byte size) are granted, and what
an element of fresh storage holds before it is written. -/
structure Memory where
  allocate : Nat → Bool
  indeterminate : Nat → libvmdk_grain_offset_t

/-- `memory_reallocate( block, size )`: NULL when the request is refused; otherwise a block
of `size` bytes that keeps the elements of the old block that still fit. -/
def memory_reallocate (p : Platform) (m : Memory)
    (block : Option (List libvmdk_grain_offset_t)) (size : Nat) :
    Option (List libvmdk_grain_offset_t) :=
  if m.allocate size then
    some ((List.range (size / p.sizeof_grain_offset)).map
      (fun i => (block.getD []).getD i (m.indeterminate i)))
  else
    none

/-- `memory_set( &block[ start ], 0, count )` on a block of `size` bytes: `none` when the
bytes written do not lie inside the block, otherwise the block with every element that
lies inside the written bytes zeroed. -/
def memory_set (p : Platform) (size : Nat) (block : List libvmdk_grain_offset_t)
    (start count : Nat) : Option (List libvmdk_grain_offset_t) :=
  if p.sizeof_grain_offset * start + count ≤ size then
    some (block.mapIdx (fun i e =>
      if start ≤ i ∧ p.sizeof_grain_offset * (i + 1) ≤ p.sizeof_grain_offset * start + count
      then zero_grain_offset else e))
  else
    none

/-- The table `memory_set` leaves in `libvmdk_offset_table_initialize` before the elements
are allocated. -/
def cleared_offset_table : libvmdk_offset_table_t := ⟨0, 0, 0, none⟩

/-- `libvmdk_offset_table_initialize`: the argument is the value of `*offset_table`. -/
def libvmdk_offset_table_initialize (p : Platform) (m : Memory)
    (offset_table : Option libvmdk_offset_table_t) (number_of_grain_offsets : Nat) :
    Result (Option libvmdk_offset_table_t) :=
  match offset_table with
  | some t => .failure (some t) [⟨.RUNTIME, .RUNTIME_ERROR_VALUE_ALREADY_SET⟩]
  | none =>
    if m.allocate p.sizeof_offset_table then
      if number_of_grain_offsets > 0 then
        let grain_offset_size := size_t p (p.sizeof_grain_offset * number_of_grain_offsets)
        if grain_offset_size > SSIZE_MAX p then
          .failure none [⟨.RUNTIME, .RUNTIME_ERROR_VALUE_EXCEEDS_MAXIMUM⟩]
        else if m.allocate grain_offset_size then
          .success (some { cleared_offset_table with
            grain_offset := some (List.replicate (grain_offset_size / p.sizeof_grain_offset)
              zero_grain_offset)
            number_of_grain_offsets := number_of_grain_offsets })
        else
          .failure none [⟨.MEMORY, .MEMORY_ERROR_INSUFFICIENT⟩]
      else
        .success (some { cleared_offset_table with
          number_of_grain_offsets := number_of_grain_offsets })
    else
      .failure none [⟨.MEMORY, .MEMORY_ERROR_INSUFFICIENT⟩]

/-- `libvmdk_offset_table_resize`. A reallocation of an existing block to zero bytes (only
a wrapped product gives that size) has no result: whether the old block survives depends
on the C library. With no block yet the request is an allocation of zero bytes, as in
`libvmdk_offset_table_initialize`. -/
def libvmdk_offset_table_resize (p : Platform) (m : Memory)
    (offset_table : libvmdk_offset_table_t) (number_of_grain_offsets : Nat) :
    Result libvmdk_offset_table_t :=
  if offset_table.number_of_grain_offsets < number_of_grain_offsets then
    let grain_offset_size := size_t p (p.sizeof_grain_offset * number_of_grain_offsets)
    if grain_offset_size > SSIZE_MAX p then
      .failure offset_table [⟨.RUNTIME, .RUNTIME_ERROR_VALUE_EXCEEDS_MAXIMUM⟩]
    else if grain_offset_size = 0 ∧ offset_table.grain_offset ≠ none then
      .undefined
    else
      match memory_reallocate p m offset_table.grain_offset grain_offset_size with
      | none => .failure offset_table [⟨.MEMORY, .MEMORY_ERROR_INSUFFICIENT⟩]
      | some reallocation =>
        match memory_set p grain_offset_size reallocation
            offset_table.number_of_grain_offsets
            (size_t p (p.sizeof_grain_offset *
              (number_of_grain_offsets - offset_table.number_of_grain_offsets))) with
        | none => .undefined
        | some grain_offset =>
          .success { offset_table with
            grain_offset := some grain_offset
            number_of_grain_offsets := number_of_grain_offsets }
  else
    .success offset_table

/-- The offset and size the loops of fill and compare decode from one grain table entry. -/
def current_offset (b0 b1 b2 b3 : Byte) : Int :=
  off64_t (off64_t (byte_stream_copy_to_uint32_little_endian b0 b1 b2 b3) * LIBVMDK_SECTOR_SIZE)

/-- The size that goes with a decoded offset. -/
def current_size (offset : Int) (grain_size : Nat) : Nat :=
  if offset = 0 then 0 else grain_size

/-- The loop of `libvmdk_offset_table_fill`; the first argument is the number of
iterations left (`number_of_grain_table_entries - grain_table_entry_iterator`), the
list is what `grain_table` points at. -/
def fill_loop (grain_size : Nat) :
    Nat → List Byte → libvmdk_offset_table_t → Result libvmdk_offset_table_t
  | 0, _, offset_table => .success offset_table
  | remaining + 1, b0 :: b1 :: b2 :: b3 :: grain_table, offset_table =>
    match offset_table.grain_offset with
    | none => .undefined
    | some block =>
      match block[offset_table.last_grain_offset_filled]? with
      | none => .undefined
      | some grain_offset =>
        fill_loop grain_size remaining grain_table
          { offset_table with
            grain_offset := some (block.set offset_table.last_grain_offset_filled
              { grain_offset with
                file_offset := current_offset b0 b1 b2 b3
                size := current_size (current_offset b0 b1 b2 b3) grain_size })
            last_grain_offset_filled := uint32_t (offset_table.last_grain_offset_filled + 1) }
  | _ + 1, _, _ => .undefined

/-- `libvmdk_offset_table_fill`. -/
def libvmdk_offset_table_fill (p : Platform) (m : Memory)
    (offset_table : libvmdk_offset_table_t) (grain_table : List Byte)
    (grain_table_size : Nat) (number_of_grain_table_entries : Nat) (grain_size : Nat) :
    Result libvmdk_offset_table_t :=
  if grain_table_size > SSIZE_MAX p then
    .failure offset_table [⟨.RUNTIME, .RUNTIME_ERROR_VALUE_EXCEEDS_MAXIMUM⟩]
  else if grain_table_size % 4 ≠ 0 then
    .failure offset_table [⟨.RUNTIME, .RUNTIME_ERROR_UNSUPPORTED_VALUE⟩]
  else if number_of_grain_table_entries ≠ grain_table_size / 4 then
    .failure offset_table [⟨.RUNTIME, .RUNTIME_ERROR_VALUE_OUT_OF_RANGE⟩]
  else if grain_size = 0 then
    .failure offset_table [⟨.RUNTIME, .ARGUMENT_ERROR_VALUE_ZERO_OR_LESS⟩]
  else if grain_size > SSIZE_MAX p then
    .failure offset_table [⟨.RUNTIME, .RUNTIME_ERROR_VALUE_EXCEEDS_MAXIMUM⟩]
  else if offset_table.number_of_grain_offsets
      < uint32_t (offset_table.last_grain_offset_filled + number_of_grain_table_entries) then
    match libvmdk_offset_table_resize p m offset_table
        (uint32_t (offset_table.last_grain_offset_filled + number_of_grain_table_entries)) with
    | .success resized =>
      fill_loop grain_size number_of_grain_table_entries grain_table resized
    | .failure unchanged error =>
      .failure unchanged (error ++ [⟨.RUNTIME, .RUNTIME_ERROR_RESIZE_FAILED⟩])
    | .undefined => .undefined
  else
    fill_loop grain_size number_of_grain_table_entries grain_table offset_table

/-- The flags after `flags &= ~( LIBVMDK_GRAIN_OFFSET_FLAGS_CORRUPTED )` in a `uint8_t`. -/
def clear_corrupted (p : Platform) (flags : Nat) : Nat :=
  flags &&& (255 ^^^ (p.GRAIN_OFFSET_FLAGS_CORRUPTED % 256))

/-- The loop of `libvmdk_offset_table_compare`, laid out as `fill_loop`. -/
def compare_loop (p : Platform) (grain_size : Nat) :
    Nat → List Byte → libvmdk_offset_table_t → Result libvmdk_offset_table_t
  | 0, _, offset_table => .success offset_table
  | remaining + 1, b0 :: b1 :: b2 :: b3 :: grain_table, offset_table =>
    match offset_table.grain_offset with
    | none => .undefined
    | some block =>
      match block[offset_table.last_grain_offset_compared]? with
      | none => .undefined
      | some grain_offset =>
        compare_loop p grain_size remaining grain_table
          { offset_table with
            grain_offset :=
              if grain_offset.file_offset ≠ current_offset b0 b1 b2 b3 then
                some (block.set offset_table.last_grain_offset_compared
                  { grain_offset with flags := clear_corrupted p grain_offset.flags })
              else
                some block
            last_grain_offset_compared :=
              uint32_t (offset_table.last_grain_offset_compared + 1) }
  | _ + 1, _, _ => .undefined

/-- `libvmdk_offset_table_compare`. -/
def libvmdk_offset_table_compare (p : Platform) (m : Memory)
    (offset_table : libvmdk_offset_table_t) (grain_table : List Byte)
    (grain_table_size : Nat) (number_of_grain_table_entries : Nat) (grain_size : Nat) :
    Result libvmdk_offset_table_t :=
  if grain_table_size > SSIZE_MAX p then
    .failure offset_table [⟨.RUNTIME, .RUNTIME_ERROR_VALUE_EXCEEDS_MAXIMUM⟩]
  else if grain_table_size % 4 ≠ 0 then
    .failure offset_table [⟨.RUNTIME, .RUNTIME_ERROR_UNSUPPORTED_VALUE⟩]
  else if number_of_grain_table_entries ≠ grain_table_size / 4 then
    .failure offset_table [⟨.RUNTIME, .RUNTIME_ERROR_VALUE_OUT_OF_RANGE⟩]
  else if grain_size = 0 then
    .failure offset_table [⟨.RUNTIME, .ARGUMENT_ERROR_VALUE_ZERO_OR_LESS⟩]
  else if grain_size > SSIZE_MAX p then
    .failure offset_table [⟨.RUNTIME, .RUNTIME_ERROR_VALUE_EXCEEDS_MAXIMUM⟩]
  else if offset_table.number_of_grain_offsets
      < uint32_t (offset_table.last_grain_offset_compared + number_of_grain_table_entries) then
    match libvmdk_offset_table_resize p m offset_table
        (uint32_t (offset_table.last_grain_offset_compared + number_of_grain_table_entries)) with
    | .success resized =>
      compare_loop p grain_size number_of_grain_table_entries grain_table resized
    | .failure unchanged error =>
      .failure unchanged (error ++ [⟨.RUNTIME, .RUNTIME_ERROR_RESIZE_FAILED⟩])
    | .undefined => .undefined
  else
    compare_loop p grain_size number_of_grain_table_entries grain_table offset_table

/-- `libvmdk_offset_table_seek_grain_offset`; the value is the `off64_t` returned. -/
def libvmdk_offset_table_seek_grain_offset (offset_table : libvmdk_offset_table_t)
    (grain : Nat) : Result Int :=
  match offset_table.grain_offset with
  | none => .failure (-1) [⟨.RUNTIME, .RUNTIME_ERROR_VALUE_MISSING⟩]
  | some block =>
    if grain ≥ offset_table.number_of_grain_offsets then
      .failure (-1) [⟨.ARGUMENTS, .ARGUMENT_ERROR_VALUE_OUT_OF_RANGE⟩]
    else
      match block[grain]? with
      | none => .undefined
      | some grain_offset => .success grain_offset.file_offset

/-- The elements the table can address without leaving its block. -/
def storage (t : libvmdk_offset_table_t) : List libvmdk_grain_offset_t :=
  t.grain_offset.getD []

/-- A table as the functions keep it: the three counters fit `uint32_t` and the block holds
exactly `number_of_grain_offsets` elements. -/
def valid (t : libvmdk_offset_table_t) : Prop :=
  t.number_of_grain_offsets < 2 ^ 32 ∧ t.last_grain_offset_filled < 2 ^ 32 ∧
    t.last_grain_offset_compared < 2 ^ 32 ∧ (storage t).length = t.number_of_grain_offsets

instance (t : libvmdk_offset_table_t) : Decidable (valid t) := by
  unfold valid; infer_instance

/-- Entry `i` of a grain table read as the spec reads it: the little-endian unsigned
32-bit value of bytes `4 i .. 4 i + 3`. -/
def little_endian_u32 (grain_table : List Byte) (i : Nat) : Nat :=
  (grain_table.getD (4 * i) 0).val + 256 * (grain_table.getD (4 * i + 1) 0).val
    + 65536 * (grain_table.getD (4 * i + 2) 0).val
    + 16777216 * (grain_table.getD (4 * i + 3) 0).val

/-- The element the spec expects at a filled index: offset `entry * 512`, size 0 for offset
0 and the grain size otherwise; the flags are those the element had. -/
def filled_entry (grain_table : List Byte) (grain_size : Nat) (i : Nat)
    (e : libvmdk_grain_offset_t) : libvmdk_grain_offset_t :=
  { e with
    file_offset := (little_endian_u32 grain_table i : Int) * 512
    size := if (little_endian_u32 grain_table i : Int) * 512 = 0 then 0 else grain_size }

/-- The element compare leaves at a compared index: on a mismatch of the stored offset with
`entry * 512` the corrupted bit of the flags is cleared, otherwise nothing changes. -/
def compared_entry (p : Platform) (grain_table : List Byte) (i : Nat)
    (e : libvmdk_grain_offset_t) : libvmdk_grain_offset_t :=
  if e.file_offset ≠ (little_endian_u32 grain_table i : Int) * 512 then
    { e with flags := clear_corrupted p e.flags }
  else
    e

/-- A table of two grains, both filled, one compared. -/
def two_grains : libvmdk_offset_table_t :=
  ⟨2, 2, 1, some [⟨512, 65536, 0⟩, ⟨1024, 65536, 0⟩]⟩

/-- The table `two_grains` grown to four entries. -/
def four_grains : libvmdk_offset_table_t :=
  ⟨4, 2, 1, some [⟨512, 65536, 0⟩, ⟨1024, 65536, 0⟩, ⟨0, 0, 0⟩, ⟨0, 0, 0⟩]⟩

/-- A 64-bit build: `size_t` of 64 bits, elements of 24 bytes. -/
def lp64 : Platform := ⟨64, 24, 24, 1⟩

/-- A 32-bit build: `size_t` of 32 bits, elements of 16 bytes. -/
def ilp32 : Platform := ⟨32, 16, 16, 1⟩

/-- An allocator that grants every request; fresh storage holds a recognisable pattern. -/
def granting : Memory := ⟨fun _ => true, fun _ => ⟨-1, 7, 255⟩⟩

/-- An allocator that refuses every request. -/
def refusing : Memory := ⟨fun _ => false, fun _ => ⟨-1, 7, 255⟩⟩

/-- A call on an offset table after it was initialized, with its arguments. -/
inductive Call where
  | resize (number_of_grain_offsets : Nat)
  | fill (grain_table : List Byte) (grain_table_size number_of_grain_table_entries
      grain_size : Nat)
  | compare (grain_table : List Byte) (grain_table_size number_of_grain_table_entries
      grain_size : Nat)

/-- The call carried out on a table. -/
def Call.run (p : Platform) (m : Memory) (t : libvmdk_offset_table_t) :
    Call → Result libvmdk_offset_table_t
  | .resize n => libvmdk_offset_table_resize p m t n
  | .fill grain_table size k g => libvmdk_offset_table_fill p m t grain_table size k g
  | .compare grain_table size k g => libvmdk_offset_table_compare p m t grain_table size k g

/-- The arguments of the call are values of their C types: `uint32_t` counts and `size_t`
sizes. -/
def Call.typed (p : Platform) : Call → Prop
  | .resize n => n < 2 ^ 32
  | .fill _ size k g => size < 2 ^ p.size_bits ∧ k < 2 ^ 32 ∧ g < 2 ^ p.size_bits
  | .compare _ size k g => size < 2 ^ p.size_bits ∧ k < 2 ^ 32 ∧ g < 2 ^ p.size_bits

/-- The tables a program can hold: what initialize returns, and what a call that returns
(with 1 or with -1) leaves of such a table. -/
inductive Reachable (p : Platform) : libvmdk_offset_table_t → Prop
  | initialized (m : Memory) (n : Nat) (t : libvmdk_offset_table_t) :
      n < 2 ^ 32 → libvmdk_offset_table_initialize p m none n = .success (some t) →
      Reachable p t
  | call (m : Memory) (c : Call) (t t' : libvmdk_offset_table_t) :
      Reachable p t → c.typed p →
      (c.run p m t = .success t' ∨ ∃ e, c.run p m t = .failure t' e) →
      Reachable p t'

/-- The size and the offset of an element agree on being zero. -/
def size_zero_iff_offset_zero (e : libvmdk_grain_offset_t) : Prop :=
  e.size = 0 ↔ e.file_offset = 0

/-- What every reachable table satisfies: the count fits `uint32_t`, both high-water marks
are within the count, the block holds as many elements as the count says unless the byte
size of that many elements does not fit `size_t` (then it holds fewer), and every element
has size 0 exactly when it has offset 0. -/
def table_invariant (p : Platform) (t : libvmdk_offset_table_t) : Prop :=
  t.number_of_grain_offsets < 2 ^ 32 ∧
  t.last_grain_offset_filled ≤ t.number_of_grain_offsets ∧
  t.last_grain_offset_compared ≤ t.number_of_grain_offsets ∧
  ((storage t).length = t.number_of_grain_offsets ∨
    ((storage t).length < t.number_of_grain_offsets ∧
      2 ^ p.size_bits ≤ p.sizeof_grain_offset * t.number_of_grain_offsets)) ∧
  ∀ (i : Nat) (e : libvmdk_grain_offset_t),
    (storage t)[i]? = some e → size_zero_iff_offset_zero e

/-! ## The handle: `libvmdk_handle.c`

The functions of libbfio, of the segment table and of the extent file are not among the
sources. A file IO handle is what the functions here observe of the file behind it, the
calls that can fail for reasons outside the library take their outcome from an
`Environment`, and every call that creates, uses or releases such an object is recorded in
order as an `Event`. Errors set inside those calls are not recorded, only the
`libcerror_error_set` calls of `libvmdk_handle.c` are. -/

/-- The constants and signature arrays `libvmdk_handle.c` takes from headers that are not
among the sources: the access flags, the file types, the number that means "no limit on
open handles", and the three magics. -/
structure Definitions where
  ACCESS_FLAG_READ : Nat
  ACCESS_FLAG_WRITE : Nat
  FILE_TYPE_DESCRIPTOR_FILE : Nat
  FILE_TYPE_RAW_DATA : Nat
  FILE_TYPE_COWD_SPARSE_DATA : Nat
  FILE_TYPE_VMDK_SPARSE_DATA : Nat
  POOL_UNLIMITED_NUMBER_OF_OPEN_HANDLES : Int
  cowd_sparse_file_signature : List Byte
  vmdk_sparse_file_signature : List Byte
  vmdk_descriptor_file_signature : List Byte

/-- A narrow string: the bytes before the terminating NUL. -/
abbrev Filename := List Byte

/-- What the functions here observe of the file behind a file IO handle: whether a seek to
offset 0 and a read fail, the bytes of the file, and whether
`libvmdk_extent_file_read_header` accepts it. -/
structure libbfio_handle_t where
  seek_fails : Bool
  read_fails : Bool
  content : List Byte
  extent_header : Bool
  deriving DecidableEq, Repr

/-- A file IO pool: an object with an identity and its entries in order. -/
structure libbfio_pool_t where
  id : Nat
  handles : List libbfio_handle_t
  deriving DecidableEq, Repr

/-- An extent file, as far as the handle sees it: the pool entry it reads from. -/
structure libvmdk_extent_file_t where
  file_io_pool_entry : Nat
  deriving DecidableEq, Repr

/-- The segment table: one slot per segment index, empty or holding an extent file. -/
structure libvmdk_segment_table_t where
  handles : List (Option libvmdk_extent_file_t)
  deriving DecidableEq, Repr

/-- The part of `libvmdk_io_handle_t` the handle functions use. -/
structure libvmdk_io_handle_t where
  flags : Nat
  deriving DecidableEq, Repr

/-- The handle: `libvmdk_internal_handle_t`. The segment table and the offset table are the
ones `libvmdk_handle_initialize` made; `io_handle` and `file_io_pool` are `none` for NULL. -/
structure libvmdk_internal_handle_t where
  io_handle : Option libvmdk_io_handle_t
  segment_table : libvmdk_segment_table_t
  offset_table : libvmdk_offset_table_t
  file_io_pool : Option libbfio_pool_t
  file_io_pool_created_in_library : Nat
  maximum_number_of_open_handles : Int
  abort : Int
  deriving DecidableEq, Repr

/-- Outcomes of the calls that can fail for reasons outside the library, and the files the
names refer to. `new_pool` is the identity of the pool `libbfio_pool_initialize` makes,
`none` when it fails; the other calls are keyed by the filename, the pool entry or the pool
they are made for. -/
structure Environment where
  handle_allocated : Bool
  segment_table_initialized : Bool
  io_handle_initialized : Bool
  new_pool : Option Nat
  file_initialized : Filename → Bool
  file_name_set : Filename → Bool
  pool_handle_added : Filename → Bool
  file : Filename → libbfio_handle_t
  extent_file_initialized : Nat → Bool
  pool_closed : Nat → Bool

/-- A call that creates, uses or releases an object outside `libvmdk_handle.c`. -/
inductive Event where
  | pool_initialized (pool : Nat)
  | file_initialized (filename : Filename)
  | file_name_set (filename : Filename)
  | pool_handle_added (pool entry : Nat)
  | handle_freed (filename : Filename)
  | pool_freed (pool : Nat)
  | pool_close_all (pool : Nat)
  | pool_seek (pool entry : Nat)
  | pool_read (pool entry : Nat)
  | extent_file_initialized (entry : Nat)
  | extent_file_header_read (entry : Nat)
  | extent_file_freed (entry : Nat)
  | segment_set (index entry : Nat)
  | segment_got (index : Nat)
  deriving DecidableEq, Repr

/-- What a call leaves behind together with the events it caused, in order. -/
structure Outcome (α : Type) where
  result : Result α
  events : List Event
  deriving DecidableEq, Repr

/-- The outcome with some events put in front. -/
def Outcome.after {α : Type} (events : List Event) (o : Outcome α) : Outcome α :=
  ⟨o.result, events ++ o.events⟩

/-- Modelled from the spec: `libvmdk_segment_table_initialize`, which is not among the
sources; the table is created with the given number of pre-allocated slots. -/
def libvmdk_segment_table_initialize (amount : Nat) : libvmdk_segment_table_t :=
  ⟨List.replicate amount none⟩

/-- Modelled from the spec: `libvmdk_segment_table_get_number_of_handles`, which is not
among the sources. -/
def libvmdk_segment_table_get_number_of_handles (segment_table : libvmdk_segment_table_t) :
    Nat :=
  segment_table.handles.length

/-- Modelled from the spec: `libvmdk_segment_table_get_handle`, which is not among the
sources; it returns the resource at the index, or fails when the index has none. -/
def libvmdk_segment_table_get_handle (segment_table : libvmdk_segment_table_t)
    (index : Nat) : Option libvmdk_extent_file_t :=
  (segment_table.handles[index]?).join

/-- Modelled from the spec: `libvmdk_segment_table_set_handle`, which is not among the
sources; it associates the index with the resource, or fails when the index is beyond the
slots of the table. -/
def libvmdk_segment_table_set_handle (segment_table : libvmdk_segment_table_t)
    (index : Nat) (extent_file : libvmdk_extent_file_t) : Option libvmdk_segment_table_t :=
  if index < segment_table.handles.length then
    some ⟨segment_table.handles.set index (some extent_file)⟩
  else
    none

/-- `libvmdk_handle_initialize`: the argument is the value of `*handle`. -/
def libvmdk_handle_initialize (p : Platform) (d : Definitions) (m : Memory)
    (env : Environment) (handle : Option libvmdk_internal_handle_t) :
    Result (Option libvmdk_internal_handle_t) :=
  match handle with
  | some h => .failure (some h) [⟨.RUNTIME, .RUNTIME_ERROR_VALUE_ALREADY_SET⟩]
  | none =>
    if env.handle_allocated then
      if env.segment_table_initialized then
        match libvmdk_offset_table_initialize p m none 0 with
        | .success (some offset_table) =>
          if env.io_handle_initialized then
            .success (some
              { io_handle := some ⟨0⟩
                segment_table := libvmdk_segment_table_initialize 1
                offset_table := offset_table
                file_io_pool := none
                file_io_pool_created_in_library := 0
                maximum_number_of_open_handles := d.POOL_UNLIMITED_NUMBER_OF_OPEN_HANDLES
                abort := 0 })
          else
            .failure none [⟨.RUNTIME, .RUNTIME_ERROR_INITIALIZE_FAILED⟩]
        | .success none => .undefined
        | .failure _ error => .failure none (error ++ [⟨.RUNTIME, .RUNTIME_ERROR_INITIALIZE_FAILED⟩])
        | .undefined => .undefined
      else
        .failure none [⟨.RUNTIME, .RUNTIME_ERROR_INITIALIZE_FAILED⟩]
    else
      .failure none [⟨.MEMORY, .MEMORY_ERROR_INSUFFICIENT⟩]

/-- `libvmdk_handle_free`: the argument is the value of `*handle`, which is NULL after the
call. The pool is freed only when the flag says the library created it. -/
def libvmdk_handle_free (handle : Option libvmdk_internal_handle_t) :
    Outcome (Option libvmdk_internal_handle_t) :=
  match handle with
  | none => ⟨.success none, []⟩
  | some h =>
    if h.file_io_pool_created_in_library ≠ 0 then
      match h.file_io_pool with
      | some pool => ⟨.success none, [.pool_freed pool.id]⟩
      | none => ⟨.success none, []⟩
    else
      ⟨.success none, []⟩

/-- `libvmdk_handle_signal_abort`. -/
def libvmdk_handle_signal_abort (h : libvmdk_internal_handle_t) :
    Result libvmdk_internal_handle_t :=
  .success { h with abort := 1 }

/-- The loop of `libvmdk_handle_open_read`; the first argument is the number of
iterations left (`number_of_extent_files - segment_number`). -/
def open_read_loop (abort : Int) (segment_table : libvmdk_segment_table_t) :
    Nat → Nat → Outcome Unit
  | 0, _ => ⟨.success (), []⟩
  | remaining + 1, segment_number =>
    match libvmdk_segment_table_get_handle segment_table segment_number with
    | none => ⟨.failure () [⟨.RUNTIME, .RUNTIME_ERROR_GET_FAILED⟩],
        [.segment_got segment_number]⟩
    | some _ =>
      if abort = 1 then
        ⟨.failure () [], [.segment_got segment_number]⟩
      else
        (open_read_loop abort segment_table remaining (segment_number + 1)).after
          [.segment_got segment_number]

/-- `libvmdk_handle_open_read`: the segment pass. It reads the handle's abort flag and
changes nothing in the handle. -/
def libvmdk_handle_open_read (h : libvmdk_internal_handle_t)
    (segment_table : libvmdk_segment_table_t) : Outcome Unit :=
  open_read_loop h.abort segment_table
    (libvmdk_segment_table_get_number_of_handles segment_table - 1) 1

/-- `memory_compare( a, b, size ) == 0`: the first `size` bytes agree. -/
def memory_compare_equal (a b : List Byte) (size : Nat) : Bool :=
  a.take size == b.take size

/-- What `libvmdk_handle_open_read_signature` returns: its return value, the value of
`*file_type` after the call, and the errors it set. -/
structure SignatureResult where
  result : Int
  file_type : Nat
  error : List libcerror_error_t
  deriving DecidableEq, Repr

/-- The comparisons `libvmdk_handle_open_read_signature` makes on the 32 bytes it read;
`file_type` is the value of `*file_type` before the call. -/
def classify_signature (d : Definitions) (signature : List Byte) (file_type : Nat) :
    SignatureResult :=
  if memory_compare_equal signature d.cowd_sparse_file_signature 4 then
    ⟨1, d.FILE_TYPE_COWD_SPARSE_DATA, []⟩
  else if memory_compare_equal signature d.vmdk_sparse_file_signature 4 then
    ⟨1, d.FILE_TYPE_VMDK_SPARSE_DATA, []⟩
  else if memory_compare_equal signature d.vmdk_descriptor_file_signature 21 then
    if signature[21]? = some 10 then
      ⟨1, d.FILE_TYPE_DESCRIPTOR_FILE, []⟩
    else
      ⟨0, file_type, []⟩
  else
    ⟨0, file_type, []⟩

/-- `libvmdk_handle_open_read_signature`. The source leaves the seek failure through a
`goto on_error` for which the function has no label; the model returns -1 there. -/
def libvmdk_handle_open_read_signature (d : Definitions) (file_io_pool : libbfio_pool_t)
    (file_io_pool_entry : Nat) (file_type : Nat) : SignatureResult × List Event :=
  match file_io_pool.handles[file_io_pool_entry]? with
  | none => (⟨-1, file_type, [⟨.IO_DOMAIN, .IO_ERROR_SEEK_FAILED⟩]⟩,
      [.pool_seek file_io_pool.id file_io_pool_entry])
  | some file =>
    if file.seek_fails then
      (⟨-1, file_type, [⟨.IO_DOMAIN, .IO_ERROR_SEEK_FAILED⟩]⟩,
        [.pool_seek file_io_pool.id file_io_pool_entry])
    else if file.read_fails ∨ (file.content.take 32).length ≠ 32 then
      (⟨-1, file_type, [⟨.IO_DOMAIN, .IO_ERROR_READ_FAILED⟩]⟩,
        [.pool_seek file_io_pool.id file_io_pool_entry,
         .pool_read file_io_pool.id file_io_pool_entry])
    else
      (classify_signature d (file.content.take 32) file_type,
        [.pool_seek file_io_pool.id file_io_pool_entry,
         .pool_read file_io_pool.id file_io_pool_entry])

/-- The loop of `libvmdk_handle_open_file_io_pool` over the pool entries; the first
argument is the number of iterations left, then come the entry, the value of the local
`file_type` (which the source sets once, before the loop) and the handle. On an error the
events include the release of the extent file `on_error` frees. -/
def open_file_io_pool_loop (d : Definitions) (env : Environment)
    (file_io_pool : libbfio_pool_t) :
    Nat → Nat → Nat → libvmdk_internal_handle_t → Outcome libvmdk_internal_handle_t
  | 0, _, _, h => ⟨.success h, []⟩
  | remaining + 1, file_io_pool_entry, file_type, h =>
    match file_io_pool.handles[file_io_pool_entry]? with
    | none => ⟨.failure h [⟨.RUNTIME, .RUNTIME_ERROR_APPEND_FAILED⟩], []⟩
    | some file =>
      let signature := libvmdk_handle_open_read_signature d file_io_pool file_io_pool_entry
        file_type
      if signature.1.result = -1 then
        ⟨.failure h (signature.1.error ++ [⟨.IO_DOMAIN, .IO_ERROR_READ_FAILED⟩]), signature.2⟩
      else if signature.1.file_type = d.FILE_TYPE_DESCRIPTOR_FILE then
        (open_file_io_pool_loop d env file_io_pool remaining (file_io_pool_entry + 1)
          signature.1.file_type h).after signature.2
      else if signature.1.file_type = d.FILE_TYPE_RAW_DATA then
        (open_file_io_pool_loop d env file_io_pool remaining (file_io_pool_entry + 1)
          signature.1.file_type h).after signature.2
      else if signature.1.file_type = d.FILE_TYPE_COWD_SPARSE_DATA
          ∨ signature.1.file_type = d.FILE_TYPE_VMDK_SPARSE_DATA then
        if env.extent_file_initialized file_io_pool_entry then
          if file.extent_header then
            match libvmdk_segment_table_set_handle h.segment_table 0 ⟨file_io_pool_entry⟩ with
            | some segment_table =>
              (open_file_io_pool_loop d env file_io_pool remaining (file_io_pool_entry + 1)
                signature.1.file_type { h with segment_table := segment_table }).after
                (signature.2 ++ [.extent_file_initialized file_io_pool_entry,
                  .extent_file_header_read file_io_pool_entry,
                  .segment_set 0 file_io_pool_entry])
            | none =>
              ⟨.failure h [⟨.RUNTIME, .RUNTIME_ERROR_SET_FAILED⟩],
                signature.2 ++ [.extent_file_initialized file_io_pool_entry,
                  .extent_file_header_read file_io_pool_entry,
                  .extent_file_freed file_io_pool_entry]⟩
          else
            ⟨.failure h [⟨.IO_DOMAIN, .IO_ERROR_READ_FAILED⟩],
              signature.2 ++ [.extent_file_initialized file_io_pool_entry,
                .extent_file_header_read file_io_pool_entry,
                .extent_file_freed file_io_pool_entry]⟩
        else
          ⟨.failure h [⟨.RUNTIME, .RUNTIME_ERROR_INITIALIZE_FAILED⟩], signature.2⟩
      else
        ⟨.failure h [⟨.ARGUMENTS, .ARGUMENT_ERROR_UNSUPPORTED_VALUE⟩], signature.2⟩

/-- `libvmdk_handle_open_file_io_pool`. The pool is passed as a value, so the two returns
of -1 between the check of the IO handle and the check of the flags (a NULL pool, a
`libbfio_pool_get_number_of_handles` that fails) have no counterpart; they return before
anything is stored in the handle. Every failure from the check of the flags on leaves
through `on_error`, which sets the handle's pool reference to NULL. -/
def libvmdk_handle_open_file_io_pool (d : Definitions) (env : Environment)
    (h : libvmdk_internal_handle_t) (file_io_pool : libbfio_pool_t) (flags : Nat) :
    Outcome libvmdk_internal_handle_t :=
  match h.io_handle with
  | none => ⟨.failure h [⟨.RUNTIME, .RUNTIME_ERROR_VALUE_MISSING⟩], []⟩
  | some io_handle =>
    if flags &&& d.ACCESS_FLAG_READ = 0 ∧ flags &&& d.ACCESS_FLAG_WRITE = 0 then
      ⟨.failure { h with file_io_pool := none }
        [⟨.ARGUMENTS, .ARGUMENT_ERROR_UNSUPPORTED_VALUE⟩], []⟩
    else if flags &&& d.ACCESS_FLAG_READ ≠ 0 then
      match open_file_io_pool_loop d env file_io_pool file_io_pool.handles.length 0 0
          { h with
            io_handle := some { io_handle with flags := flags }
            file_io_pool := some file_io_pool } with
      | ⟨.success h1, events⟩ =>
        match libvmdk_handle_open_read h1 h1.segment_table with
        | ⟨.success _, events_read⟩ => ⟨.success h1, events ++ events_read⟩
        | ⟨.failure _ error, events_read⟩ =>
          ⟨.failure { h1 with file_io_pool := none }
            (error ++ [⟨.IO_DOMAIN, .IO_ERROR_READ_FAILED⟩]), events ++ events_read⟩
        | ⟨.undefined, events_read⟩ => ⟨.undefined, events ++ events_read⟩
      | ⟨.failure h1 error, events⟩ => ⟨.failure { h1 with file_io_pool := none } error, events⟩
      | ⟨.undefined, events⟩ => ⟨.undefined, events⟩
    else
      ⟨.success { h with
        io_handle := some { io_handle with flags := flags }
        file_io_pool := some file_io_pool }, []⟩

/-- The loop of `libvmdk_handle_open` over the filenames; the second argument is the pool
entries added so far. On an error the events include the release of the file IO handle
`on_error` frees. -/
def open_filenames_loop (env : Environment) (pool : Nat) :
    List Filename → List libbfio_handle_t → Outcome (List libbfio_handle_t)
  | [], handles => ⟨.success handles, []⟩
  | filename :: filenames, handles =>
    if filename.length ≤ 4 then
      ⟨.failure handles [⟨.ARGUMENTS, .ARGUMENT_ERROR_VALUE_TOO_SMALL⟩], []⟩
    else if env.file_initialized filename then
      if env.file_name_set filename then
        if env.pool_handle_added filename then
          (open_filenames_loop env pool filenames (handles ++ [env.file filename])).after
            [.file_initialized filename, .file_name_set filename,
              .pool_handle_added pool handles.length]
        else
          ⟨.failure handles [⟨.RUNTIME, .RUNTIME_ERROR_APPEND_FAILED⟩],
            [.file_initialized filename, .file_name_set filename, .handle_freed filename]⟩
      else
        ⟨.failure handles [⟨.RUNTIME, .RUNTIME_ERROR_SET_FAILED⟩],
          [.file_initialized filename, .handle_freed filename]⟩
    else
      ⟨.failure handles [⟨.RUNTIME, .RUNTIME_ERROR_INITIALIZE_FAILED⟩], []⟩

/-- `libvmdk_handle_open`; the array of filenames and its count are one list. -/
def libvmdk_handle_open (d : Definitions) (env : Environment)
    (h : libvmdk_internal_handle_t) (filenames : List Filename) (flags : Nat) :
    Outcome libvmdk_internal_handle_t :=
  if filenames.length ≤ 0 then
    ⟨.failure h [⟨.ARGUMENTS, .ARGUMENT_ERROR_VALUE_ZERO_OR_LESS⟩], []⟩
  else if flags &&& d.ACCESS_FLAG_WRITE ≠ 0 then
    ⟨.failure h [⟨.ARGUMENTS, .ARGUMENT_ERROR_UNSUPPORTED_VALUE⟩], []⟩
  else
    match env.new_pool with
    | none => ⟨.failure h [⟨.RUNTIME, .RUNTIME_ERROR_INITIALIZE_FAILED⟩], []⟩
    | some pool =>
      match (if flags &&& d.ACCESS_FLAG_READ ≠ 0 then open_filenames_loop env pool filenames []
          else ⟨.success [], []⟩) with
      | ⟨.success handles, events⟩ =>
        match libvmdk_handle_open_file_io_pool d env h ⟨pool, handles⟩ flags with
        | ⟨.success h1, events_pool⟩ =>
          ⟨.success { h1 with file_io_pool_created_in_library := 1 },
            [.pool_initialized pool] ++ events ++ events_pool⟩
        | ⟨.failure h1 error, events_pool⟩ =>
          ⟨.failure h1 (error ++ [⟨.IO_DOMAIN, .IO_ERROR_OPEN_FAILED⟩]),
            [.pool_initialized pool] ++ events ++ events_pool ++ [.pool_freed pool]⟩
        | ⟨.undefined, events_pool⟩ =>
          ⟨.undefined, [.pool_initialized pool] ++ events ++ events_pool⟩
      | ⟨.failure _ error, events⟩ =>
        ⟨.failure h error, [.pool_initialized pool] ++ events ++ [.pool_freed pool]⟩
      | ⟨.undefined, events⟩ => ⟨.undefined, [.pool_initialized pool] ++ events⟩

/-- `libvmdk_handle_close`; it returns 0 for success. The pool is closed only when the flag
says the library created it; `libbfio_pool_close_all` on a NULL pool is taken to fail
without closing anything. -/
def libvmdk_handle_close (env : Environment) (h : libvmdk_internal_handle_t) :
    Outcome libvmdk_internal_handle_t :=
  if h.file_io_pool_created_in_library ≠ 0 then
    match h.file_io_pool with
    | some pool =>
      if env.pool_closed pool.id then
        ⟨.success h, [.pool_close_all pool.id]⟩
      else
        ⟨.failure h [⟨.IO_DOMAIN, .IO_ERROR_CLOSE_FAILED⟩], [.pool_close_all pool.id]⟩
    | none => ⟨.failure h [⟨.IO_DOMAIN, .IO_ERROR_CLOSE_FAILED⟩], []⟩
  else
    ⟨.success h, []⟩

/-- The constants with the values of the VMDK format: READ 1, WRITE 2, the file types as
letters, and the magics `COWD`, `KDMV` and `# Disk DescriptorFile`. -/
def vmdk_definitions : Definitions where
  ACCESS_FLAG_READ := 1
  ACCESS_FLAG_WRITE := 2
  FILE_TYPE_DESCRIPTOR_FILE := 100
  FILE_TYPE_RAW_DATA := 114
  FILE_TYPE_COWD_SPARSE_DATA := 99
  FILE_TYPE_VMDK_SPARSE_DATA := 118
  POOL_UNLIMITED_NUMBER_OF_OPEN_HANDLES := 0
  cowd_sparse_file_signature := [67, 79, 87, 68]
  vmdk_sparse_file_signature := [75, 68, 77, 86]
  vmdk_descriptor_file_signature :=
    [35, 32, 68, 105, 115, 107, 32, 68, 101, 115, 99, 114, 105, 112, 116, 111, 114, 70, 105,
      108, 101]

/-- A file that starts with the descriptor magic and a newline, padded to 32 bytes. -/
def descriptor_file : libbfio_handle_t :=
  ⟨false, false,
    [35, 32, 68, 105, 115, 107, 32, 68, 101, 115, 99, 114, 105, 112, 116, 111, 114, 70, 105,
      108, 101, 10, 0, 0, 0, 0, 0, 0, 0, 0, 0, 0], false⟩

/-- A sparse extent file of format A (`COWD`) with a header the extent file reader
accepts. -/
def cowd_file : libbfio_handle_t :=
  ⟨false, false, [67, 79, 87, 68] ++ List.replicate 28 0, true⟩

/-- A file of 32 zero bytes: no magic matches. -/
def unrecognized_file : libbfio_handle_t :=
  ⟨false, false, List.replicate 32 0, false⟩

/-- An environment in which every outside call succeeds, the library's pool gets the
identity 1, and every name refers to a descriptor file. -/
def obliging : Environment where
  handle_allocated := true
  segment_table_initialized := true
  io_handle_initialized := true
  new_pool := some 1
  file_initialized := fun _ => true
  file_name_set := fun _ => true
  pool_handle_added := fun _ => true
  file := fun _ => descriptor_file
  extent_file_initialized := fun _ => true
  pool_closed := fun _ => true

/-- The handle `libvmdk_handle_initialize` makes when every allocation succeeds. -/
def fresh_handle : libvmdk_internal_handle_t where
  io_handle := some ⟨0⟩
  segment_table := ⟨[none]⟩
  offset_table := cleared_offset_table
  file_io_pool := none
  file_io_pool_created_in_library := 0
  maximum_number_of_open_handles := 0
  abort := 0

/-- The three magics cannot be mistaken for one another on their first four bytes. -/
def magics_distinct (d : Definitions) : Prop :=
  d.cowd_sparse_file_signature.take 4 ≠ d.vmdk_sparse_file_signature.take 4 ∧
  d.vmdk_descriptor_file_signature.take 4 ≠ d.cowd_sparse_file_signature.take 4 ∧
  d.vmdk_descriptor_file_signature.take 4 ≠ d.vmdk_sparse_file_signature.take 4

instance (d : Definitions) : Decidable (magics_distinct d) := by
  unfold magics_distinct; infer_instance

/-- The name `d.vmdk`. -/
def disk_name : Filename := [100, 46, 118, 109, 100, 107]

/-- A pool a caller made, with the identity 7, holding one descriptor file. -/
def caller_pool : libbfio_pool_t := ⟨7, [descriptor_file]⟩

/-- The handle after `libvmdk_handle_open` of `fresh_handle` with the name `disk_name` for
reading in the `obliging` environment: the library's pool 1 and the flag that says so. -/
def library_opened_handle : libvmdk_internal_handle_t :=
  { fresh_handle with
    io_handle := some ⟨1⟩
    file_io_pool := some ⟨1, [descriptor_file]⟩
    file_io_pool_created_in_library := 1 }

/-- That handle after a later `libvmdk_handle_open_file_io_pool` with `caller_pool`. -/
def caller_opened_handle : libvmdk_internal_handle_t :=
  { library_opened_handle with file_io_pool := some caller_pool }

/-- A sparse extent file of format B (`KDMV`) with a header the extent file reader
accepts. -/
def vmdk_file : libbfio_handle_t :=
  ⟨false, false, [75, 68, 77, 86] ++ List.replicate 28 0, true⟩

/-- A file on which the seek succeeds and the read of the signature fails. -/
def unreadable_file : libbfio_handle_t :=
  ⟨false, true, [], false⟩

/-- No element of the block has a flag bit set. -/
def flags_clear (t : libvmdk_offset_table_t) : Prop :=
  ∀ (i : Nat) (e : libvmdk_grain_offset_t), (storage t)[i]? = some e → e.flags = 0

/-! ## Lemmas on the arithmetic, the decoding, resize and the two loops -/

theorem SSIZE_MAX_lt (p : Platform) : SSIZE_MAX p < 2 ^ p.size_bits := by
  unfold SSIZE_MAX
  have h1 : 2 ^ (p.size_bits - 1) ≤ 2 ^ p.size_bits :=
    Nat.pow_le_pow_right (by decide) (Nat.sub_le _ _)
  have h2 : 0 < 2 ^ (p.size_bits - 1) := Nat.two_pow_pos _
  omega

theorem size_t_of_le (p : Platform) (x : Nat) (h : x ≤ SSIZE_MAX p) : size_t p x = x := by
  unfold size_t
  exact Nat.mod_eq_of_lt (lt_of_le_of_lt h (SSIZE_MAX_lt p))

theorem grown_block (p : Platform) (m : Memory) (block : List libvmdk_grain_offset_t)
    (n : Nat) (hn : block.length ≤ n) :
    List.mapIdx (fun i e =>
        if block.length ≤ i ∧ p.sizeof_grain_offset * (i + 1)
            ≤ p.sizeof_grain_offset * block.length + p.sizeof_grain_offset * (n - block.length)
        then zero_grain_offset else e)
      ((List.range n).map (fun i => block.getD i (m.indeterminate i)))
      = block ++ List.replicate (n - block.length) zero_grain_offset := by
  apply List.ext_getElem?
  intro i
  rw [List.getElem?_mapIdx, List.getElem?_map]
  have hsum : p.sizeof_grain_offset * block.length
      + p.sizeof_grain_offset * (n - block.length) = p.sizeof_grain_offset * n := by
    rw [← Nat.mul_add]; congr 1; omega
  rw [hsum]
  by_cases hi : i < n
  · rw [List.getElem?_range hi]
    by_cases hb : i < block.length
    · have : ¬ block.length ≤ i := by omega
      simp [this, List.getElem?_append_left hb, List.getElem?_eq_getElem hb]
    · have hb' : block.length ≤ i := by omega
      have hle : p.sizeof_grain_offset * (i + 1) ≤ p.sizeof_grain_offset * n :=
        Nat.mul_le_mul_left _ hi
      rw [List.getElem?_append_right hb']
      have : i - block.length < n - block.length := by omega
      simp [hb', hle, List.getElem?_replicate_of_lt this]
  · have h1 : (List.range n)[i]? = none := by
      apply List.getElem?_eq_none; simp; omega
    have h2 : (block ++ List.replicate (n - block.length) zero_grain_offset)[i]? = none := by
      apply List.getElem?_eq_none; simp; omega
    simp [h1, h2]

theorem resize_grow (p : Platform) (m : Memory) (t : libvmdk_offset_table_t) (n : Nat)
    (hs : 0 < p.sizeof_grain_offset)
    (hlen : (storage t).length = t.number_of_grain_offsets)
    (hn : t.number_of_grain_offsets < n)
    (hcap : p.sizeof_grain_offset * n ≤ SSIZE_MAX p)
    (halloc : m.allocate (p.sizeof_grain_offset * n) = true) :
    libvmdk_offset_table_resize p m t n = .success { t with
      grain_offset := some (storage t ++
        List.replicate (n - t.number_of_grain_offsets) zero_grain_offset)
      number_of_grain_offsets := n } := by
  have h1 : size_t p (p.sizeof_grain_offset * n) = p.sizeof_grain_offset * n :=
    size_t_of_le p _ hcap
  have h2 : size_t p (p.sizeof_grain_offset * (n - t.number_of_grain_offsets))
      = p.sizeof_grain_offset * (n - t.number_of_grain_offsets) :=
    size_t_of_le p _ (le_trans (Nat.mul_le_mul_left _ (Nat.sub_le _ _)) hcap)
  have h3 : p.sizeof_grain_offset * n ≠ 0 := by
    have : 0 < p.sizeof_grain_offset * n := Nat.mul_pos hs (by omega)
    omega
  have h4 : p.sizeof_grain_offset * t.number_of_grain_offsets
      + p.sizeof_grain_offset * (n - t.number_of_grain_offsets) ≤ p.sizeof_grain_offset * n := by
    rw [← Nat.mul_add]; apply Nat.mul_le_mul_left; omega
  have h5 : p.sizeof_grain_offset * n / p.sizeof_grain_offset = n :=
    Nat.mul_div_cancel_left n hs
  have hg := grown_block p m (storage t) n (by omega)
  rw [hlen] at hg
  unfold libvmdk_offset_table_resize
  simp only [hn, if_true, h1, h2, h3, if_false, Nat.not_lt.mpr hcap, gt_iff_lt,
    memory_reallocate, halloc, memory_set, h4, h5]
  simp only [storage] at hg
  rw [hg]
  rfl

theorem little_endian_u32_lt (grain_table : List Byte) (i : Nat) :
    little_endian_u32 grain_table i < 2 ^ 32 := by
  unfold little_endian_u32
  have h0 := (grain_table.getD (4 * i) 0).isLt
  have h1 := (grain_table.getD (4 * i + 1) 0).isLt
  have h2 := (grain_table.getD (4 * i + 2) 0).isLt
  have h3 := (grain_table.getD (4 * i + 3) 0).isLt
  omega

theorem little_endian_u32_zero (b0 b1 b2 b3 : Byte) (rest : List Byte) :
    little_endian_u32 (b0 :: b1 :: b2 :: b3 :: rest) 0
      = byte_stream_copy_to_uint32_little_endian b0 b1 b2 b3 := by
  simp [little_endian_u32, byte_stream_copy_to_uint32_little_endian]

theorem little_endian_u32_succ (b0 b1 b2 b3 : Byte) (rest : List Byte) (i : Nat) :
    little_endian_u32 (b0 :: b1 :: b2 :: b3 :: rest) (i + 1) = little_endian_u32 rest i := by
  have e0 : 4 * (i + 1) = 4 * i + 1 + 1 + 1 + 1 := by omega
  have e1 : 4 * (i + 1) + 1 = 4 * i + 1 + 1 + 1 + 1 + 1 := by omega
  have e2 : 4 * (i + 1) + 2 = 4 * i + 2 + 1 + 1 + 1 + 1 := by omega
  have e3 : 4 * (i + 1) + 3 = 4 * i + 3 + 1 + 1 + 1 + 1 := by omega
  unfold little_endian_u32
  rw [e3, e2, e1, e0]
  simp only [List.getD_cons_succ]

theorem off64_t_of_range (x : Int) (h0 : 0 ≤ x) (h1 : x < 2 ^ 41) : off64_t x = x := by
  unfold off64_t
  omega

theorem current_offset_eq (b0 b1 b2 b3 : Byte) :
    current_offset b0 b1 b2 b3
      = (byte_stream_copy_to_uint32_little_endian b0 b1 b2 b3 : Int) * 512 := by
  have h0 := b0.isLt
  have h1 := b1.isLt
  have h2 := b2.isLt
  have h3 := b3.isLt
  have hlt : byte_stream_copy_to_uint32_little_endian b0 b1 b2 b3 < 2 ^ 32 := by
    unfold byte_stream_copy_to_uint32_little_endian
    omega
  have hl : ((byte_stream_copy_to_uint32_little_endian b0 b1 b2 b3 : Nat) : Int) < 2 ^ 32 := by
    exact_mod_cast hlt
  have hp : (0 : Int) ≤ (byte_stream_copy_to_uint32_little_endian b0 b1 b2 b3 : Nat) :=
    Int.ofNat_nonneg _
  unfold current_offset LIBVMDK_SECTOR_SIZE
  rw [off64_t_of_range _ hp (by omega)]
  exact off64_t_of_range _ (by omega) (by omega)

theorem filled_entry_zero (b0 b1 b2 b3 : Byte) (rest : List Byte) (g : Nat)
    (e : libvmdk_grain_offset_t) :
    (⟨current_offset b0 b1 b2 b3, current_size (current_offset b0 b1 b2 b3) g, e.flags⟩ :
      libvmdk_grain_offset_t) = filled_entry (b0 :: b1 :: b2 :: b3 :: rest) g 0 e := by
  simp only [filled_entry, little_endian_u32_zero, current_offset_eq, current_size]

theorem filled_entry_succ (b0 b1 b2 b3 : Byte) (rest : List Byte) (g i : Nat) :
    filled_entry (b0 :: b1 :: b2 :: b3 :: rest) g (i + 1) = filled_entry rest g i := by
  funext e
  simp only [filled_entry, little_endian_u32_succ]

/-- What the loop of fill does when the block has room for the entries left: it ends with
success, moves `last_grain_offset_filled` by the number of entries, writes the decoded
entries in buffer order from the old `last_grain_offset_filled` on, and leaves every other
element and field alone. -/
theorem fill_loop_spec (g : Nat) :
    ∀ (k : Nat) (grain_table : List Byte) (t : libvmdk_offset_table_t)
      (block : List libvmdk_grain_offset_t),
      t.grain_offset = some block → grain_table.length = 4 * k →
      t.last_grain_offset_filled + k ≤ block.length → block.length < 2 ^ 32 →
      ∃ block', fill_loop g k grain_table t = .success { t with
          grain_offset := some block'
          last_grain_offset_filled := t.last_grain_offset_filled + k } ∧
        block'.length = block.length ∧
        (∀ j, j < t.last_grain_offset_filled ∨ t.last_grain_offset_filled + k ≤ j →
          block'[j]? = block[j]?) ∧
        (∀ i, i < k → block'[t.last_grain_offset_filled + i]?
          = (block[t.last_grain_offset_filled + i]?).map (filled_entry grain_table g i)) := by
  intro k
  induction k with
  | zero =>
    intro grain_table t block hb _ _ _
    refine ⟨block, ?_, rfl, fun _ _ => rfl, fun i hi => absurd hi (Nat.not_lt_zero i)⟩
    simp [fill_loop, ← hb]
  | succ k ih =>
    intro grain_table t block hb hlen hroom hmax
    match grain_table, hlen with
    | b0 :: b1 :: b2 :: b3 :: rest, hlen =>
      have hL : t.last_grain_offset_filled < block.length := by omega
      have hrest : rest.length = 4 * k := by
        simp only [List.length_cons] at hlen; omega
      have hu : uint32_t (t.last_grain_offset_filled + 1) = t.last_grain_offset_filled + 1 := by
        unfold uint32_t; apply Nat.mod_eq_of_lt; omega
      obtain ⟨block', h1, h2, h3, h4⟩ := ih rest
        { t with
          grain_offset := some (block.set t.last_grain_offset_filled
            (filled_entry (b0 :: b1 :: b2 :: b3 :: rest) g 0 block[t.last_grain_offset_filled]))
          last_grain_offset_filled := t.last_grain_offset_filled + 1 }
        (block.set t.last_grain_offset_filled
            (filled_entry (b0 :: b1 :: b2 :: b3 :: rest) g 0 block[t.last_grain_offset_filled]))
        rfl hrest (by simp only [List.length_set]; omega) (by simp only [List.length_set]; omega)
      dsimp only at h1 h3 h4
      refine ⟨block', ?_, ?_, ?_, ?_⟩
      · simp only [fill_loop, hb, List.getElem?_eq_getElem hL, hu, filled_entry_zero b0 b1 b2 b3 rest g]
        rw [h1]
        simp only [Nat.add_assoc, Nat.add_comm 1 k]
      · rw [h2, List.length_set]
      · intro j hj
        rw [h3 j (by omega), List.getElem?_set_ne (by omega)]
      · intro i hi
        cases i with
        | zero =>
          rw [Nat.add_zero, h3 _ (Or.inl (by omega)),
            List.getElem?_set_self hL, List.getElem?_eq_getElem hL]
          rfl
        | succ i =>
          have h5 := h4 i (by omega)
          rw [show t.last_grain_offset_filled + (i + 1)
            = t.last_grain_offset_filled + 1 + i from by omega, h5,
            List.getElem?_set_ne (by omega), filled_entry_succ]
    | [], hlen => simp at hlen
    | [_], hlen => simp at hlen; omega
    | [_, _], hlen => simp at hlen; omega
    | [_, _, _], hlen => simp at hlen; omega

/-- The loop of fill on a table whose block has room, stated on `storage`. -/
theorem fill_loop_storage (g k : Nat) (grain_table : List Byte) (t : libvmdk_offset_table_t)
    (hlen : grain_table.length = 4 * k)
    (hroom : t.last_grain_offset_filled + k ≤ (storage t).length)
    (hmax : (storage t).length < 2 ^ 32) :
    ∃ t', fill_loop g k grain_table t = .success t' ∧
      t'.number_of_grain_offsets = t.number_of_grain_offsets ∧
      t'.last_grain_offset_filled = t.last_grain_offset_filled + k ∧
      t'.last_grain_offset_compared = t.last_grain_offset_compared ∧
      t'.grain_offset.isSome = t.grain_offset.isSome ∧
      (storage t').length = (storage t).length ∧
      (∀ j, j < t.last_grain_offset_filled ∨ t.last_grain_offset_filled + k ≤ j →
        (storage t')[j]? = (storage t)[j]?) ∧
      (∀ i, i < k → (storage t')[t.last_grain_offset_filled + i]?
        = ((storage t)[t.last_grain_offset_filled + i]?).map (filled_entry grain_table g i)) := by
  obtain ⟨N, L, C, go⟩ := t
  cases go with
  | none =>
    have hk : k = 0 := by simp [storage] at hroom; omega
    subst hk
    refine ⟨_, by simp [fill_loop], rfl, rfl, rfl, rfl, rfl, fun _ _ => rfl,
      fun i hi => absurd hi (Nat.not_lt_zero i)⟩
  | some block =>
    simp only [storage, Option.getD_some] at hroom hmax ⊢
    obtain ⟨block', h1, h2, h3, h4⟩ :=
      fill_loop_spec g k grain_table ⟨N, L, C, some block⟩ block rfl hlen hroom hmax
    exact ⟨_, h1, rfl, rfl, rfl, rfl, h2, h3, h4⟩

theorem uint32_t_of_lt (x : Nat) (h : x < 2 ^ 32) : uint32_t x = x :=
  Nat.mod_eq_of_lt h

/-- The body of C1 with the conditions under which the code reaches the loop with room:
fill succeeds and the table it leaves is described field by field. -/
theorem fill_spec (p : Platform) (m : Memory) (t : libvmdk_offset_table_t)
    (grain_table : List Byte) (k g : Nat)
    (hs : 0 < p.sizeof_grain_offset) (hv : valid t)
    (hlen : grain_table.length = 4 * k) (hsize : 4 * k ≤ SSIZE_MAX p)
    (hg0 : g ≠ 0) (hg : g ≤ SSIZE_MAX p)
    (hsum : t.last_grain_offset_filled + k < 2 ^ 32)
    (hgrow : t.number_of_grain_offsets < t.last_grain_offset_filled + k →
      p.sizeof_grain_offset * (t.last_grain_offset_filled + k) ≤ SSIZE_MAX p ∧
      m.allocate (p.sizeof_grain_offset * (t.last_grain_offset_filled + k)) = true) :
    ∃ t', libvmdk_offset_table_fill p m t grain_table (4 * k) k g = .success t' ∧
      t'.last_grain_offset_filled = t.last_grain_offset_filled + k ∧
      t'.last_grain_offset_compared = t.last_grain_offset_compared ∧
      t'.number_of_grain_offsets
        = max t.number_of_grain_offsets (t.last_grain_offset_filled + k) ∧
      (storage t').length = t'.number_of_grain_offsets ∧
      (t'.grain_offset = none ↔ t.grain_offset = none ∧
        t.last_grain_offset_filled + k ≤ t.number_of_grain_offsets) ∧
      (∀ i, i < k → (storage t')[t.last_grain_offset_filled + i]?
        = some (filled_entry grain_table g i
            ((storage t).getD (t.last_grain_offset_filled + i) zero_grain_offset))) ∧
      (∀ j, j < t.last_grain_offset_filled ∨ t.last_grain_offset_filled + k ≤ j →
        (storage t')[j]? = (storage t ++ List.replicate
          (t.last_grain_offset_filled + k - t.number_of_grain_offsets) zero_grain_offset)[j]?) := by
  obtain ⟨hN, hL, hC, hst⟩ := hv
  have hq : 4 * k / 4 = k := Nat.mul_div_cancel_left k (by decide)
  have hr : 4 * k % 4 = 0 := Nat.mul_mod_right 4 k
  unfold libvmdk_offset_table_fill
  simp only [gt_iff_lt, Nat.not_lt.mpr hsize, if_false, hr, ne_eq, not_true_eq_false, hq,
    hg0, Nat.not_lt.mpr hg, uint32_t_of_lt _ hsum]
  by_cases hlt : t.number_of_grain_offsets < t.last_grain_offset_filled + k
  · obtain ⟨hcap, halloc⟩ := hgrow hlt
    rw [if_pos hlt, resize_grow p m t _ hs hst hlt hcap halloc]
    simp only []
    obtain ⟨t', h1, h2, h3, h4, h5, h6, h7, h8⟩ := fill_loop_storage g k grain_table
      { t with
        grain_offset := some (storage t ++ List.replicate
          (t.last_grain_offset_filled + k - t.number_of_grain_offsets) zero_grain_offset)
        number_of_grain_offsets := t.last_grain_offset_filled + k } hlen
      (by simp [storage] at hst ⊢; omega) (by simp [storage] at hst ⊢; omega)
    refine ⟨t', h1, h3, h4, ?_, ?_, ?_, ?_, ?_⟩
    · rw [h2]; simp only []; omega
    · rw [h6, h2]; simp [storage] at hst ⊢; omega
    · constructor
      · intro hnone; rw [hnone] at h5; simp at h5
      · intro ⟨_, hle⟩; omega
    · intro i hi
      have := h8 i hi
      simp only [storage, Option.getD_some] at this ⊢
      rw [this]
      have hidx : t.last_grain_offset_filled + i < (t.grain_offset.getD [] ++ List.replicate
          (t.last_grain_offset_filled + k - t.number_of_grain_offsets)
            zero_grain_offset).length := by
        simp [storage] at hst ⊢; omega
      rw [List.getElem?_eq_getElem hidx, Option.map_some']
      congr 2
      by_cases hin : t.last_grain_offset_filled + i < (t.grain_offset.getD []).length
      · rw [List.getElem_append_left hin]
        simp [List.getD_eq_getElem?_getD, List.getElem?_eq_getElem hin]
      · rw [List.getElem_append_right (by omega)]
        simp [List.getD_eq_getElem?_getD, List.getElem?_eq_none (Nat.le_of_not_lt hin)]
    · intro j hj
      have := h7 j hj
      simpa [storage] using this
  · rw [if_neg hlt]
    obtain ⟨t', h1, h2, h3, h4, h5, h6, h7, h8⟩ := fill_loop_storage g k grain_table t hlen
      (by omega) (by omega)
    have hrep : t.last_grain_offset_filled + k - t.number_of_grain_offsets = 0 := by omega
    refine ⟨t', h1, h3, h4, ?_, ?_, ?_, ?_, ?_⟩
    · rw [h2]; omega
    · rw [h6, h2]; exact hst
    · constructor
      · intro hnone
        rw [hnone] at h5
        refine ⟨?_, by omega⟩
        cases hb : t.grain_offset with
        | none => rfl
        | some b => rw [hb] at h5; simp at h5
      · intro ⟨hnone, _⟩
        rw [hnone] at h5
        cases hb : t'.grain_offset with
        | none => rfl
        | some b => rw [hb] at h5; simp at h5
    · intro i hi
      rw [h8 i hi]
      have hin : t.last_grain_offset_filled + i < (storage t).length := by omega
      simp [List.getD_eq_getElem?_getD, List.getElem?_eq_getElem hin]
    · intro j hj
      rw [h7 j hj, hrep]
      simp

/-- Growth within `SSIZE_MAX` bytes that the allocator grants, on any table: the new block
has `n` elements, those below the old count are what the old block held there (or what
fresh storage holds, where the old block was shorter), the others are zero. -/
theorem resize_grow_general (p : Platform) (m : Memory) (t : libvmdk_offset_table_t) (n : Nat)
    (hs : 0 < p.sizeof_grain_offset)
    (hn : t.number_of_grain_offsets < n)
    (hcap : p.sizeof_grain_offset * n ≤ SSIZE_MAX p)
    (halloc : m.allocate (p.sizeof_grain_offset * n) = true) :
    libvmdk_offset_table_resize p m t n = .success { t with
      grain_offset := some ((List.range n).map (fun i =>
        if t.number_of_grain_offsets ≤ i then zero_grain_offset
        else (storage t).getD i (m.indeterminate i)))
      number_of_grain_offsets := n } := by
  have h1 : size_t p (p.sizeof_grain_offset * n) = p.sizeof_grain_offset * n :=
    size_t_of_le p _ hcap
  have h2 : size_t p (p.sizeof_grain_offset * (n - t.number_of_grain_offsets))
      = p.sizeof_grain_offset * (n - t.number_of_grain_offsets) :=
    size_t_of_le p _ (le_trans (Nat.mul_le_mul_left _ (Nat.sub_le _ _)) hcap)
  have h3 : p.sizeof_grain_offset * n ≠ 0 := by
    have : 0 < p.sizeof_grain_offset * n := Nat.mul_pos hs (by omega)
    omega
  have h4 : p.sizeof_grain_offset * t.number_of_grain_offsets
      + p.sizeof_grain_offset * (n - t.number_of_grain_offsets) = p.sizeof_grain_offset * n := by
    rw [← Nat.mul_add]; congr 1; omega
  have h5 : p.sizeof_grain_offset * n / p.sizeof_grain_offset = n :=
    Nat.mul_div_cancel_left n hs
  unfold libvmdk_offset_table_resize
  simp only [hn, if_true, h1, h2, h3, false_and, if_false, Nat.not_lt.mpr hcap, gt_iff_lt,
    memory_reallocate, halloc, memory_set, h4, h5, le_refl]
  congr 3
  apply List.ext_getElem?
  intro i
  rw [List.getElem?_mapIdx, List.getElem?_map, List.getElem?_map]
  by_cases hi : i < n
  · rw [List.getElem?_range hi]
    have hle : p.sizeof_grain_offset * (i + 1) ≤ p.sizeof_grain_offset * n :=
      Nat.mul_le_mul_left _ hi
    simp only [Option.map_some', hle, and_true, storage]
  · have h6 : (List.range n)[i]? = none := by
      apply List.getElem?_eq_none; simp; omega
    simp [h6]

/-- What a successful growth tells: the byte size the code computed passed the guard, the
allocator granted it, and the new block has as many whole elements as fit in it. -/
theorem resize_success_inv (p : Platform) (m : Memory) (t t' : libvmdk_offset_table_t)
    (n : Nat) (hn : t.number_of_grain_offsets < n)
    (h : libvmdk_offset_table_resize p m t n = .success t') :
    size_t p (p.sizeof_grain_offset * n) ≤ SSIZE_MAX p ∧
    m.allocate (size_t p (p.sizeof_grain_offset * n)) = true ∧
    (storage t').length = size_t p (p.sizeof_grain_offset * n) / p.sizeof_grain_offset ∧
    t'.number_of_grain_offsets = n ∧
    t'.last_grain_offset_filled = t.last_grain_offset_filled ∧
    t'.last_grain_offset_compared = t.last_grain_offset_compared := by
  unfold libvmdk_offset_table_resize at h
  rw [if_pos hn] at h
  simp only [gt_iff_lt] at h
  split at h
  · exact absurd h (by simp)
  · rename_i hcap
    split at h
    · exact absurd h (by simp)
    · cases ha : m.allocate (size_t p (p.sizeof_grain_offset * n)) with
      | false => simp [memory_reallocate, ha] at h
      | true =>
        simp only [memory_reallocate, ha, if_true, memory_set] at h
        split at h
        · exact absurd h (by simp)
        · rename_i block hset
          simp only [Result.success.injEq] at h
          subst h
          split at hset
          · simp only [Option.some.injEq] at hset
            subst hset
            refine ⟨Nat.le_of_not_lt hcap, rfl, ?_, rfl, rfl, rfl⟩
            simp [storage]
          · exact absurd hset (by simp)

/-- A failing resize leaves the table as it was. -/
theorem resize_failure_unchanged (p : Platform) (m : Memory) (t t' : libvmdk_offset_table_t)
    (n : Nat) (e : List libcerror_error_t)
    (h : libvmdk_offset_table_resize p m t n = .failure t' e) : t' = t := by
  unfold libvmdk_offset_table_resize at h
  split at h
  · simp only [gt_iff_lt] at h
    split at h
    · simp only [Result.failure.injEq] at h; exact h.1.symm
    · split at h
      · exact absurd h (by simp)
      · split at h
        · simp only [Result.failure.injEq] at h; exact h.1.symm
        · split at h <;> exact absurd h (by simp)
  · exact absurd h (by simp)

theorem set_getElem_same {α : Type} (l : List α) (i : Nat) (h : i < l.length) :
    l.set i l[i] = l := by
  apply List.ext_getElem?
  intro j
  by_cases hij : i = j
  · subst hij
    rw [List.getElem?_set_self h, List.getElem?_eq_getElem h]
  · rw [List.getElem?_set_ne hij]

theorem compared_entry_succ (p : Platform) (b0 b1 b2 b3 : Byte) (rest : List Byte) (i : Nat) :
    compared_entry p (b0 :: b1 :: b2 :: b3 :: rest) (i + 1) = compared_entry p rest i := by
  funext e
  simp only [compared_entry, little_endian_u32_succ]

/-- What the loop of compare does when the block has room for the entries left: it ends
with success whatever the offsets are, moves `last_grain_offset_compared` by the number of
entries, and changes nothing but the flags of the elements whose offset disagrees. -/
theorem compare_loop_spec (p : Platform) (g : Nat) :
    ∀ (k : Nat) (grain_table : List Byte) (t : libvmdk_offset_table_t)
      (block : List libvmdk_grain_offset_t),
      t.grain_offset = some block → grain_table.length = 4 * k →
      t.last_grain_offset_compared + k ≤ block.length → block.length < 2 ^ 32 →
      ∃ block', compare_loop p g k grain_table t = .success { t with
          grain_offset := some block'
          last_grain_offset_compared := t.last_grain_offset_compared + k } ∧
        block'.length = block.length ∧
        (∀ j, j < t.last_grain_offset_compared ∨ t.last_grain_offset_compared + k ≤ j →
          block'[j]? = block[j]?) ∧
        (∀ i, i < k → block'[t.last_grain_offset_compared + i]?
          = (block[t.last_grain_offset_compared + i]?).map (compared_entry p grain_table i)) := by
  intro k
  induction k with
  | zero =>
    intro grain_table t block hb _ _ _
    refine ⟨block, ?_, rfl, fun _ _ => rfl, fun i hi => absurd hi (Nat.not_lt_zero i)⟩
    simp [compare_loop, ← hb]
  | succ k ih =>
    intro grain_table t block hb hlen hroom hmax
    match grain_table, hlen with
    | b0 :: b1 :: b2 :: b3 :: rest, hlen =>
      have hL : t.last_grain_offset_compared < block.length := by omega
      have hrest : rest.length = 4 * k := by
        simp only [List.length_cons] at hlen; omega
      have hu : uint32_t (t.last_grain_offset_compared + 1)
          = t.last_grain_offset_compared + 1 := by
        unfold uint32_t; apply Nat.mod_eq_of_lt; omega
      have hset : (if block[t.last_grain_offset_compared].file_offset
            ≠ current_offset b0 b1 b2 b3 then
          some (block.set t.last_grain_offset_compared
            ⟨block[t.last_grain_offset_compared].file_offset,
              block[t.last_grain_offset_compared].size,
              clear_corrupted p block[t.last_grain_offset_compared].flags⟩)
          else some block)
          = some (block.set t.last_grain_offset_compared
              (compared_entry p (b0 :: b1 :: b2 :: b3 :: rest) 0
                block[t.last_grain_offset_compared])) := by
        simp only [compared_entry, little_endian_u32_zero, current_offset_eq]
        split
        · rfl
        · rw [set_getElem_same block _ hL]
      obtain ⟨block', h1, h2, h3, h4⟩ := ih rest
        { t with
          grain_offset := some (block.set t.last_grain_offset_compared
            (compared_entry p (b0 :: b1 :: b2 :: b3 :: rest) 0
              block[t.last_grain_offset_compared]))
          last_grain_offset_compared := t.last_grain_offset_compared + 1 }
        (block.set t.last_grain_offset_compared
            (compared_entry p (b0 :: b1 :: b2 :: b3 :: rest) 0
              block[t.last_grain_offset_compared]))
        rfl hrest (by simp only [List.length_set]; omega) (by simp only [List.length_set]; omega)
      dsimp only at h1 h3 h4
      refine ⟨block', ?_, ?_, ?_, ?_⟩
      · simp only [compare_loop, hb, List.getElem?_eq_getElem hL, hu, hset]
        rw [h1]
        simp only [Nat.add_assoc, Nat.add_comm 1 k]
      · rw [h2, List.length_set]
      · intro j hj
        rw [h3 j (by omega), List.getElem?_set_ne (by omega)]
      · intro i hi
        cases i with
        | zero =>
          rw [Nat.add_zero, h3 _ (Or.inl (by omega)),
            List.getElem?_set_self hL, List.getElem?_eq_getElem hL]
          rfl
        | succ i =>
          have h5 := h4 i (by omega)
          rw [show t.last_grain_offset_compared + (i + 1)
            = t.last_grain_offset_compared + 1 + i from by omega, h5,
            List.getElem?_set_ne (by omega), compared_entry_succ]
    | [], hlen => simp at hlen
    | [_], hlen => simp at hlen; omega
    | [_, _], hlen => simp at hlen; omega
    | [_, _, _], hlen => simp at hlen; omega

/-- The loop of compare on a table whose block has room, stated on `storage`. -/
theorem compare_loop_storage (p : Platform) (g k : Nat) (grain_table : List Byte)
    (t : libvmdk_offset_table_t)
    (hlen : grain_table.length = 4 * k)
    (hroom : t.last_grain_offset_compared + k ≤ (storage t).length)
    (hmax : (storage t).length < 2 ^ 32) :
    ∃ t', compare_loop p g k grain_table t = .success t' ∧
      t'.number_of_grain_offsets = t.number_of_grain_offsets ∧
      t'.last_grain_offset_filled = t.last_grain_offset_filled ∧
      t'.last_grain_offset_compared = t.last_grain_offset_compared + k ∧
      t'.grain_offset.isSome = t.grain_offset.isSome ∧
      (storage t').length = (storage t).length ∧
      (∀ j, j < t.last_grain_offset_compared ∨ t.last_grain_offset_compared + k ≤ j →
        (storage t')[j]? = (storage t)[j]?) ∧
      (∀ i, i < k → (storage t')[t.last_grain_offset_compared + i]?
        = ((storage t)[t.last_grain_offset_compared + i]?).map
            (compared_entry p grain_table i)) := by
  obtain ⟨N, L, C, go⟩ := t
  cases go with
  | none =>
    have hk : k = 0 := by simp [storage] at hroom; omega
    subst hk
    refine ⟨_, by simp [compare_loop], rfl, rfl, rfl, rfl, rfl, fun _ _ => rfl,
      fun i hi => absurd hi (Nat.not_lt_zero i)⟩
  | some block =>
    simp only [storage, Option.getD_some] at hroom hmax ⊢
    obtain ⟨block', h1, h2, h3, h4⟩ :=
      compare_loop_spec p g k grain_table ⟨N, L, C, some block⟩ block rfl hlen hroom hmax
    exact ⟨_, h1, rfl, rfl, rfl, rfl, h2, h3, h4⟩

/-- Compare under the conditions that bring the code to its loop with room: the call
succeeds and the table it leaves is described field by field. -/
theorem compare_spec (p : Platform) (m : Memory) (t : libvmdk_offset_table_t)
    (grain_table : List Byte) (k g : Nat)
    (hs : 0 < p.sizeof_grain_offset) (hv : valid t)
    (hlen : grain_table.length = 4 * k) (hsize : 4 * k ≤ SSIZE_MAX p)
    (hg0 : g ≠ 0) (hg : g ≤ SSIZE_MAX p)
    (hsum : t.last_grain_offset_compared + k < 2 ^ 32)
    (hgrow : t.number_of_grain_offsets < t.last_grain_offset_compared + k →
      p.sizeof_grain_offset * (t.last_grain_offset_compared + k) ≤ SSIZE_MAX p ∧
      m.allocate (p.sizeof_grain_offset * (t.last_grain_offset_compared + k)) = true) :
    ∃ t', libvmdk_offset_table_compare p m t grain_table (4 * k) k g = .success t' ∧
      t'.last_grain_offset_compared = t.last_grain_offset_compared + k ∧
      t'.last_grain_offset_filled = t.last_grain_offset_filled ∧
      t'.number_of_grain_offsets
        = max t.number_of_grain_offsets (t.last_grain_offset_compared + k) ∧
      (storage t').length = t'.number_of_grain_offsets ∧
      (∀ i, i < k → (storage t')[t.last_grain_offset_compared + i]?
        = some (compared_entry p grain_table i
            ((storage t).getD (t.last_grain_offset_compared + i) zero_grain_offset))) ∧
      (∀ j, j < t.last_grain_offset_compared ∨ t.last_grain_offset_compared + k ≤ j →
        (storage t')[j]? = (storage t ++ List.replicate
          (t.last_grain_offset_compared + k - t.number_of_grain_offsets)
            zero_grain_offset)[j]?) := by
  obtain ⟨hN, hL, hC, hst⟩ := hv
  have hq : 4 * k / 4 = k := Nat.mul_div_cancel_left k (by decide)
  have hr : 4 * k % 4 = 0 := Nat.mul_mod_right 4 k
  unfold libvmdk_offset_table_compare
  simp only [gt_iff_lt, Nat.not_lt.mpr hsize, if_false, hr, ne_eq, not_true_eq_false, hq,
    hg0, Nat.not_lt.mpr hg, uint32_t_of_lt _ hsum]
  by_cases hlt : t.number_of_grain_offsets < t.last_grain_offset_compared + k
  · obtain ⟨hcap, halloc⟩ := hgrow hlt
    rw [if_pos hlt, resize_grow p m t _ hs hst hlt hcap halloc]
    simp only []
    obtain ⟨t', h1, h2, h3, h4, h5, h6, h7, h8⟩ := compare_loop_storage p g k grain_table
      { t with
        grain_offset := some (storage t ++ List.replicate
          (t.last_grain_offset_compared + k - t.number_of_grain_offsets) zero_grain_offset)
        number_of_grain_offsets := t.last_grain_offset_compared + k } hlen
      (by simp [storage] at hst ⊢; omega) (by simp [storage] at hst ⊢; omega)
    refine ⟨t', h1, h4, h3, ?_, ?_, ?_, ?_⟩
    · rw [h2]; simp only []; omega
    · rw [h6, h2]; simp [storage] at hst ⊢; omega
    · intro i hi
      have := h8 i hi
      simp only [storage, Option.getD_some] at this ⊢
      rw [this]
      have hidx : t.last_grain_offset_compared + i < (t.grain_offset.getD [] ++ List.replicate
          (t.last_grain_offset_compared + k - t.number_of_grain_offsets)
            zero_grain_offset).length := by
        simp [storage] at hst ⊢; omega
      rw [List.getElem?_eq_getElem hidx, Option.map_some']
      congr 2
      by_cases hin : t.last_grain_offset_compared + i < (t.grain_offset.getD []).length
      · rw [List.getElem_append_left hin]
        simp [List.getD_eq_getElem?_getD, List.getElem?_eq_getElem hin]
      · rw [List.getElem_append_right (by omega)]
        simp [List.getD_eq_getElem?_getD, List.getElem?_eq_none (Nat.le_of_not_lt hin)]
    · intro j hj
      have := h7 j hj
      simpa [storage] using this
  · rw [if_neg hlt]
    obtain ⟨t', h1, h2, h3, h4, h5, h6, h7, h8⟩ := compare_loop_storage p g k grain_table t hlen
      (by omega) (by omega)
    have hrep : t.last_grain_offset_compared + k - t.number_of_grain_offsets = 0 := by omega
    refine ⟨t', h1, h4, h3, ?_, ?_, ?_, ?_⟩
    · rw [h2]; omega
    · rw [h6, h2]; exact hst
    · intro i hi
      rw [h8 i hi]
      have hin : t.last_grain_offset_compared + i < (storage t).length := by omega
      simp [List.getD_eq_getElem?_getD, List.getElem?_eq_getElem hin]
    · intro j hj
      rw [h7 j hj, hrep]
      simp

/-- A loop of fill that ends with success had room in the block for every entry and four
bytes in the buffer for each. -/
theorem fill_loop_room (g : Nat) :
    ∀ (k : Nat) (grain_table : List Byte) (t t' : libvmdk_offset_table_t),
      (storage t).length < 2 ^ 32 → fill_loop g k grain_table t = .success t' →
      (0 < k → t.last_grain_offset_filled + k ≤ (storage t).length) ∧
        4 * k ≤ grain_table.length := by
  intro k
  induction k with
  | zero =>
    intro grain_table t t' _ _
    exact ⟨fun h => absurd h (Nat.lt_irrefl 0), Nat.zero_le _⟩
  | succ k ih =>
    intro grain_table t t' hmax h
    obtain ⟨N, L, C, go⟩ := t
    match grain_table, h with
    | b0 :: b1 :: b2 :: b3 :: rest, h =>
      cases go with
      | none => simp [fill_loop] at h
      | some block =>
        simp only [storage, Option.getD_some] at hmax ⊢
        by_cases hL : L < block.length
        · simp only [fill_loop, List.getElem?_eq_getElem hL] at h
          have hu : uint32_t (L + 1) = L + 1 := uint32_t_of_lt _ (by omega)
          rw [hu] at h
          obtain ⟨h1, h2⟩ := ih rest _ t' (by simp [storage]; omega) h
          simp only [storage, Option.getD_some, List.length_set] at h1
          simp only [List.length_cons]
          refine ⟨fun _ => ?_, by omega⟩
          by_cases hk0 : 0 < k
          · have := h1 hk0
            omega
          · omega
        · simp [fill_loop, List.getElem?_eq_none (Nat.le_of_not_lt hL)] at h
    | [], h => simp [fill_loop] at h
    | [_], h => simp [fill_loop] at h
    | [_, _], h => simp [fill_loop] at h
    | [_, _, _], h => simp [fill_loop] at h

/-- A fill that succeeds on a valid table passed every guard, had an index sum that fits
32 bits, and, where the table had to grow, a byte size within `SSIZE_MAX` that the
allocator granted. -/
theorem fill_success_inv (p : Platform) (m : Memory) (t t' : libvmdk_offset_table_t)
    (grain_table : List Byte) (k g : Nat)
    (hs : 0 < p.sizeof_grain_offset) (hv : valid t)
    (hLN : t.last_grain_offset_filled ≤ t.number_of_grain_offsets) (hk : k < 2 ^ 32)
    (h : libvmdk_offset_table_fill p m t grain_table grain_table.length k g = .success t') :
    grain_table.length = 4 * k ∧ 4 * k ≤ SSIZE_MAX p ∧ g ≠ 0 ∧ g ≤ SSIZE_MAX p ∧
    t.last_grain_offset_filled + k < 2 ^ 32 ∧
    (t.number_of_grain_offsets < t.last_grain_offset_filled + k →
      p.sizeof_grain_offset * (t.last_grain_offset_filled + k) ≤ SSIZE_MAX p ∧
      m.allocate (p.sizeof_grain_offset * (t.last_grain_offset_filled + k)) = true) := by
  obtain ⟨hN, hL, hC, hst⟩ := hv
  unfold libvmdk_offset_table_fill at h
  split at h
  · exact absurd h (by simp)
  rename_i h1
  split at h
  · exact absurd h (by simp)
  rename_i h2
  split at h
  · exact absurd h (by simp)
  rename_i h3
  split at h
  · exact absurd h (by simp)
  rename_i h4
  split at h
  · exact absurd h (by simp)
  rename_i h5
  have hlen : grain_table.length = 4 * k := by
    simp only [ne_eq, not_not] at h2 h3
    omega
  have hu : uint32_t (t.last_grain_offset_filled + k) ≤ t.last_grain_offset_filled + k :=
    Nat.mod_le _ _
  have hu2 : uint32_t (t.last_grain_offset_filled + k) < 2 ^ 32 :=
    Nat.mod_lt _ (Nat.two_pow_pos 32)
  refine ⟨hlen, by omega, h4, by omega, ?_⟩
  split at h
  · rename_i hlt
    cases hr : libvmdk_offset_table_resize p m t
        (uint32_t (t.last_grain_offset_filled + k)) with
    | failure t1 e => rw [hr] at h; exact absurd h (by simp)
    | undefined => rw [hr] at h; exact absurd h (by simp)
    | success t1 =>
      rw [hr] at h
      simp only [] at h
      obtain ⟨r1, r2, r3, r4, r5, r6⟩ := resize_success_inv p m t t1 _ hlt hr
      have hX : size_t p (p.sizeof_grain_offset * uint32_t (t.last_grain_offset_filled + k))
          ≤ p.sizeof_grain_offset * uint32_t (t.last_grain_offset_filled + k) :=
        Nat.mod_le _ _
      have hB : (storage t1).length * p.sizeof_grain_offset
          ≤ size_t p (p.sizeof_grain_offset * uint32_t (t.last_grain_offset_filled + k)) := by
        rw [r3]; exact Nat.div_mul_le_self _ _
      have hBu : (storage t1).length ≤ uint32_t (t.last_grain_offset_filled + k) := by
        have := le_trans hB hX
        rw [Nat.mul_comm] at this
        exact Nat.le_of_mul_le_mul_left this hs
      obtain ⟨q0, _⟩ := fill_loop_room g k grain_table t1 t' (by omega) h
      have q1 := q0 (by omega)
      rw [r5] at q1
      have hsum : uint32_t (t.last_grain_offset_filled + k) = t.last_grain_offset_filled + k := by
        omega
      rw [hsum] at hX hB r1 r2 hBu
      have hXeq : size_t p (p.sizeof_grain_offset * (t.last_grain_offset_filled + k))
          = p.sizeof_grain_offset * (t.last_grain_offset_filled + k) := by
        have h6 : p.sizeof_grain_offset * (t.last_grain_offset_filled + k)
            ≤ (storage t1).length * p.sizeof_grain_offset := by
          rw [Nat.mul_comm]; exact Nat.mul_le_mul_right _ q1
        omega
      rw [hXeq] at r1 r2
      exact ⟨by omega, fun _ => ⟨r1, r2⟩⟩
  · rename_i hlt
    obtain ⟨q0, _⟩ := fill_loop_room g k grain_table t t' (by omega) h
    by_cases hk0 : 0 < k
    · have q1 := q0 hk0
      exact ⟨by omega, fun hgrow => absurd hgrow (by omega)⟩
    · exact ⟨by omega, fun hgrow => absurd hgrow (by omega)⟩

/-- The table a successful initialize with 0 entries yields is the cleared one. -/
theorem initialize_zero_inv (p : Platform) (m : Memory) (t : libvmdk_offset_table_t)
    (h : libvmdk_offset_table_initialize p m none 0 = .success (some t)) :
    t = cleared_offset_table := by
  unfold libvmdk_offset_table_initialize at h
  simp only [gt_iff_lt, Nat.lt_irrefl, if_false] at h
  split at h
  · simp only [Result.success.injEq, Option.some.injEq] at h
    exact h.symm
  · exact absurd h (by simp)

/-- Seek on a grain below the count whose element the block holds returns its offset. -/
theorem seek_of_entry (t : libvmdk_offset_table_t) (i : Nat) (e : libvmdk_grain_offset_t)
    (hb : t.grain_offset ≠ none) (hi : i < t.number_of_grain_offsets)
    (he : (storage t)[i]? = some e) :
    libvmdk_offset_table_seek_grain_offset t i = .success e.file_offset := by
  obtain ⟨N, L, C, go⟩ := t
  cases go with
  | none => exact absurd rfl hb
  | some block =>
    simp only [storage, Option.getD_some] at he
    simp only [libvmdk_offset_table_seek_grain_offset, ge_iff_le, Nat.not_le.mpr hi, if_false,
      he]

/-- Everything a successful fill of the table of a fresh handle leaves: the counters, the
block, and each element. -/
theorem fill_fresh_table (p : Platform) (m : Memory) (t' : libvmdk_offset_table_t)
    (grain_table : List Byte) (k g : Nat)
    (hs : 0 < p.sizeof_grain_offset) (hk : k < 2 ^ 32)
    (h : libvmdk_offset_table_fill p m cleared_offset_table grain_table grain_table.length k g
      = .success t') :
    grain_table.length = 4 * k ∧ g ≠ 0 ∧ g ≤ SSIZE_MAX p ∧
    (0 < k → p.sizeof_grain_offset * k ≤ SSIZE_MAX p) ∧
    t'.number_of_grain_offsets = k ∧ t'.last_grain_offset_filled = k ∧
    t'.last_grain_offset_compared = 0 ∧ (storage t').length = k ∧
    (t'.grain_offset = none ↔ k = 0) ∧
    (∀ i, i < k → (storage t')[i]? = some (filled_entry grain_table g i zero_grain_offset)) := by
  have hv : valid cleared_offset_table := by decide
  obtain ⟨hlen, hsize, hg0, hg, hsum, hgrow⟩ :=
    fill_success_inv p m cleared_offset_table t' grain_table k g hs hv (Nat.le_refl _) hk h
  obtain ⟨t'', f1, f2, f3, f4, f5, f6, f7, _⟩ :=
    fill_spec p m cleared_offset_table grain_table k g hs hv hlen hsize hg0 hg hsum hgrow
  rw [hlen, f1] at h
  simp only [Result.success.injEq] at h
  subst h
  simp only [cleared_offset_table, Nat.zero_add, Nat.zero_max, storage, Option.getD_none,
    List.getD_nil, Nat.le_zero_eq, true_and] at f2 f3 f4 f5 f6 f7 hgrow
  refine ⟨hlen, hg0, hg, fun h0 => (hgrow h0).1, f4, f2, f3, ?_, f6, ?_⟩
  · rw [← f4]; exact f5
  · intro i hi
    exact f7 i hi

theorem little_endian_u32_append_left (b1 b2 : List Byte) (i : Nat)
    (h : 4 * i + 3 < b1.length) :
    little_endian_u32 (b1 ++ b2) i = little_endian_u32 b1 i := by
  unfold little_endian_u32
  rw [List.getD_append b1 b2 0 (4 * i) (by omega),
    List.getD_append b1 b2 0 (4 * i + 1) (by omega),
    List.getD_append b1 b2 0 (4 * i + 2) (by omega),
    List.getD_append b1 b2 0 (4 * i + 3) (by omega)]

theorem little_endian_u32_append_right (b1 b2 : List Byte) (k i : Nat)
    (h : b1.length = 4 * k) :
    little_endian_u32 (b1 ++ b2) (k + i) = little_endian_u32 b2 i := by
  unfold little_endian_u32
  rw [List.getD_append_right b1 b2 0 (4 * (k + i)) (by omega),
    List.getD_append_right b1 b2 0 (4 * (k + i) + 1) (by omega),
    List.getD_append_right b1 b2 0 (4 * (k + i) + 2) (by omega),
    List.getD_append_right b1 b2 0 (4 * (k + i) + 3) (by omega)]
  rw [show 4 * (k + i) - b1.length = 4 * i from by omega,
    show 4 * (k + i) + 1 - b1.length = 4 * i + 1 from by omega,
    show 4 * (k + i) + 2 - b1.length = 4 * i + 2 from by omega,
    show 4 * (k + i) + 3 - b1.length = 4 * i + 3 from by omega]

/-- Two tables with the same counters, the same elements and NULL blocks together are the
same table. -/
theorem offset_table_ext (t t' : libvmdk_offset_table_t)
    (hN : t.number_of_grain_offsets = t'.number_of_grain_offsets)
    (hL : t.last_grain_offset_filled = t'.last_grain_offset_filled)
    (hC : t.last_grain_offset_compared = t'.last_grain_offset_compared)
    (hnone : t.grain_offset = none ↔ t'.grain_offset = none)
    (hst : storage t = storage t') : t = t' := by
  obtain ⟨N, L, C, go⟩ := t
  obtain ⟨N', L', C', go'⟩ := t'
  simp only at hN hL hC hnone
  subst hN hL hC
  cases go with
  | none =>
    have : go' = none := hnone.mp rfl
    rw [this]
  | some b =>
    cases go' with
    | none => exact absurd (hnone.mpr rfl) (by simp)
    | some b' =>
      simp only [storage, Option.getD_some] at hst
      rw [hst]

/-! ## C1: fill appends the decoded entries -/

/-- C1 (as amended): for a valid table, a buffer of length 4k (within `SSIZE_MAX`) with
declared count k and a non-zero grain size within `SSIZE_MAX`, when the index sum
`last_grain_offset_filled + k` fits 32 bits and the growth to that many elements, where the
table is smaller, is within `SSIZE_MAX` bytes and granted by the allocator: fill succeeds,
advances `last_grain_offset_filled` by exactly k, and the element at index
`old last_grain_offset_filled + i` has the offset `little_endian_u32 (entry i) * 512`
(the exact product) and the size 0 for offset 0, `grain_size` otherwise. -/
theorem fill_appends_decoded_entries (p : Platform) (m : Memory)
    (t : libvmdk_offset_table_t) (grain_table : List Byte) (k g : Nat)
    (hs : 0 < p.sizeof_grain_offset) (hv : valid t)
    (hlen : grain_table.length = 4 * k) (hsize : grain_table.length ≤ SSIZE_MAX p)
    (hg0 : g ≠ 0) (hg : g ≤ SSIZE_MAX p)
    (hsum : t.last_grain_offset_filled + k < 2 ^ 32)
    (hgrow : t.number_of_grain_offsets < t.last_grain_offset_filled + k →
      p.sizeof_grain_offset * (t.last_grain_offset_filled + k) ≤ SSIZE_MAX p ∧
      m.allocate (p.sizeof_grain_offset * (t.last_grain_offset_filled + k)) = true) :
    ∃ t', libvmdk_offset_table_fill p m t grain_table grain_table.length k g = .success t' ∧
      t'.last_grain_offset_filled = t.last_grain_offset_filled + k ∧
      ∀ i, i < k → ∃ e, (storage t')[t.last_grain_offset_filled + i]? = some e ∧
        e.file_offset = (little_endian_u32 grain_table i : Int) * 512 ∧
        e.size = if e.file_offset = 0 then 0 else g := by
  rw [hlen] at hsize ⊢
  obtain ⟨t', h1, h2, _, _, _, _, h7, _⟩ :=
    fill_spec p m t grain_table k g hs hv hlen hsize hg0 hg hsum hgrow
  exact ⟨t', h1, h2, fun i hi => ⟨_, h7 i hi, rfl, rfl⟩⟩

/-- C1, an instance: the two-entry grain table `[0, 2]` filled into the empty table on a
64-bit build. -/
theorem fill_appends_decoded_entries_witness :
    ∃ t', libvmdk_offset_table_fill lp64 granting cleared_offset_table
        [0, 0, 0, 0, 2, 0, 0, 0] ([0, 0, 0, 0, 2, 0, 0, 0] : List Byte).length 2 65536
          = .success t' ∧
      t'.last_grain_offset_filled = cleared_offset_table.last_grain_offset_filled + 2 ∧
      ∀ i, i < 2 → ∃ e,
        (storage t')[cleared_offset_table.last_grain_offset_filled + i]? = some e ∧
        e.file_offset = (little_endian_u32 [0, 0, 0, 0, 2, 0, 0, 0] i : Int) * 512 ∧
        e.size = if e.file_offset = 0 then 0 else 65536 :=
  fill_appends_decoded_entries lp64 granting cleared_offset_table [0, 0, 0, 0, 2, 0, 0, 0] 2 65536
    (by decide) (by decide) (by decide) (by decide) (by decide) (by decide) (by decide)
    (fun _ => ⟨by decide, rfl⟩)

/-- C1 as stated fails: on the empty table a one-entry buffer needs the table to grow, and
when the allocator refuses the block fill returns -1 (insufficient memory, then resize
failed) and leaves the table empty; on a 32-bit build the same happens without the
allocator when the grown table would need more than `SSIZE_MAX` bytes. -/
theorem fill_fails_when_growth_fails :
    libvmdk_offset_table_fill lp64 refusing cleared_offset_table [0, 0, 0, 1] 4 1 65536
      = .failure cleared_offset_table
          [⟨.MEMORY, .MEMORY_ERROR_INSUFFICIENT⟩, ⟨.RUNTIME, .RUNTIME_ERROR_RESIZE_FAILED⟩] ∧
    libvmdk_offset_table_fill ilp32 granting cleared_offset_table
        (List.replicate (2 ^ 29) 1) (2 ^ 29) (2 ^ 27) 65536
      = .failure cleared_offset_table
          [⟨.RUNTIME, .RUNTIME_ERROR_VALUE_EXCEEDS_MAXIMUM⟩,
           ⟨.RUNTIME, .RUNTIME_ERROR_RESIZE_FAILED⟩] := by
  constructor
  · decide
  · decide

/-! ## C2: two fills in a row -/

/-- C2 (as amended): from the table of a fresh handle (initialize with 0 entries), a fill
of k1 entries that succeeds followed by a fill of k2 entries that succeeds leaves exactly
k1 + k2 entries; entries 0 .. k1 - 1 are the decoding of the first buffer, as the first
fill left them, and entries k1 .. k1 + k2 - 1 are the decoding of the second buffer in
buffer order. With one grain size for both calls this is the table one fill of the
concatenated buffer yields, whenever the allocator grants that fill its block (elements
are at least 4 bytes wide, they hold an `off64_t`). -/
theorem consecutive_fills_append (p : Platform) (m0 m1 m2 : Memory)
    (t0 t1 t2 : libvmdk_offset_table_t) (b1 b2 : List Byte) (k1 k2 g1 g2 : Nat)
    (hs : 0 < p.sizeof_grain_offset) (hk1 : k1 < 2 ^ 32) (hk2 : k2 < 2 ^ 32)
    (hinit : libvmdk_offset_table_initialize p m0 none 0 = .success (some t0))
    (h1 : libvmdk_offset_table_fill p m1 t0 b1 b1.length k1 g1 = .success t1)
    (h2 : libvmdk_offset_table_fill p m2 t1 b2 b2.length k2 g2 = .success t2) :
    t2.number_of_grain_offsets = k1 + k2 ∧ (storage t2).length = k1 + k2 ∧
    t2.last_grain_offset_filled = k1 + k2 ∧
    (∀ i, i < k1 → (storage t2)[i]? = (storage t1)[i]? ∧
      (storage t2)[i]? = some (filled_entry b1 g1 i zero_grain_offset)) ∧
    (∀ i, i < k2 → (storage t2)[k1 + i]? = some (filled_entry b2 g2 i zero_grain_offset)) ∧
    (g1 = g2 → 4 ≤ p.sizeof_grain_offset → ∀ m3 : Memory,
      (0 < k1 + k2 → m3.allocate (p.sizeof_grain_offset * (k1 + k2)) = true) →
      libvmdk_offset_table_fill p m3 t0 (b1 ++ b2) (b1 ++ b2).length (k1 + k2) g1
        = .success t2) := by
  rw [initialize_zero_inv p m0 t0 hinit] at h1 ⊢
  obtain ⟨a1, a2, a3, a4, a5, a6, a7, a8, a9, a10⟩ := fill_fresh_table p m1 t1 b1 k1 g1 hs hk1 h1
  have hv1 : valid t1 := ⟨by omega, by omega, by omega, by omega⟩
  obtain ⟨c1, c2, c3, c4, c5, c6⟩ :=
    fill_success_inv p m2 t1 t2 b2 k2 g2 hs hv1 (by omega) hk2 h2
  obtain ⟨t2', f1, f2, f3, f4, f5, f6, f7, f8⟩ :=
    fill_spec p m2 t1 b2 k2 g2 hs hv1 c1 c2 c3 c4 c5 c6
  rw [c1, f1] at h2
  simp only [Result.success.injEq] at h2
  subst h2
  rw [a5, a6] at f4
  rw [a6] at f2 f7 f8 c5
  rw [a5, a6] at f6 c6
  have hN2 : t2'.number_of_grain_offsets = k1 + k2 := by rw [f4]; omega
  have hlow : ∀ i, i < k1 → (storage t2')[i]? = (storage t1)[i]? := by
    intro i hi
    rw [f8 i (Or.inl hi), List.getElem?_append_left (by omega)]
  have hhigh : ∀ i, i < k2 →
      (storage t2')[k1 + i]? = some (filled_entry b2 g2 i zero_grain_offset) := by
    intro i hi
    rw [f7 i hi, List.getD_eq_getElem?_getD, List.getElem?_eq_none (by omega)]
    rfl
  refine ⟨hN2, by omega, f2, fun i hi => ⟨hlow i hi, by rw [hlow i hi, a10 i hi]⟩, hhigh, ?_⟩
  intro hg hs4 m3 halloc
  subst hg
  have hlen : (b1 ++ b2).length = 4 * (k1 + k2) := by
    rw [List.length_append]; omega
  have hv0 : valid cleared_offset_table := by decide
  have hcap : 0 < k1 + k2 → p.sizeof_grain_offset * (k1 + k2) ≤ SSIZE_MAX p := by
    intro hpos
    by_cases hk : 0 < k2
    · exact (c6 (by omega)).1
    · have : k2 = 0 := by omega
      subst this
      exact a4 (by omega)
  have hsize : 4 * (k1 + k2) ≤ SSIZE_MAX p := by
    by_cases hpos : 0 < k1 + k2
    · exact le_trans (Nat.mul_le_mul_right _ hs4) (hcap hpos)
    · have : k1 + k2 = 0 := by omega
      rw [this]; exact Nat.zero_le _
  obtain ⟨t3, e1, e2, e3, e4, e5, e6, e7, _⟩ :=
    fill_spec p m3 cleared_offset_table (b1 ++ b2) (k1 + k2) g1 hs hv0 hlen
      hsize a2 a3 (by simp only [cleared_offset_table]; omega)
      (by
        simp only [cleared_offset_table, Nat.zero_add]
        intro hpos
        exact ⟨hcap hpos, halloc hpos⟩)
  rw [hlen, e1]
  simp only [cleared_offset_table, Nat.zero_add, Nat.zero_max, storage, Option.getD_none,
    List.getD_nil, Nat.le_zero_eq, true_and] at e2 e3 e4 e5 e6 e7
  congr 1
  apply offset_table_ext
  · rw [e4, hN2]
  · rw [e2, f2]
  · rw [e3, f3, a7]
  · rw [e6, f6, a9]
    omega
  · apply List.ext_getElem?
    intro j
    by_cases hj1 : j < k1
    · have := e7 j (by omega)
      simp only [storage] at this hlow a10 ⊢
      rw [this, hlow j hj1, a10 j hj1]
      simp only [filled_entry, little_endian_u32_append_left b1 b2 j (by omega)]
    · by_cases hj2 : j < k1 + k2
      · have := e7 j hj2
        have hh := hhigh (j - k1) (by omega)
        rw [show k1 + (j - k1) = j from by omega] at hh
        simp only [storage] at this hh ⊢
        rw [this, hh]
        have hle := little_endian_u32_append_right b1 b2 k1 (j - k1) a1
        rw [show k1 + (j - k1) = j from by omega] at hle
        simp only [filled_entry, hle]
      · have l3 : (storage t3).length ≤ j := by
          simp only [storage]; omega
        have l2 : (storage t2').length ≤ j := by omega
        rw [List.getElem?_eq_none l3, List.getElem?_eq_none l2]

/-- C2, an instance: a one-entry buffer and a two-entry buffer filled in turn on a 64-bit
build leave the table that one fill of the three entries leaves. -/
theorem consecutive_fills_append_witness :
    libvmdk_offset_table_fill lp64 granting cleared_offset_table
        ([1, 0, 0, 0] ++ [0, 0, 0, 0, 2, 0, 0, 0])
        (([1, 0, 0, 0] : List Byte) ++ [0, 0, 0, 0, 2, 0, 0, 0]).length (1 + 2) 65536
      = .success ⟨3, 3, 0, some [⟨512, 65536, 0⟩, ⟨0, 0, 0⟩, ⟨1024, 65536, 0⟩]⟩ :=
  (consecutive_fills_append lp64 granting granting granting cleared_offset_table
    ⟨1, 1, 0, some [⟨512, 65536, 0⟩]⟩
    ⟨3, 3, 0, some [⟨512, 65536, 0⟩, ⟨0, 0, 0⟩, ⟨1024, 65536, 0⟩]⟩
    [1, 0, 0, 0] [0, 0, 0, 0, 2, 0, 0, 0] 1 2 65536 65536
    (by decide) (by decide) (by decide) (by decide) (by decide) (by decide)).2.2.2.2.2
    rfl (by decide) granting (fun _ => rfl)

/-- C2 as stated fails: from the table of a fresh handle on a 64-bit build, a fill of the
entry 1 with grain size 65536 and a fill of the entry 2 with grain size 4096 both succeed
and leave the sizes 65536 and 4096; no fill of the concatenated buffer leaves that table,
whatever its grain size and its allocator, since one fill gives every entry with a
non-zero offset the same size. -/
theorem consecutive_fills_with_two_grain_sizes :
    libvmdk_offset_table_initialize lp64 granting none 0
      = .success (some cleared_offset_table) ∧
    libvmdk_offset_table_fill lp64 granting cleared_offset_table [1, 0, 0, 0] 4 1 65536
      = .success ⟨1, 1, 0, some [⟨512, 65536, 0⟩]⟩ ∧
    libvmdk_offset_table_fill lp64 granting ⟨1, 1, 0, some [⟨512, 65536, 0⟩]⟩
        [2, 0, 0, 0] 4 1 4096
      = .success ⟨2, 2, 0, some [⟨512, 65536, 0⟩, ⟨1024, 4096, 0⟩]⟩ ∧
    ¬ ∃ (m : Memory) (g : Nat),
      libvmdk_offset_table_fill lp64 m cleared_offset_table
          ([1, 0, 0, 0] ++ [2, 0, 0, 0]) 8 (1 + 1) g
        = .success ⟨2, 2, 0, some [⟨512, 65536, 0⟩, ⟨1024, 4096, 0⟩]⟩ := by
  refine ⟨by decide, by decide, by decide, ?_⟩
  rintro ⟨m, g, h⟩
  obtain ⟨_, _, _, _, _, _, _, _, _, a10⟩ :=
    fill_fresh_table lp64 m ⟨2, 2, 0, some [⟨512, 65536, 0⟩, ⟨1024, 4096, 0⟩]⟩
      ([1, 0, 0, 0] ++ [2, 0, 0, 0]) 2 g (by decide) (by decide) h
  have h0 := a10 0 (by decide)
  have h1 := a10 1 (by decide)
  simp [storage, filled_entry, little_endian_u32, zero_grain_offset] at h0 h1
  omega

/-! ## C3: fill turns down a misaligned or miscounted buffer -/

/-- C3 (as amended): when the buffer length is not a multiple of 4, or the declared entry
count differs from length / 4, fill returns -1 whatever the buffer holds and leaves the
table as it was. For a length up to `SSIZE_MAX` the error is the runtime error
"unsupported value" (length not a multiple of 4) or the runtime error "value out of range"
(count mismatch), the two the spec calls InvalidFormat; a length above `SSIZE_MAX` is
turned down before that with "value exceeds maximum". -/
theorem fill_rejects_misaligned_or_miscounted (p : Platform) (m : Memory)
    (t : libvmdk_offset_table_t) (grain_table : List Byte)
    (grain_table_size k g : Nat)
    (h : grain_table_size % 4 ≠ 0 ∨ k ≠ grain_table_size / 4) :
    libvmdk_offset_table_fill p m t grain_table grain_table_size k g
      = .failure t [⟨.RUNTIME,
          if SSIZE_MAX p < grain_table_size then .RUNTIME_ERROR_VALUE_EXCEEDS_MAXIMUM
          else if grain_table_size % 4 ≠ 0 then .RUNTIME_ERROR_UNSUPPORTED_VALUE
          else .RUNTIME_ERROR_VALUE_OUT_OF_RANGE⟩] := by
  unfold libvmdk_offset_table_fill
  by_cases h1 : SSIZE_MAX p < grain_table_size
  · simp [h1]
  · by_cases h2 : grain_table_size % 4 = 0
    · have h3 : k ≠ grain_table_size / 4 := by
        rcases h with h | h
        · exact absurd h2 h
        · exact h
      simp [h1, h2, h3]
    · simp [h1, h2]

/-- C3, an instance: a three-byte buffer offered to a table that holds one grain. -/
theorem fill_rejects_misaligned_or_miscounted_witness :
    libvmdk_offset_table_fill lp64 granting ⟨1, 1, 0, some [⟨512, 65536, 0⟩]⟩ [1, 2, 3] 3 0 65536
      = .failure ⟨1, 1, 0, some [⟨512, 65536, 0⟩]⟩ [⟨.RUNTIME,
          if SSIZE_MAX lp64 < 3 then .RUNTIME_ERROR_VALUE_EXCEEDS_MAXIMUM
          else if 3 % 4 ≠ 0 then .RUNTIME_ERROR_UNSUPPORTED_VALUE
          else .RUNTIME_ERROR_VALUE_OUT_OF_RANGE⟩] :=
  fill_rejects_misaligned_or_miscounted lp64 granting ⟨1, 1, 0, some [⟨512, 65536, 0⟩]⟩
    [1, 2, 3] 3 0 65536 (Or.inl (by decide))

/-- C3 as stated fails: a buffer of `2 ^ 31 + 1` bytes on a 32-bit build has a length that
is not a multiple of 4, and fill turns it down with "value exceeds maximum", the error of
the size guard, not with one of the two format errors; so does a call with the size
argument `(size_t) -1` on a 64-bit build. -/
theorem fill_oversized_buffer_exceeds_maximum :
    (List.replicate (2 ^ 31 + 1) (0 : Byte)).length = 2 ^ 31 + 1 ∧
    (2 ^ 31 + 1) % 4 ≠ 0 ∧
    libvmdk_offset_table_fill ilp32 granting cleared_offset_table
        (List.replicate (2 ^ 31 + 1) 0) (2 ^ 31 + 1) 0 65536
      = .failure cleared_offset_table [⟨.RUNTIME, .RUNTIME_ERROR_VALUE_EXCEEDS_MAXIMUM⟩] ∧
    libvmdk_offset_table_fill lp64 granting cleared_offset_table [] (2 ^ 64 - 1) 0 65536
      = .failure cleared_offset_table [⟨.RUNTIME, .RUNTIME_ERROR_VALUE_EXCEEDS_MAXIMUM⟩] :=
  ⟨List.length_replicate _ _, by decide, by decide, by decide⟩

/-! ## C4: fill with a zero grain size -/

/-- Fill with a zero grain size on a well-formed buffer, on any table: the call returns -1
and leaves the table alone, and the one error it sets has the runtime domain together with
the argument code "value zero or less". -/
theorem fill_zero_grain_size (p : Platform) (m : Memory) (t : libvmdk_offset_table_t)
    (grain_table : List Byte) (k : Nat) (hlen : grain_table.length = 4 * k)
    (hsize : grain_table.length ≤ SSIZE_MAX p) :
    libvmdk_offset_table_fill p m t grain_table grain_table.length k 0
      = .failure t [⟨.RUNTIME, .ARGUMENT_ERROR_VALUE_ZERO_OR_LESS⟩] := by
  have hq : 4 * k / 4 = k := Nat.mul_div_cancel_left k (by decide)
  have hr : 4 * k % 4 = 0 := Nat.mul_mod_right 4 k
  rw [hlen] at hsize ⊢
  unfold libvmdk_offset_table_fill
  simp [Nat.not_lt.mpr hsize, hr, hq]

/-- C4, the code at a failing input: a one-entry buffer with grain size 0 offered to the
empty table. Fill returns -1 and leaves the table alone, but the domain of the error it
sets is the runtime domain, not the argument domain. -/
theorem fill_zero_grain_size_runtime_domain :
    libvmdk_offset_table_fill lp64 granting cleared_offset_table [2, 0, 0, 0] 4 1 0
      = .failure cleared_offset_table [⟨.RUNTIME, .ARGUMENT_ERROR_VALUE_ZERO_OR_LESS⟩] ∧
    (⟨.RUNTIME, .ARGUMENT_ERROR_VALUE_ZERO_OR_LESS⟩ : libcerror_error_t).domain
      ≠ ErrorDomain.ARGUMENTS := by
  constructor
  · decide
  · decide

/-! ## C5: seek beyond the entry count -/

/-- C5 (as amended): for every table and every grain number n with
n >= `number_of_grain_offsets`, seek_grain_offset returns -1; the error is the argument
error "value out of range" when the table has a block, and the runtime error "value
missing" when it has none. The table of a freshly constructed handle (initialize with 0
entries) has no block, so there the error is "value missing" for every n. -/
theorem seek_fails_beyond_count (t : libvmdk_offset_table_t) (n : Nat)
    (h : t.number_of_grain_offsets ≤ n) :
    libvmdk_offset_table_seek_grain_offset t n
        = .failure (-1) [if t.grain_offset.isSome
            then ⟨.ARGUMENTS, .ARGUMENT_ERROR_VALUE_OUT_OF_RANGE⟩
            else ⟨.RUNTIME, .RUNTIME_ERROR_VALUE_MISSING⟩] ∧
      ∀ (p : Platform) (m : Memory) (fresh : libvmdk_offset_table_t) (grain : Nat),
        libvmdk_offset_table_initialize p m none 0 = .success (some fresh) →
        libvmdk_offset_table_seek_grain_offset fresh grain
          = .failure (-1) [⟨.RUNTIME, .RUNTIME_ERROR_VALUE_MISSING⟩] := by
  constructor
  · unfold libvmdk_offset_table_seek_grain_offset
    cases hb : t.grain_offset with
    | none => simp
    | some block => simp [h]
  · intro p m fresh grain hinit
    unfold libvmdk_offset_table_initialize at hinit
    simp only [gt_iff_lt, Nat.lt_irrefl, if_false] at hinit
    split at hinit
    · simp only [Result.success.injEq, Option.some.injEq] at hinit
      subst hinit
      rfl
    · exact absurd hinit (by simp)

/-- C5, an instance: grain 2 of a table that holds two grains, and any grain of the table
a handle is constructed with. -/
theorem seek_fails_beyond_count_witness :
    libvmdk_offset_table_seek_grain_offset ⟨2, 2, 0, some [⟨0, 0, 0⟩, ⟨1024, 65536, 0⟩]⟩ 2
        = .failure (-1) [⟨.ARGUMENTS, .ARGUMENT_ERROR_VALUE_OUT_OF_RANGE⟩] ∧
      libvmdk_offset_table_seek_grain_offset cleared_offset_table 5
        = .failure (-1) [⟨.RUNTIME, .RUNTIME_ERROR_VALUE_MISSING⟩] :=
  ⟨(seek_fails_beyond_count ⟨2, 2, 0, some [⟨0, 0, 0⟩, ⟨1024, 65536, 0⟩]⟩ 2 (by decide)).1,
    (seek_fails_beyond_count ⟨2, 2, 0, some [⟨0, 0, 0⟩, ⟨1024, 65536, 0⟩]⟩ 2 (by decide)).2
      lp64 granting cleared_offset_table 5 (by decide)⟩

/-- C5 as stated fails: the table a handle is constructed with has entry count 0 and no
block, and seek_grain_offset on it fails with the runtime error "value missing", not with
the argument error "value out of range". -/
theorem seek_on_fresh_table_value_missing :
    libvmdk_offset_table_initialize lp64 granting none 0 = .success (some cleared_offset_table) ∧
    cleared_offset_table.number_of_grain_offsets = 0 ∧
    libvmdk_offset_table_seek_grain_offset cleared_offset_table 0
      = .failure (-1) [⟨.RUNTIME, .RUNTIME_ERROR_VALUE_MISSING⟩] ∧
    libvmdk_offset_table_seek_grain_offset cleared_offset_table 0
      ≠ .failure (-1) [⟨.ARGUMENTS, .ARGUMENT_ERROR_VALUE_OUT_OF_RANGE⟩] := by
  refine ⟨by decide, by decide, by decide, by decide⟩

/-! ## C6: seek after fill -/

/-- C6: from the table of a fresh handle (initialize with 0 entries), after a fill of a
buffer of k entries with grain size g that succeeded, seek_grain_offset(i) succeeds for
every i < k and returns `little_endian_u32 (entry i) * 512`, the offset stored for grain i
(whose size is 0 for offset 0 and g otherwise); for the grain table `[0, 2]` with
g = 65536 grain 0 has offset 0 and size 0 and grain 1 has offset 1024 and size 65536. -/
theorem seek_returns_filled_offset :
    (∀ (p : Platform) (m0 m : Memory) (t0 t' : libvmdk_offset_table_t)
        (grain_table : List Byte) (k g : Nat),
      0 < p.sizeof_grain_offset → k < 2 ^ 32 →
      libvmdk_offset_table_initialize p m0 none 0 = .success (some t0) →
      libvmdk_offset_table_fill p m t0 grain_table grain_table.length k g = .success t' →
      ∀ i, i < k →
        libvmdk_offset_table_seek_grain_offset t' i
          = .success ((little_endian_u32 grain_table i : Int) * 512) ∧
        (storage t')[i]? = some ⟨(little_endian_u32 grain_table i : Int) * 512,
          if (little_endian_u32 grain_table i : Int) * 512 = 0 then 0 else g, 0⟩) ∧
    (∀ (p : Platform) (m0 m : Memory) (t0 t' : libvmdk_offset_table_t),
      0 < p.sizeof_grain_offset →
      libvmdk_offset_table_initialize p m0 none 0 = .success (some t0) →
      libvmdk_offset_table_fill p m t0 [0, 0, 0, 0, 2, 0, 0, 0] 8 2 65536 = .success t' →
      (storage t')[0]? = some ⟨0, 0, 0⟩ ∧ (storage t')[1]? = some ⟨1024, 65536, 0⟩ ∧
      libvmdk_offset_table_seek_grain_offset t' 0 = .success 0 ∧
      libvmdk_offset_table_seek_grain_offset t' 1 = .success 1024) := by
  have general : ∀ (p : Platform) (m0 m : Memory) (t0 t' : libvmdk_offset_table_t)
        (grain_table : List Byte) (k g : Nat),
      0 < p.sizeof_grain_offset → k < 2 ^ 32 →
      libvmdk_offset_table_initialize p m0 none 0 = .success (some t0) →
      libvmdk_offset_table_fill p m t0 grain_table grain_table.length k g = .success t' →
      ∀ i, i < k →
        libvmdk_offset_table_seek_grain_offset t' i
          = .success ((little_endian_u32 grain_table i : Int) * 512) ∧
        (storage t')[i]? = some ⟨(little_endian_u32 grain_table i : Int) * 512,
          if (little_endian_u32 grain_table i : Int) * 512 = 0 then 0 else g, 0⟩ := by
    intro p m0 m t0 t' grain_table k g hs hk hinit hfill i hi
    rw [initialize_zero_inv p m0 t0 hinit] at hfill
    obtain ⟨_, _, _, _, hN, _, _, _, hnone, hent⟩ :=
      fill_fresh_table p m t' grain_table k g hs hk hfill
    have he := hent i hi
    have hb : t'.grain_offset ≠ none := fun hn => by
      have := hnone.mp hn
      omega
    exact ⟨seek_of_entry t' i _ hb (by omega) he, he⟩
  refine ⟨general, ?_⟩
  intro p m0 m t0 t' hs hinit hfill
  have h0 := general p m0 m t0 t' [0, 0, 0, 0, 2, 0, 0, 0] 2 65536 hs (by decide) hinit hfill 0
    (by decide)
  have h1 := general p m0 m t0 t' [0, 0, 0, 0, 2, 0, 0, 0] 2 65536 hs (by decide) hinit hfill 1
    (by decide)
  have e0 : little_endian_u32 [0, 0, 0, 0, 2, 0, 0, 0] 0 = 0 := by decide
  have e1 : little_endian_u32 [0, 0, 0, 0, 2, 0, 0, 0] 1 = 2 := by decide
  rw [e0] at h0
  rw [e1] at h1
  exact ⟨h0.2, h1.2, h0.1, h1.1⟩

/-- C6, an instance: the grain table `[0, 2]` on a 64-bit build. -/
theorem seek_returns_filled_offset_witness :
    (storage ⟨2, 2, 0, some [⟨0, 0, 0⟩, ⟨1024, 65536, 0⟩]⟩)[0]? = some ⟨0, 0, 0⟩ ∧
    (storage ⟨2, 2, 0, some [⟨0, 0, 0⟩, ⟨1024, 65536, 0⟩]⟩)[1]? = some ⟨1024, 65536, 0⟩ ∧
    libvmdk_offset_table_seek_grain_offset ⟨2, 2, 0, some [⟨0, 0, 0⟩, ⟨1024, 65536, 0⟩]⟩ 0
      = .success 0 ∧
    libvmdk_offset_table_seek_grain_offset ⟨2, 2, 0, some [⟨0, 0, 0⟩, ⟨1024, 65536, 0⟩]⟩ 1
      = .success 1024 :=
  seek_returns_filled_offset.2 lp64 granting granting cleared_offset_table
    ⟨2, 2, 0, some [⟨0, 0, 0⟩, ⟨1024, 65536, 0⟩]⟩ (by decide) (by decide) (by decide)

/-! ## C7: resize never shrinks -/

/-- C7: whatever the table and the target, a resize that returns (with 1 or with -1) leaves
an entry count that is not below the one before; and for a target that is not above the
current count resize returns 1 and the table, block and counters, is the one before. -/
theorem resize_never_shrinks (p : Platform) (m : Memory) (t : libvmdk_offset_table_t)
    (n : Nat) :
    (∀ t' e, libvmdk_offset_table_resize p m t n = .success t' ∨
        libvmdk_offset_table_resize p m t n = .failure t' e →
      t.number_of_grain_offsets ≤ t'.number_of_grain_offsets) ∧
    (n ≤ t.number_of_grain_offsets → libvmdk_offset_table_resize p m t n = .success t) := by
  have hno : n ≤ t.number_of_grain_offsets →
      libvmdk_offset_table_resize p m t n = .success t := by
    intro hle
    unfold libvmdk_offset_table_resize
    rw [if_neg (Nat.not_lt.mpr hle)]
  refine ⟨?_, hno⟩
  intro t' e h
  rcases h with h | h
  · by_cases hn : t.number_of_grain_offsets < n
    · obtain ⟨_, _, _, h4, _, _⟩ := resize_success_inv p m t t' n hn h
      omega
    · rw [hno (Nat.le_of_not_lt hn)] at h
      simp only [Result.success.injEq] at h
      rw [h]
  · rw [resize_failure_unchanged p m t t' n e h]

/-- C7, an instance: a table of two grains asked to shrink to one stays as it is, and
grown to four it has no fewer entries than before. -/
theorem resize_never_shrinks_witness :
    libvmdk_offset_table_resize lp64 granting two_grains 1 = .success two_grains ∧
      two_grains.number_of_grain_offsets ≤ four_grains.number_of_grain_offsets :=
  ⟨(resize_never_shrinks lp64 granting two_grains 1).2 (by decide),
    (resize_never_shrinks lp64 granting two_grains 4).1 four_grains [] (Or.inl (by decide))⟩

/-! ## C8: resize grows with zero entries -/

/-- C8: for a table with entry count c and a target n > c whose byte size
`n * sizeof( libvmdk_grain_offset_t )` is within `SSIZE_MAX`, a resize that succeeds leaves
entry count n, both high-water marks as they were, every element below c as it was, and
an all-zero element at every index from c to n - 1. -/
theorem resize_grows_with_zero_entries (p : Platform) (m : Memory)
    (t t' : libvmdk_offset_table_t) (n : Nat)
    (hs : 0 < p.sizeof_grain_offset)
    (hn : t.number_of_grain_offsets < n)
    (hcap : p.sizeof_grain_offset * n ≤ SSIZE_MAX p)
    (h : libvmdk_offset_table_resize p m t n = .success t') :
    t'.number_of_grain_offsets = n ∧
    (storage t').length = n ∧
    t'.last_grain_offset_filled = t.last_grain_offset_filled ∧
    t'.last_grain_offset_compared = t.last_grain_offset_compared ∧
    (∀ i e, i < t.number_of_grain_offsets → (storage t)[i]? = some e →
      (storage t')[i]? = some e) ∧
    (∀ i, t.number_of_grain_offsets ≤ i → i < n →
      (storage t')[i]? = some ⟨0, 0, 0⟩) := by
  obtain ⟨_, halloc, _, _, _, _⟩ := resize_success_inv p m t t' n hn h
  rw [size_t_of_le p _ hcap] at halloc
  rw [resize_grow_general p m t n hs hn hcap halloc] at h
  simp only [Result.success.injEq] at h
  subst h
  refine ⟨rfl, by simp [storage], rfl, rfl, ?_, ?_⟩
  · intro i e hi he
    have hin : i < n := by omega
    simp only [storage, Option.getD_some, List.getElem?_map, List.getElem?_range hin,
      Option.map_some', Nat.not_le.mpr hi, if_false, List.getD_eq_getElem?_getD]
    simp only [storage] at he
    rw [he]
    rfl
  · intro i hi hin
    simp only [storage, Option.getD_some, List.getElem?_map, List.getElem?_range hin,
      Option.map_some', hi, if_true]
    rfl

/-- C8, an instance: a table of two grains grown to four. -/
theorem resize_grows_with_zero_entries_witness :
    four_grains.number_of_grain_offsets = 4 ∧
    (storage four_grains).length = 4 ∧
    four_grains.last_grain_offset_filled = two_grains.last_grain_offset_filled ∧
    four_grains.last_grain_offset_compared = two_grains.last_grain_offset_compared ∧
    (∀ i e, i < two_grains.number_of_grain_offsets → (storage two_grains)[i]? = some e →
      (storage four_grains)[i]? = some e) ∧
    (∀ i, two_grains.number_of_grain_offsets ≤ i → i < 4 →
      (storage four_grains)[i]? = some ⟨0, 0, 0⟩) :=
  resize_grows_with_zero_entries lp64 granting two_grains four_grains 4
    (by decide) (by decide) (by decide) (by decide)

/-! ## C9: the size guard of resize -/

/-- The guard of resize where the product does not wrap: a byte size above `SSIZE_MAX`
that still fits `size_t` makes resize fail with "value exceeds maximum", table unchanged. -/
theorem resize_exceeds_maximum (p : Platform) (m : Memory) (t : libvmdk_offset_table_t)
    (n : Nat) (hn : t.number_of_grain_offsets < n)
    (hcap : SSIZE_MAX p < p.sizeof_grain_offset * n)
    (hfit : p.sizeof_grain_offset * n < 2 ^ p.size_bits) :
    libvmdk_offset_table_resize p m t n
      = .failure t [⟨.RUNTIME, .RUNTIME_ERROR_VALUE_EXCEEDS_MAXIMUM⟩] := by
  unfold libvmdk_offset_table_resize
  simp only [hn, if_true, size_t, Nat.mod_eq_of_lt hfit, gt_iff_lt, hcap]

/-- The wrap of C9 does not hang on the element size: on every build with a 32-bit
`size_t` and elements of 2 bytes or more there is a `uint32_t` target whose byte size is
above `SSIZE_MAX` and that resize accepts for the empty table, leaving a count the block
does not hold. -/
theorem resize_wraps_on_32_bit (p : Platform) (hbits : p.size_bits = 32)
    (h2 : 2 ≤ p.sizeof_grain_offset) (hmax : p.sizeof_grain_offset < 2 ^ 31) :
    ∃ n t', n < 2 ^ 32 ∧ SSIZE_MAX p < p.sizeof_grain_offset * n ∧
      libvmdk_offset_table_resize p granting cleared_offset_table n = .success t' ∧
      t'.number_of_grain_offsets = n ∧ (storage t').length ≤ 1 := by
  have hs : 0 < p.sizeof_grain_offset := by omega
  have hdiv := Nat.div_add_mod (2 ^ 32) p.sizeof_grain_offset
  have hmod := Nat.mod_lt (2 ^ 32) hs
  have hq : 2 ^ 32 / p.sizeof_grain_offset ≤ 2 ^ 31 := by
    apply Nat.div_le_of_le_mul
    calc 2 ^ 32 = 2 * 2 ^ 31 := by norm_num
      _ ≤ p.sizeof_grain_offset * 2 ^ 31 := Nat.mul_le_mul_right _ h2
  have hprod : p.sizeof_grain_offset * (2 ^ 32 / p.sizeof_grain_offset + 1)
      = 2 ^ 32 + (p.sizeof_grain_offset - 2 ^ 32 % p.sizeof_grain_offset) := by
    rw [Nat.mul_add, Nat.mul_one]; omega
  have hw : size_t p (p.sizeof_grain_offset * (2 ^ 32 / p.sizeof_grain_offset + 1))
      = p.sizeof_grain_offset - 2 ^ 32 % p.sizeof_grain_offset := by
    unfold size_t
    rw [hprod, hbits, Nat.add_mod_left]
    apply Nat.mod_eq_of_lt
    omega
  have hssize : SSIZE_MAX p = 2 ^ 31 - 1 := by
    unfold SSIZE_MAX; rw [hbits]
  have hpos : cleared_offset_table.number_of_grain_offsets
      < 2 ^ 32 / p.sizeof_grain_offset + 1 := by
    simp only [cleared_offset_table]; exact Nat.succ_pos _
  have hex : ∃ t', libvmdk_offset_table_resize p granting cleared_offset_table
      (2 ^ 32 / p.sizeof_grain_offset + 1) = .success t' := by
    unfold libvmdk_offset_table_resize
    rw [if_pos hpos]
    simp only [cleared_offset_table, Nat.sub_zero, hw, gt_iff_lt, hssize, memory_reallocate,
      granting, if_true, memory_set, Nat.mul_zero, Nat.zero_add, le_refl]
    rw [if_neg (show ¬ 2 ^ 31 - 1 < p.sizeof_grain_offset - 2 ^ 32 % p.sizeof_grain_offset
        from by omega),
      if_neg (show ¬ (p.sizeof_grain_offset - 2 ^ 32 % p.sizeof_grain_offset = 0 ∧
        (none : Option (List libvmdk_grain_offset_t)) ≠ none) from fun h => h.2 rfl)]
    exact ⟨_, rfl⟩
  obtain ⟨t', ht'⟩ := hex
  obtain ⟨_, _, r3, r4, _, _⟩ := resize_success_inv p granting cleared_offset_table t' _ hpos ht'
  refine ⟨2 ^ 32 / p.sizeof_grain_offset + 1, t', by omega, by rw [hssize, hprod]; omega, ht',
    r4, ?_⟩
  rw [r3, hw]
  apply Nat.div_le_of_le_mul
  omega

/-- A byte size that wraps to zero: on a 32-bit build with 16-byte elements the empty table
resized to `2 ^ 28` entries is the table initialize makes for that count, an entry count
over a block without elements, when the allocator grants the zero bytes; when it refuses
them resize returns -1 and the table is as it was. -/
theorem resize_to_zero_bytes_as_initialize :
    size_t ilp32 (ilp32.sizeof_grain_offset * 2 ^ 28) = 0 ∧
    libvmdk_offset_table_resize ilp32 granting cleared_offset_table (2 ^ 28)
      = .success ⟨2 ^ 28, 0, 0, some []⟩ ∧
    libvmdk_offset_table_initialize ilp32 granting none (2 ^ 28)
      = .success (some ⟨2 ^ 28, 0, 0, some []⟩) ∧
    libvmdk_offset_table_resize ilp32 refusing cleared_offset_table (2 ^ 28)
      = .failure cleared_offset_table [⟨.MEMORY, .MEMORY_ERROR_INSUFFICIENT⟩] := by
  refine ⟨by decide, by decide, by decide, by decide⟩

/-- C9, the code at a failing input: on a 32-bit build with 16-byte elements the empty
table is resized to `2 ^ 28 + 1` entries. The byte size `16 * (2 ^ 28 + 1)` is above
`SSIZE_MAX`, but in `size_t` it wraps to 16, passes the guard, and resize returns 1 with an
entry count of `2 ^ 28 + 1` over a block of one element; a fill of that many entries then
writes past the block. -/
theorem resize_wrapped_size_passes_guard :
    SSIZE_MAX ilp32 < ilp32.sizeof_grain_offset * (2 ^ 28 + 1) ∧
    size_t ilp32 (ilp32.sizeof_grain_offset * (2 ^ 28 + 1)) = 16 ∧
    libvmdk_offset_table_resize ilp32 granting cleared_offset_table (2 ^ 28 + 1)
      = .success ⟨2 ^ 28 + 1, 0, 0, some [⟨0, 0, 0⟩]⟩ ∧
    libvmdk_offset_table_fill ilp32 granting cleared_offset_table
        (List.replicate (2 ^ 30 + 4) 1) (2 ^ 30 + 4) (2 ^ 28 + 1) 65536 = .undefined := by
  refine ⟨by decide, by decide, by decide, by decide⟩

/-! ## C10: compare goes through every entry -/

/-- C10 (as amended): for a valid table and an input compare accepts (length 4k within
`SSIZE_MAX`, declared count k, non-zero grain size within `SSIZE_MAX`), when the index sum
`last_grain_offset_compared + k` fits 32 bits and the growth to that many elements, where
the table is smaller, is within `SSIZE_MAX` bytes and granted by the allocator: compare
returns 1 whether or not a decoded offset disagrees with the stored one, and advances
`last_grain_offset_compared` by exactly k. -/
theorem compare_succeeds_despite_mismatch (p : Platform) (m : Memory)
    (t : libvmdk_offset_table_t) (grain_table : List Byte) (k g : Nat)
    (hs : 0 < p.sizeof_grain_offset) (hv : valid t)
    (hlen : grain_table.length = 4 * k) (hsize : grain_table.length ≤ SSIZE_MAX p)
    (hg0 : g ≠ 0) (hg : g ≤ SSIZE_MAX p)
    (hsum : t.last_grain_offset_compared + k < 2 ^ 32)
    (hgrow : t.number_of_grain_offsets < t.last_grain_offset_compared + k →
      p.sizeof_grain_offset * (t.last_grain_offset_compared + k) ≤ SSIZE_MAX p ∧
      m.allocate (p.sizeof_grain_offset * (t.last_grain_offset_compared + k)) = true) :
    ∃ t', libvmdk_offset_table_compare p m t grain_table grain_table.length k g
        = .success t' ∧
      t'.last_grain_offset_compared = t.last_grain_offset_compared + k := by
  rw [hlen] at hsize ⊢
  obtain ⟨t', h1, h2, _⟩ :=
    compare_spec p m t grain_table k g hs hv hlen hsize hg0 hg hsum hgrow
  exact ⟨t', h1, h2⟩

/-- C10, an instance: the stored offsets are 0 and 1024, the buffer compared against them
decodes to 512 and 1024, so the first entry disagrees. -/
theorem compare_succeeds_despite_mismatch_witness :
    ∃ t', libvmdk_offset_table_compare lp64 granting
        ⟨2, 2, 0, some [⟨0, 0, 0⟩, ⟨1024, 65536, 0⟩]⟩ [1, 0, 0, 0, 2, 0, 0, 0]
        ([1, 0, 0, 0, 2, 0, 0, 0] : List Byte).length 2 65536 = .success t' ∧
      t'.last_grain_offset_compared = 0 + 2 :=
  compare_succeeds_despite_mismatch lp64 granting ⟨2, 2, 0, some [⟨0, 0, 0⟩, ⟨1024, 65536, 0⟩]⟩
    [1, 0, 0, 0, 2, 0, 0, 0] 2 65536
    (by decide) (by decide) (by decide) (by decide) (by decide) (by decide) (by decide)
    (fun h => absurd h (by decide))

/-- C10 as stated fails: compared against the empty table a one-entry buffer needs the
table to grow, and when the allocator refuses the block compare returns -1 (insufficient
memory, then resize failed); the index of the last grain compared stays 0. -/
theorem compare_fails_when_growth_fails :
    libvmdk_offset_table_compare lp64 refusing cleared_offset_table [0, 0, 0, 1] 4 1 65536
      = .failure cleared_offset_table
          [⟨.MEMORY, .MEMORY_ERROR_INSUFFICIENT⟩, ⟨.RUNTIME, .RUNTIME_ERROR_RESIZE_FAILED⟩] ∧
    libvmdk_offset_table_compare ilp32 granting cleared_offset_table
        (List.replicate (2 ^ 29) 1) (2 ^ 29) (2 ^ 27) 65536
      = .failure cleared_offset_table
          [⟨.RUNTIME, .RUNTIME_ERROR_VALUE_EXCEEDS_MAXIMUM⟩,
           ⟨.RUNTIME, .RUNTIME_ERROR_RESIZE_FAILED⟩] := by
  constructor
  · decide
  · decide

/-! ## Lemmas on what a call that returns leaves of the table -/

/-- The shape of the table after a growth that succeeded, on any table and with or without
a wrapped byte size: the bytes cleared end where the block ends, so every whole element
from the old count on is zero, and the elements below are those the old block held (or
what fresh storage holds, where the old block was shorter). -/
theorem resize_success_shape (p : Platform) (m : Memory) (t t' : libvmdk_offset_table_t)
    (n : Nat) (hn : t.number_of_grain_offsets < n)
    (h : libvmdk_offset_table_resize p m t n = .success t') :
    t'.number_of_grain_offsets = n ∧
    t'.last_grain_offset_filled = t.last_grain_offset_filled ∧
    t'.last_grain_offset_compared = t.last_grain_offset_compared ∧
    t'.grain_offset ≠ none ∧
    (storage t').length = size_t p (p.sizeof_grain_offset * n) / p.sizeof_grain_offset ∧
    p.sizeof_grain_offset * t.number_of_grain_offsets ≤ size_t p (p.sizeof_grain_offset * n) ∧
    (size_t p (p.sizeof_grain_offset * n) ≠ 0 ∨ t.grain_offset = none) ∧
    ∀ i, i < size_t p (p.sizeof_grain_offset * n) / p.sizeof_grain_offset →
      (storage t')[i]? = some (if t.number_of_grain_offsets ≤ i then zero_grain_offset
        else (storage t).getD i (m.indeterminate i)) := by
  unfold libvmdk_offset_table_resize at h
  rw [if_pos hn] at h
  simp only [gt_iff_lt] at h
  split at h
  · exact absurd h (by simp)
  · split at h
    · exact absurd h (by simp)
    · rename_i hne
      cases ha : m.allocate (size_t p (p.sizeof_grain_offset * n)) with
      | false => simp [memory_reallocate, ha] at h
      | true =>
        simp only [memory_reallocate, ha, if_true, memory_set] at h
        split at h
        · exact absurd h (by simp)
        · rename_i block hset
          simp only [Result.success.injEq] at h
          subst h
          split at hset
          · rename_i hin
            simp only [Option.some.injEq] at hset
            subst hset
            have hM : 0 < 2 ^ p.size_bits := Nat.two_pow_pos _
            have hlt : size_t p (p.sizeof_grain_offset * n) < 2 ^ p.size_bits :=
              Nat.mod_lt _ hM
            have heq : p.sizeof_grain_offset * t.number_of_grain_offsets
                + size_t p (p.sizeof_grain_offset * (n - t.number_of_grain_offsets))
                = size_t p (p.sizeof_grain_offset * n) := by
              have h1 : (p.sizeof_grain_offset * t.number_of_grain_offsets
                  + size_t p (p.sizeof_grain_offset * (n - t.number_of_grain_offsets)))
                    % 2 ^ p.size_bits = size_t p (p.sizeof_grain_offset * n) := by
                unfold size_t
                rw [Nat.add_mod_mod, ← Nat.mul_add]
                congr 2
                omega
              rw [Nat.mod_eq_of_lt (lt_of_le_of_lt hin hlt)] at h1
              exact h1
            refine ⟨rfl, rfl, rfl, by simp, by simp [storage], by omega, ?_, ?_⟩
            · by_cases hz : size_t p (p.sizeof_grain_offset * n) = 0
              · right
                by_contra hgo
                exact hne ⟨hz, hgo⟩
              · left
                exact hz
            intro i hi
            have hcov : p.sizeof_grain_offset * (i + 1)
                ≤ size_t p (p.sizeof_grain_offset * n) := by
              have := Nat.mul_le_of_le_div _ _ _ (Nat.succ_le_of_lt hi)
              rw [Nat.mul_comm]; exact this
            simp only [storage, Option.getD_some, List.getElem?_mapIdx, List.getElem?_map,
              List.getElem?_range hi, Option.map_some', heq, hcov, and_true]
          · exact absurd hset (by simp)

/-- The loop of fill never returns -1. -/
theorem fill_loop_not_failure (g : Nat) :
    ∀ (k : Nat) (grain_table : List Byte) (t t' : libvmdk_offset_table_t)
      (e : List libcerror_error_t), fill_loop g k grain_table t ≠ .failure t' e := by
  intro k
  induction k with
  | zero => intro grain_table t t' e h; simp [fill_loop] at h
  | succ k ih =>
    intro grain_table t t' e h
    match grain_table, h with
    | b0 :: b1 :: b2 :: b3 :: rest, h =>
      simp only [fill_loop] at h
      split at h
      · exact absurd h (by simp)
      · split at h
        · exact absurd h (by simp)
        · exact ih _ _ _ _ h
    | [], h => simp [fill_loop] at h
    | [_], h => simp [fill_loop] at h
    | [_, _], h => simp [fill_loop] at h
    | [_, _, _], h => simp [fill_loop] at h

/-- The loop of compare never returns -1. -/
theorem compare_loop_not_failure (p : Platform) (g : Nat) :
    ∀ (k : Nat) (grain_table : List Byte) (t t' : libvmdk_offset_table_t)
      (e : List libcerror_error_t), compare_loop p g k grain_table t ≠ .failure t' e := by
  intro k
  induction k with
  | zero => intro grain_table t t' e h; simp [compare_loop] at h
  | succ k ih =>
    intro grain_table t t' e h
    match grain_table, h with
    | b0 :: b1 :: b2 :: b3 :: rest, h =>
      simp only [compare_loop] at h
      split at h
      · exact absurd h (by simp)
      · split at h
        · exact absurd h (by simp)
        · exact ih _ _ _ _ h
    | [], h => simp [compare_loop] at h
    | [_], h => simp [compare_loop] at h
    | [_, _], h => simp [compare_loop] at h
    | [_, _, _], h => simp [compare_loop] at h

/-- A fill that returns -1 leaves the table as it was. -/
theorem fill_failure_unchanged (p : Platform) (m : Memory) (t t' : libvmdk_offset_table_t)
    (grain_table : List Byte) (size k g : Nat) (e : List libcerror_error_t)
    (h : libvmdk_offset_table_fill p m t grain_table size k g = .failure t' e) : t' = t := by
  unfold libvmdk_offset_table_fill at h
  split at h
  · simp only [Result.failure.injEq] at h; exact h.1.symm
  split at h
  · simp only [Result.failure.injEq] at h; exact h.1.symm
  split at h
  · simp only [Result.failure.injEq] at h; exact h.1.symm
  split at h
  · simp only [Result.failure.injEq] at h; exact h.1.symm
  split at h
  · simp only [Result.failure.injEq] at h; exact h.1.symm
  split at h
  · cases hr : libvmdk_offset_table_resize p m t
        (uint32_t (t.last_grain_offset_filled + k)) with
    | success t1 =>
      rw [hr] at h
      exact absurd h (fill_loop_not_failure g k grain_table t1 t' e)
    | failure t1 e1 =>
      rw [hr] at h
      simp only [Result.failure.injEq] at h
      rw [← h.1]
      exact resize_failure_unchanged p m t t1 _ e1 hr
    | undefined => rw [hr] at h; exact absurd h (by simp)
  · exact absurd h (fill_loop_not_failure g k grain_table t t' e)

/-- A compare that returns -1 leaves the table as it was. -/
theorem compare_failure_unchanged (p : Platform) (m : Memory)
    (t t' : libvmdk_offset_table_t) (grain_table : List Byte) (size k g : Nat)
    (e : List libcerror_error_t)
    (h : libvmdk_offset_table_compare p m t grain_table size k g = .failure t' e) :
    t' = t := by
  unfold libvmdk_offset_table_compare at h
  split at h
  · simp only [Result.failure.injEq] at h; exact h.1.symm
  split at h
  · simp only [Result.failure.injEq] at h; exact h.1.symm
  split at h
  · simp only [Result.failure.injEq] at h; exact h.1.symm
  split at h
  · simp only [Result.failure.injEq] at h; exact h.1.symm
  split at h
  · simp only [Result.failure.injEq] at h; exact h.1.symm
  split at h
  · cases hr : libvmdk_offset_table_resize p m t
        (uint32_t (t.last_grain_offset_compared + k)) with
    | success t1 =>
      rw [hr] at h
      exact absurd h (compare_loop_not_failure p g k grain_table t1 t' e)
    | failure t1 e1 =>
      rw [hr] at h
      simp only [Result.failure.injEq] at h
      rw [← h.1]
      exact resize_failure_unchanged p m t t1 _ e1 hr
    | undefined => rw [hr] at h; exact absurd h (by simp)
  · exact absurd h (compare_loop_not_failure p g k grain_table t t' e)
theorem current_size_zero_iff (offset : Int) (g : Nat) (hg : g ≠ 0) :
    current_size offset g = 0 ↔ offset = 0 := by
  unfold current_size
  split
  · rename_i h; simp [h]
  · rename_i h; simp [h, hg]

/-- What a loop of fill that ends with success leaves: count, compared mark and block
length as they were, the filled mark moved by the number of entries (which the block had
room for), and elements that still have size 0 exactly when they have offset 0. -/
theorem fill_loop_effect (g : Nat) (hg : g ≠ 0) :
    ∀ (k : Nat) (grain_table : List Byte) (t t' : libvmdk_offset_table_t),
      (storage t).length < 2 ^ 32 →
      (∀ (i : Nat) (e : libvmdk_grain_offset_t),
        (storage t)[i]? = some e → size_zero_iff_offset_zero e) →
      fill_loop g k grain_table t = .success t' →
      t'.number_of_grain_offsets = t.number_of_grain_offsets ∧
      t'.last_grain_offset_compared = t.last_grain_offset_compared ∧
      (storage t').length = (storage t).length ∧
      t'.last_grain_offset_filled = t.last_grain_offset_filled + k ∧
      (0 < k → t.last_grain_offset_filled + k ≤ (storage t).length) ∧
      (∀ (i : Nat) (e : libvmdk_grain_offset_t),
        (storage t')[i]? = some e → size_zero_iff_offset_zero e) := by
  intro k
  induction k with
  | zero =>
    intro grain_table t t' _ hP h
    simp only [fill_loop, Result.success.injEq] at h
    subst h
    exact ⟨rfl, rfl, rfl, rfl, fun h => absurd h (Nat.lt_irrefl 0), hP⟩
  | succ k ih =>
    intro grain_table t t' hmax hP h
    obtain ⟨N, L, C, go⟩ := t
    match grain_table, h with
    | b0 :: b1 :: b2 :: b3 :: rest, h =>
      cases go with
      | none => simp [fill_loop] at h
      | some block =>
        simp only [storage, Option.getD_some] at hmax hP ⊢
        by_cases hL : L < block.length
        · simp only [fill_loop, List.getElem?_eq_getElem hL] at h
          have hu : uint32_t (L + 1) = L + 1 := uint32_t_of_lt _ (by omega)
          rw [hu] at h
          have hP1 : ∀ (i : Nat) (e : libvmdk_grain_offset_t),
              (storage ⟨N, L + 1, C, some (block.set L
                ⟨current_offset b0 b1 b2 b3, current_size (current_offset b0 b1 b2 b3) g,
                  block[L].flags⟩)⟩)[i]? = some e → size_zero_iff_offset_zero e := by
            intro i e he
            simp only [storage, Option.getD_some, List.getElem?_set] at he
            split at he
            · simp only [Option.some.injEq] at he
              subst he
              have hz := current_size_zero_iff (current_offset b0 b1 b2 b3) g hg
              simp only [size_zero_iff_offset_zero]
              exact hz
            · exact hP i e he
          obtain ⟨h1, h2, h3, h4, h5, h6⟩ := ih rest _ t' (by simp [storage]; omega) hP1 h
          simp only [storage, Option.getD_some, List.length_set] at h3 h5
          simp only [storage] at h6
          dsimp only at h1 h2 h4
          refine ⟨h1, h2, h3, by rw [h4]; omega, fun _ => ?_, h6⟩
          by_cases hk0 : 0 < k
          · have := h5 hk0
            omega
          · omega
        · simp [fill_loop, List.getElem?_eq_none (Nat.le_of_not_lt hL)] at h
    | [], h => simp [fill_loop] at h
    | [_], h => simp [fill_loop] at h
    | [_, _], h => simp [fill_loop] at h
    | [_, _, _], h => simp [fill_loop] at h

/-- What a loop of compare that ends with success leaves: count, filled mark and block
length as they were, the compared mark moved by the number of entries (which the block had
room for), and elements whose offset and size are those they had. -/
theorem compare_loop_effect (p : Platform) (g : Nat) :
    ∀ (k : Nat) (grain_table : List Byte) (t t' : libvmdk_offset_table_t),
      (storage t).length < 2 ^ 32 →
      compare_loop p g k grain_table t = .success t' →
      t'.number_of_grain_offsets = t.number_of_grain_offsets ∧
      t'.last_grain_offset_filled = t.last_grain_offset_filled ∧
      (storage t').length = (storage t).length ∧
      t'.last_grain_offset_compared = t.last_grain_offset_compared + k ∧
      (0 < k → t.last_grain_offset_compared + k ≤ (storage t).length) ∧
      4 * k ≤ grain_table.length ∧
      (∀ (i : Nat) (e' : libvmdk_grain_offset_t), (storage t')[i]? = some e' →
        ∃ e, (storage t)[i]? = some e ∧ e'.file_offset = e.file_offset ∧ e'.size = e.size) := by
  intro k
  induction k with
  | zero =>
    intro grain_table t t' _ h
    simp only [compare_loop, Result.success.injEq] at h
    subst h
    exact ⟨rfl, rfl, rfl, rfl, fun h => absurd h (Nat.lt_irrefl 0), Nat.zero_le _,
      fun i e' he => ⟨e', he, rfl, rfl⟩⟩
  | succ k ih =>
    intro grain_table t t' hmax h
    obtain ⟨N, L, C, go⟩ := t
    match grain_table, h with
    | b0 :: b1 :: b2 :: b3 :: rest, h =>
      cases go with
      | none => simp [compare_loop] at h
      | some block =>
        simp only [storage, Option.getD_some] at hmax ⊢
        by_cases hC : C < block.length
        · simp only [compare_loop, List.getElem?_eq_getElem hC] at h
          have hu : uint32_t (C + 1) = C + 1 := uint32_t_of_lt _ (by omega)
          rw [hu] at h
          split at h
          · obtain ⟨h1, h2, h3, h4, h5, h6, h7⟩ :=
              ih rest _ t' (by simp [storage]; omega) h
            simp only [storage, Option.getD_some, List.length_set] at h3 h5 h7
            dsimp only at h1 h2 h4
            refine ⟨h1, h2, h3, by rw [h4]; omega, fun _ => ?_,
              by simp only [List.length_cons]; omega, ?_⟩
            · by_cases hk0 : 0 < k
              · have := h5 hk0
                omega
              · omega
            · intro i e' he'
              obtain ⟨e, he, ho, hsz⟩ := h7 i e' he'
              rw [List.getElem?_set] at he
              split at he
              · rename_i hi
                subst hi
                simp only [Option.some.injEq] at he
                subst he
                exact ⟨block[C], List.getElem?_eq_getElem hC, ho, hsz⟩
              · exact ⟨e, he, ho, hsz⟩
          · obtain ⟨h1, h2, h3, h4, h5, h6, h7⟩ :=
              ih rest _ t' (by simp [storage]; omega) h
            simp only [storage, Option.getD_some] at h3 h5 h7
            dsimp only at h1 h2 h4
            refine ⟨h1, h2, h3, by rw [h4]; omega, fun _ => ?_,
              by simp only [List.length_cons]; omega, h7⟩
            by_cases hk0 : 0 < k
            · have := h5 hk0
              omega
            · omega
        · simp [compare_loop, List.getElem?_eq_none (Nat.le_of_not_lt hC)] at h
    | [], h => simp [compare_loop] at h
    | [_], h => simp [compare_loop] at h
    | [_, _], h => simp [compare_loop] at h
    | [_, _, _], h => simp [compare_loop] at h

/-! ## The invariant of the reachable tables -/

theorem zero_grain_offset_size_iff : size_zero_iff_offset_zero zero_grain_offset := by
  simp [size_zero_iff_offset_zero, zero_grain_offset]

/-- The block length a byte size of `size_t p (s * n)` gives: `n` elements when the product
fits `size_t`, fewer when it does not. -/
theorem block_length_cases (p : Platform) (n : Nat) (hs : 0 < p.sizeof_grain_offset) :
    size_t p (p.sizeof_grain_offset * n) / p.sizeof_grain_offset = n ∨
    (size_t p (p.sizeof_grain_offset * n) / p.sizeof_grain_offset < n ∧
      2 ^ p.size_bits ≤ p.sizeof_grain_offset * n) := by
  by_cases hfit : p.sizeof_grain_offset * n < 2 ^ p.size_bits
  · left
    unfold size_t
    rw [Nat.mod_eq_of_lt hfit, Nat.mul_div_cancel_left n hs]
  · right
    refine ⟨?_, Nat.le_of_not_lt hfit⟩
    apply Nat.div_lt_of_lt_mul
    have : size_t p (p.sizeof_grain_offset * n) < 2 ^ p.size_bits :=
      Nat.mod_lt _ (Nat.two_pow_pos _)
    omega

theorem initialize_invariant (p : Platform) (m : Memory) (n : Nat)
    (t : libvmdk_offset_table_t) (hs : 0 < p.sizeof_grain_offset) (hn : n < 2 ^ 32)
    (h : libvmdk_offset_table_initialize p m none n = .success (some t)) :
    table_invariant p t := by
  unfold libvmdk_offset_table_initialize at h
  simp only [gt_iff_lt] at h
  split at h
  · split at h
    · split at h
      · exact absurd h (by simp)
      · split at h
        · simp only [Result.success.injEq, Option.some.injEq] at h
          subst h
          refine ⟨hn, Nat.zero_le _, Nat.zero_le _, ?_, ?_⟩
          · simpa [storage, cleared_offset_table] using block_length_cases p n hs
          · intro i e he
            simp only [storage, Option.getD_some] at he
            rw [List.getElem?_replicate] at he
            split at he
            · simp only [Option.some.injEq] at he
              rw [← he]
              exact zero_grain_offset_size_iff
            · exact absurd he (by simp)
        · exact absurd h (by simp)
    · simp only [Result.success.injEq, Option.some.injEq] at h
      subst h
      refine ⟨hn, Nat.zero_le _, Nat.zero_le _, ?_, ?_⟩
      · left
        simp only [storage, cleared_offset_table, Option.getD_none, List.length_nil]
        omega
      · intro i e he
        simp [storage, cleared_offset_table] at he
  · exact absurd h (by simp)

theorem resize_invariant (p : Platform) (m : Memory) (t t' : libvmdk_offset_table_t)
    (n : Nat) (hs : 0 < p.sizeof_grain_offset) (hn : n < 2 ^ 32)
    (hinv : table_invariant p t)
    (h : libvmdk_offset_table_resize p m t n = .success t') : table_invariant p t' := by
  by_cases hlt : t.number_of_grain_offsets < n
  · obtain ⟨hN, hL, hC, hJ, hP⟩ := hinv
    obtain ⟨r1, r2, r3, _, r5, r6, _, r8⟩ := resize_success_shape p m t t' n hlt h
    refine ⟨by omega, by omega, by omega, ?_, ?_⟩
    · rw [r5, r1]
      exact block_length_cases p n hs
    · intro i e he
      have hi : i < size_t p (p.sizeof_grain_offset * n) / p.sizeof_grain_offset := by
        rw [← r5]
        by_contra hge
        rw [List.getElem?_eq_none (Nat.le_of_not_lt hge)] at he
        exact absurd he (by simp)
      rw [r8 i hi] at he
      simp only [Option.some.injEq] at he
      subst he
      split
      · exact zero_grain_offset_size_iff
      · rename_i hiN
        rcases hJ with hJ | ⟨_, hJ⟩
        · have hin : i < (storage t).length := by omega
          apply hP i
          rw [List.getD_eq_getElem?_getD, List.getElem?_eq_getElem hin]
          rfl
        · have : size_t p (p.sizeof_grain_offset * n) < 2 ^ p.size_bits :=
            Nat.mod_lt _ (Nat.two_pow_pos _)
          omega
  · unfold libvmdk_offset_table_resize at h
    rw [if_neg hlt] at h
    simp only [Result.success.injEq] at h
    rw [← h]
    exact hinv

theorem invariant_length_le (p : Platform) (t : libvmdk_offset_table_t)
    (hinv : table_invariant p t) : (storage t).length ≤ t.number_of_grain_offsets := by
  obtain ⟨_, _, _, hJ, _⟩ := hinv
  rcases hJ with hJ | ⟨hJ, _⟩
  · omega
  · omega

theorem fill_loop_invariant (p : Platform) (g k : Nat) (grain_table : List Byte)
    (t t' : libvmdk_offset_table_t) (hg : g ≠ 0)
    (hinv : table_invariant p t)
    (h : fill_loop g k grain_table t = .success t') : table_invariant p t' := by
  have hlen := invariant_length_le p t hinv
  obtain ⟨hN, hL, hC, hJ, hP⟩ := hinv
  obtain ⟨h1, h2, h3, h4, h5, h6⟩ :=
    fill_loop_effect g hg k grain_table t t' (by omega) hP h
  refine ⟨by omega, ?_, by omega, by rw [h3, h1]; exact hJ, h6⟩
  by_cases hk : 0 < k
  · have := h5 hk
    omega
  · omega

theorem compare_loop_invariant (p : Platform) (g k : Nat) (grain_table : List Byte)
    (t t' : libvmdk_offset_table_t) (hinv : table_invariant p t)
    (h : compare_loop p g k grain_table t = .success t') : table_invariant p t' := by
  have hlen := invariant_length_le p t hinv
  obtain ⟨hN, hL, hC, hJ, hP⟩ := hinv
  obtain ⟨h1, h2, h3, h4, h5, _, h7⟩ :=
    compare_loop_effect p g k grain_table t t' (by omega) h
  refine ⟨by omega, by omega, ?_, by rw [h3, h1]; exact hJ, ?_⟩
  · by_cases hk : 0 < k
    · have := h5 hk
      omega
    · omega
  · intro i e' he'
    obtain ⟨e, he, ho, hsz⟩ := h7 i e' he'
    have := hP i e he
    unfold size_zero_iff_offset_zero at this ⊢
    rw [ho, hsz]
    exact this

theorem fill_invariant (p : Platform) (m : Memory) (t t' : libvmdk_offset_table_t)
    (grain_table : List Byte) (size k g : Nat) (hs : 0 < p.sizeof_grain_offset)
    (hinv : table_invariant p t)
    (h : libvmdk_offset_table_fill p m t grain_table size k g = .success t') :
    table_invariant p t' := by
  unfold libvmdk_offset_table_fill at h
  split at h
  · exact absurd h (by simp)
  split at h
  · exact absurd h (by simp)
  split at h
  · exact absurd h (by simp)
  split at h
  · exact absurd h (by simp)
  rename_i hg
  split at h
  · exact absurd h (by simp)
  have hu : uint32_t (t.last_grain_offset_filled + k) < 2 ^ 32 :=
    Nat.mod_lt _ (Nat.two_pow_pos 32)
  split at h
  · cases hr : libvmdk_offset_table_resize p m t
        (uint32_t (t.last_grain_offset_filled + k)) with
    | failure t1 e => rw [hr] at h; exact absurd h (by simp)
    | undefined => rw [hr] at h; exact absurd h (by simp)
    | success t1 =>
      rw [hr] at h
      exact fill_loop_invariant p g k grain_table t1 t' hg
        (resize_invariant p m t t1 _ hs hu hinv hr) h
  · exact fill_loop_invariant p g k grain_table t t' hg hinv h

theorem compare_invariant (p : Platform) (m : Memory) (t t' : libvmdk_offset_table_t)
    (grain_table : List Byte) (size k g : Nat) (hs : 0 < p.sizeof_grain_offset)
    (hinv : table_invariant p t)
    (h : libvmdk_offset_table_compare p m t grain_table size k g = .success t') :
    table_invariant p t' := by
  unfold libvmdk_offset_table_compare at h
  split at h
  · exact absurd h (by simp)
  split at h
  · exact absurd h (by simp)
  split at h
  · exact absurd h (by simp)
  split at h
  · exact absurd h (by simp)
  split at h
  · exact absurd h (by simp)
  have hu : uint32_t (t.last_grain_offset_compared + k) < 2 ^ 32 :=
    Nat.mod_lt _ (Nat.two_pow_pos 32)
  split at h
  · cases hr : libvmdk_offset_table_resize p m t
        (uint32_t (t.last_grain_offset_compared + k)) with
    | failure t1 e => rw [hr] at h; exact absurd h (by simp)
    | undefined => rw [hr] at h; exact absurd h (by simp)
    | success t1 =>
      rw [hr] at h
      exact compare_loop_invariant p g k grain_table t1 t'
        (resize_invariant p m t t1 _ hs hu hinv hr) h
  · exact compare_loop_invariant p g k grain_table t t' hinv h

/-- Every reachable table satisfies the invariant. -/
theorem reachable_invariant (p : Platform) (hs : 0 < p.sizeof_grain_offset)
    (t : libvmdk_offset_table_t) (h : Reachable p t) : table_invariant p t := by
  induction h with
  | initialized m n t hn hinit => exact initialize_invariant p m n t hs hn hinit
  | call m c t t' _ htyped hrun ih =>
    rcases hrun with hrun | ⟨e, hrun⟩
    · cases c with
      | resize n => exact resize_invariant p m t t' n hs htyped ih hrun
      | fill grain_table size k g =>
        exact fill_invariant p m t t' grain_table size k g hs ih hrun
      | compare grain_table size k g =>
        exact compare_invariant p m t t' grain_table size k g hs ih hrun
    · cases c with
      | resize n => rw [resize_failure_unchanged p m t t' n e hrun]; exact ih
      | fill grain_table size k g =>
        rw [fill_failure_unchanged p m t t' grain_table size k g e hrun]; exact ih
      | compare grain_table size k g =>
        rw [compare_failure_unchanged p m t t' grain_table size k g e hrun]; exact ih

/-! ## C11: size 0 exactly when offset 0 -/

/-- C11: in every table reachable from initialize by resize, fill and compare calls that
return (with 1 or with -1), every element of the block has size 0 if and only if it has
offset 0. -/
theorem reachable_size_zero_iff_offset_zero (p : Platform) (hs : 0 < p.sizeof_grain_offset)
    (t : libvmdk_offset_table_t) (h : Reachable p t) :
    ∀ (i : Nat) (e : libvmdk_grain_offset_t),
      (storage t)[i]? = some e → (e.size = 0 ↔ e.file_offset = 0) :=
  (reachable_invariant p hs t h).2.2.2.2

/-- C11, an instance: the table the grain table `[0, 2]` leaves, filled into the table of
a fresh handle. -/
theorem reachable_size_zero_iff_offset_zero_witness :
    (storage ⟨2, 2, 0, some [⟨0, 0, 0⟩, ⟨1024, 65536, 0⟩]⟩)[1]? = some ⟨1024, 65536, 0⟩ ∧
    ((⟨1024, 65536, 0⟩ : libvmdk_grain_offset_t).size = 0
      ↔ (⟨1024, 65536, 0⟩ : libvmdk_grain_offset_t).file_offset = 0) :=
  ⟨by decide,
    reachable_size_zero_iff_offset_zero lp64 (by decide)
      ⟨2, 2, 0, some [⟨0, 0, 0⟩, ⟨1024, 65536, 0⟩]⟩
      (Reachable.call granting (Call.fill [0, 0, 0, 0, 2, 0, 0, 0] 8 2 65536)
        cleared_offset_table _
        (Reachable.initialized granting 0 cleared_offset_table (by decide) (by decide))
        ⟨by decide, by decide, by decide⟩ (Or.inl (by decide)))
      1 ⟨1024, 65536, 0⟩ (by decide)⟩

/-! ## C12: the high-water marks stay within the entry count -/

/-- C12: in every table reachable from initialize by resize, fill and compare calls that
return, the entry count is at least `last_grain_offset_filled` and at least
`last_grain_offset_compared`; the calls compute their index sums modulo `2 ^ 32`. -/
theorem reachable_marks_within_count (p : Platform) (hs : 0 < p.sizeof_grain_offset)
    (t : libvmdk_offset_table_t) (h : Reachable p t) :
    t.last_grain_offset_filled ≤ t.number_of_grain_offsets ∧
    t.last_grain_offset_compared ≤ t.number_of_grain_offsets :=
  ⟨(reachable_invariant p hs t h).2.1, (reachable_invariant p hs t h).2.2.1⟩

/-- C12, an instance: a fill of two entries followed by a compare of two entries, from the
table of a fresh handle. -/
theorem reachable_marks_within_count_witness :
    (⟨2, 2, 2, some [⟨0, 0, 0⟩, ⟨1024, 65536, 0⟩]⟩ :
        libvmdk_offset_table_t).last_grain_offset_filled
      ≤ (⟨2, 2, 2, some [⟨0, 0, 0⟩, ⟨1024, 65536, 0⟩]⟩ :
        libvmdk_offset_table_t).number_of_grain_offsets ∧
    (⟨2, 2, 2, some [⟨0, 0, 0⟩, ⟨1024, 65536, 0⟩]⟩ :
        libvmdk_offset_table_t).last_grain_offset_compared
      ≤ (⟨2, 2, 2, some [⟨0, 0, 0⟩, ⟨1024, 65536, 0⟩]⟩ :
        libvmdk_offset_table_t).number_of_grain_offsets :=
  reachable_marks_within_count lp64 (by decide)
    ⟨2, 2, 2, some [⟨0, 0, 0⟩, ⟨1024, 65536, 0⟩]⟩
    (Reachable.call granting (Call.compare [0, 0, 0, 0, 2, 0, 0, 0] 8 2 65536)
      ⟨2, 2, 0, some [⟨0, 0, 0⟩, ⟨1024, 65536, 0⟩]⟩ _
      (Reachable.call granting (Call.fill [0, 0, 0, 0, 2, 0, 0, 0] 8 2 65536)
        cleared_offset_table _
        (Reachable.initialized granting 0 cleared_offset_table (by decide) (by decide))
        ⟨by decide, by decide, by decide⟩ (Or.inl (by decide)))
      ⟨by decide, by decide, by decide⟩ (Or.inl (by decide)))

/-! ## C13: the classification of a signature -/

theorem memory_compare_equal_iff (a b : List Byte) (size : Nat) :
    memory_compare_equal a b size = true ↔ a.take size = b.take size := by
  simp [memory_compare_equal]

theorem take_four_of_take (a b : List Byte) (n : Nat) (hn : 4 ≤ n)
    (h : a.take n = b.take n) : a.take 4 = b.take 4 := by
  have h1 : (a.take n).take 4 = (b.take n).take 4 := by rw [h]
  rwa [List.take_take, List.take_take, Nat.min_eq_left hn] at h1

/-- C13: on a pool entry whose seek and read succeed and deliver the 32 bytes `signature`,
with magics that differ on their first four bytes: the format-A magic in the first 4 bytes
gives the type sparse-A, the format-B magic sparse-B, the 21-byte descriptor magic followed
by a newline at index 21 the type descriptor, each with result 1; every other buffer gives
result 0, sets no error and leaves the type as it was. -/
theorem signature_classification (d : Definitions) (file_io_pool : libbfio_pool_t)
    (file_io_pool_entry : Nat) (file : libbfio_handle_t) (signature : List Byte)
    (file_type : Nat) (hd : magics_distinct d)
    (hfile : file_io_pool.handles[file_io_pool_entry]? = some file)
    (hseek : file.seek_fails = false) (hread : file.read_fails = false)
    (hcontent : file.content.take 32 = signature) (hsize : signature.length = 32) :
    (signature.take 4 = d.cowd_sparse_file_signature.take 4 →
      (libvmdk_handle_open_read_signature d file_io_pool file_io_pool_entry file_type).1
        = ⟨1, d.FILE_TYPE_COWD_SPARSE_DATA, []⟩) ∧
    (signature.take 4 = d.vmdk_sparse_file_signature.take 4 →
      (libvmdk_handle_open_read_signature d file_io_pool file_io_pool_entry file_type).1
        = ⟨1, d.FILE_TYPE_VMDK_SPARSE_DATA, []⟩) ∧
    (signature.take 21 = d.vmdk_descriptor_file_signature.take 21 →
      signature[21]? = some 10 →
      (libvmdk_handle_open_read_signature d file_io_pool file_io_pool_entry file_type).1
        = ⟨1, d.FILE_TYPE_DESCRIPTOR_FILE, []⟩) ∧
    (signature.take 4 ≠ d.cowd_sparse_file_signature.take 4 →
      signature.take 4 ≠ d.vmdk_sparse_file_signature.take 4 →
      (signature.take 21 ≠ d.vmdk_descriptor_file_signature.take 21 ∨
        signature[21]? ≠ some 10) →
      (libvmdk_handle_open_read_signature d file_io_pool file_io_pool_entry file_type).1
        = ⟨0, file_type, []⟩) := by
  obtain ⟨hAB, hDA, hDB⟩ := hd
  have hrun : (libvmdk_handle_open_read_signature d file_io_pool file_io_pool_entry
      file_type).1 = classify_signature d signature file_type := by
    simp only [libvmdk_handle_open_read_signature, hfile, hseek, hread, hcontent, hsize]
    simp
  rw [hrun]
  refine ⟨?_, ?_, ?_, ?_⟩
  · intro hA
    simp only [classify_signature]
    rw [if_pos ((memory_compare_equal_iff _ _ _).2 hA)]
  · intro hB
    have hA : ¬ memory_compare_equal signature d.cowd_sparse_file_signature 4 = true := by
      rw [memory_compare_equal_iff, hB]; exact fun h => hAB h.symm
    simp only [classify_signature]
    rw [if_neg hA, if_pos ((memory_compare_equal_iff _ _ _).2 hB)]
  · intro hD hnl
    have h4 := take_four_of_take _ _ 21 (by omega) hD
    have hA : ¬ memory_compare_equal signature d.cowd_sparse_file_signature 4 = true := by
      rw [memory_compare_equal_iff, h4]; exact hDA
    have hB : ¬ memory_compare_equal signature d.vmdk_sparse_file_signature 4 = true := by
      rw [memory_compare_equal_iff, h4]; exact hDB
    simp only [classify_signature]
    rw [if_neg hA, if_neg hB, if_pos ((memory_compare_equal_iff _ _ _).2 hD), if_pos hnl]
  · intro hA hB hD
    have hA' : ¬ memory_compare_equal signature d.cowd_sparse_file_signature 4 = true := by
      rw [memory_compare_equal_iff]; exact hA
    have hB' : ¬ memory_compare_equal signature d.vmdk_sparse_file_signature 4 = true := by
      rw [memory_compare_equal_iff]; exact hB
    simp only [classify_signature]
    rw [if_neg hA', if_neg hB']
    by_cases hD' : memory_compare_equal signature d.vmdk_descriptor_file_signature 21 = true
    · rw [if_pos hD']
      rcases hD with hD | hD
      · exact absurd ((memory_compare_equal_iff _ _ _).1 hD') hD
      · rw [if_neg hD]
    · rw [if_neg hD']

theorem signature_classification_witness :
    magics_distinct vmdk_definitions ∧
    (libvmdk_handle_open_read_signature vmdk_definitions ⟨7, [cowd_file, unrecognized_file]⟩
      0 0).1 = ⟨1, vmdk_definitions.FILE_TYPE_COWD_SPARSE_DATA, []⟩ ∧
    (libvmdk_handle_open_read_signature vmdk_definitions ⟨7, [cowd_file, unrecognized_file]⟩
      1 99).1 = ⟨0, 99, []⟩ :=
  ⟨by decide,
   (signature_classification vmdk_definitions ⟨7, [cowd_file, unrecognized_file]⟩ 0
      cowd_file (cowd_file.content.take 32) 0 (by decide) (by decide) (by decide)
      (by decide) rfl (by decide)).1 (by decide),
   (signature_classification vmdk_definitions ⟨7, [cowd_file, unrecognized_file]⟩ 1
      unrecognized_file (unrecognized_file.content.take 32) 99 (by decide) (by decide)
      (by decide) (by decide) rfl (by decide)).2.2.2 (by decide) (by decide)
      (Or.inl (by decide))⟩

/-! ## C14: open by filenames with the WRITE bit -/

/-- C14: `libvmdk_handle_open` with at least one filename and the WRITE bit set in the flags
fails with the argument error "unsupported value", leaves the handle as it was, and causes
no event: no pool is created, no filename is examined or turned into a file IO handle, and
no file is touched. -/
theorem open_rejects_write (d : Definitions) (env : Environment)
    (h : libvmdk_internal_handle_t) (filenames : List Filename) (flags : Nat)
    (hfilenames : filenames ≠ []) (hwrite : flags &&& d.ACCESS_FLAG_WRITE ≠ 0) :
    libvmdk_handle_open d env h filenames flags
      = ⟨.failure h [⟨.ARGUMENTS, .ARGUMENT_ERROR_UNSUPPORTED_VALUE⟩], []⟩ := by
  have hlen : ¬ filenames.length ≤ 0 := by
    cases filenames with
    | nil => exact absurd rfl hfilenames
    | cons a l => simp
  simp only [libvmdk_handle_open]
  rw [if_neg hlen, if_pos hwrite]

theorem open_rejects_write_witness :
    libvmdk_handle_open vmdk_definitions obliging fresh_handle [disk_name, [97]] 3
      = ⟨.failure fresh_handle [⟨.ARGUMENTS, .ARGUMENT_ERROR_UNSUPPORTED_VALUE⟩], []⟩ :=
  open_rejects_write vmdk_definitions obliging fresh_handle [disk_name, [97]] 3
    (by decide) (by decide)

/-! ## C15: filenames that are too short -/

theorem after_events {α : Type} (events : List Event) (o : Outcome α) :
    (o.after events).events = events ++ o.events := rfl

/-- C16: `libvmdk_handle_open_file_io_pool` does not reject the WRITE bit. With the flags
READ 1 and WRITE 2, the call with flags 2 returns success on every handle that has an IO
handle and for every pool, having stored the flags and the pool reference; with flags 3 it
reads the pool and succeeds; `libvmdk_handle_open` rejects both values. -/
theorem open_file_io_pool_accepts_write :
    (∀ (env : Environment) (io_handle : libvmdk_io_handle_t)
      (segment_table : libvmdk_segment_table_t) (offset_table : libvmdk_offset_table_t)
      (pool : Option libbfio_pool_t) (created : Nat) (maximum abort : Int)
      (file_io_pool : libbfio_pool_t),
      libvmdk_handle_open_file_io_pool vmdk_definitions env
        ⟨some io_handle, segment_table, offset_table, pool, created, maximum, abort⟩
        file_io_pool 2
      = ⟨.success ⟨some ⟨2⟩, segment_table, offset_table, some file_io_pool, created, maximum,
          abort⟩, []⟩) ∧
    libvmdk_handle_open_file_io_pool vmdk_definitions obliging fresh_handle caller_pool 3
      = ⟨.success { fresh_handle with io_handle := some ⟨3⟩, file_io_pool := some caller_pool },
          [.pool_seek 7 0, .pool_read 7 0]⟩ ∧
    libvmdk_handle_open vmdk_definitions obliging fresh_handle [disk_name] 2
      = ⟨.failure fresh_handle [⟨.ARGUMENTS, .ARGUMENT_ERROR_UNSUPPORTED_VALUE⟩], []⟩ ∧
    libvmdk_handle_open vmdk_definitions obliging fresh_handle [disk_name] 3
      = ⟨.failure fresh_handle [⟨.ARGUMENTS, .ARGUMENT_ERROR_UNSUPPORTED_VALUE⟩], []⟩ := by
  refine ⟨?_, by decide, by decide, by decide⟩
  intro env io_handle segment_table offset_table pool created maximum abort file_io_pool
  simp [libvmdk_handle_open_file_io_pool, vmdk_definitions]

/-! ## C17: a pool entry no magic matches -/

/-- C17: with READ access a pool entry no magic matches is not rejected when it is not the
first. The classification returns 0 and leaves the type of the entry before it in place;
after a descriptor file `libvmdk_handle_open_file_io_pool` succeeds, and after a sparse
file of format A an extent file is created for the unmatched entry and the call fails on
its header with the IO error "read failed". Only as the first entry is it rejected as
unsupported. -/
theorem open_file_io_pool_unmatched_entry_takes_previous_type :
    (libvmdk_handle_open_read_signature vmdk_definitions
      ⟨7, [descriptor_file, unrecognized_file]⟩ 1
      vmdk_definitions.FILE_TYPE_DESCRIPTOR_FILE).1
      = ⟨0, vmdk_definitions.FILE_TYPE_DESCRIPTOR_FILE, []⟩ ∧
    libvmdk_handle_open_file_io_pool vmdk_definitions obliging fresh_handle
      ⟨7, [descriptor_file, unrecognized_file]⟩ 1
      = ⟨.success { fresh_handle with
            io_handle := some ⟨1⟩
            file_io_pool := some ⟨7, [descriptor_file, unrecognized_file]⟩ },
          [.pool_seek 7 0, .pool_read 7 0, .pool_seek 7 1, .pool_read 7 1]⟩ ∧
    libvmdk_handle_open_file_io_pool vmdk_definitions obliging fresh_handle
      ⟨7, [cowd_file, unrecognized_file]⟩ 1
      = ⟨.failure { fresh_handle with
            io_handle := some ⟨1⟩
            segment_table := ⟨[some ⟨0⟩]⟩ }
          [⟨.IO_DOMAIN, .IO_ERROR_READ_FAILED⟩],
          [.pool_seek 7 0, .pool_read 7 0, .extent_file_initialized 0,
            .extent_file_header_read 0, .segment_set 0 0, .pool_seek 7 1, .pool_read 7 1,
            .extent_file_initialized 1, .extent_file_header_read 1, .extent_file_freed 1]⟩ ∧
    libvmdk_handle_open_file_io_pool vmdk_definitions obliging fresh_handle
      ⟨7, [unrecognized_file, descriptor_file]⟩ 1
      = ⟨.failure { fresh_handle with io_handle := some ⟨1⟩ }
          [⟨.ARGUMENTS, .ARGUMENT_ERROR_UNSUPPORTED_VALUE⟩],
          [.pool_seek 7 0, .pool_read 7 0]⟩ := by
  decide

/-! ## C18: the pool a caller supplied -/

/-- C18: the flag that says the library created the pool is set by a successful
`libvmdk_handle_open` and never cleared. After such an open (and a close), a
`libvmdk_handle_open_file_io_pool` with the caller's pool 7 puts that pool in the handle
with the flag still set: `libvmdk_handle_close` then closes pool 7 and
`libvmdk_handle_free` frees it. -/
theorem close_and_free_reach_caller_pool :
    (libvmdk_handle_open vmdk_definitions obliging fresh_handle [disk_name] 1).result
      = .success library_opened_handle ∧
    libvmdk_handle_close obliging library_opened_handle
      = ⟨.success library_opened_handle, [.pool_close_all 1]⟩ ∧
    libvmdk_handle_open_file_io_pool vmdk_definitions obliging library_opened_handle
      caller_pool 1
      = ⟨.success caller_opened_handle, [.pool_seek 7 0, .pool_read 7 0]⟩ ∧
    caller_opened_handle.file_io_pool = some caller_pool ∧
    libvmdk_handle_close obliging caller_opened_handle
      = ⟨.success caller_opened_handle, [.pool_close_all 7]⟩ ∧
    libvmdk_handle_free (some caller_opened_handle) = ⟨.success none, [.pool_freed 7]⟩ := by
  decide

/-! ## C19: the segment pass and the abort flag -/

theorem signal_abort_sets_flag (h0 h : libvmdk_internal_handle_t)
    (hsignal : libvmdk_handle_signal_abort h0 = .success h) : h.abort = 1 := by
  simp only [libvmdk_handle_signal_abort, Result.success.injEq] at hsignal
  rw [← hsignal]

/-- Counterexample to C19: after `libvmdk_handle_signal_abort` on the handle
`libvmdk_handle_initialize` makes, whose segment table has one slot, the segment pass
returns success: its loop starts at segment 1 and never runs, so the flag is not polled. -/
theorem open_read_ignores_abort_without_segments :
    libvmdk_handle_signal_abort fresh_handle = .success { fresh_handle with abort := 1 } ∧
    libvmdk_handle_open_read { fresh_handle with abort := 1 } fresh_handle.segment_table
      = ⟨.success (), []⟩ ∧
    libvmdk_handle_open_read { fresh_handle with abort := 1 } ⟨[]⟩ = ⟨.success (), []⟩ := by
  decide

/-- C19, amended: with the abort flag set by `libvmdk_handle_signal_abort` before the
segment pass, `libvmdk_handle_open_read` on a segment table of two or more slots reports
failure and retrieves segment 1 only, whatever the table holds; on a segment table of at
most one slot it retrieves nothing and reports success. -/
theorem open_read_stops_on_abort (h0 h : libvmdk_internal_handle_t)
    (segment_table : libvmdk_segment_table_t)
    (hsignal : libvmdk_handle_signal_abort h0 = .success h) :
    (2 ≤ libvmdk_segment_table_get_number_of_handles segment_table →
      (∃ error, (libvmdk_handle_open_read h segment_table).result = .failure () error) ∧
      (libvmdk_handle_open_read h segment_table).events = [.segment_got 1]) ∧
    (libvmdk_segment_table_get_number_of_handles segment_table ≤ 1 →
      libvmdk_handle_open_read h segment_table = ⟨.success (), []⟩) := by
  have habort := signal_abort_sets_flag h0 h hsignal
  constructor
  · intro hn
    obtain ⟨k, hk⟩ : ∃ k, libvmdk_segment_table_get_number_of_handles segment_table - 1
        = k + 1 := ⟨libvmdk_segment_table_get_number_of_handles segment_table - 2, by omega⟩
    simp only [libvmdk_handle_open_read, hk, open_read_loop, habort]
    cases libvmdk_segment_table_get_handle segment_table 1 with
    | none => exact ⟨⟨_, rfl⟩, rfl⟩
    | some extent_file => exact ⟨⟨_, rfl⟩, rfl⟩
  · intro hn
    have hk : libvmdk_segment_table_get_number_of_handles segment_table - 1 = 0 := by omega
    simp only [libvmdk_handle_open_read, hk, open_read_loop]

theorem open_read_stops_on_abort_witness :
    libvmdk_handle_signal_abort fresh_handle = .success { fresh_handle with abort := 1 } ∧
    2 ≤ libvmdk_segment_table_get_number_of_handles ⟨[none, some ⟨0⟩, some ⟨1⟩]⟩ ∧
    (∃ error, (libvmdk_handle_open_read { fresh_handle with abort := 1 }
      ⟨[none, some ⟨0⟩, some ⟨1⟩]⟩).result = .failure () error) ∧
    (libvmdk_handle_open_read { fresh_handle with abort := 1 }
      ⟨[none, some ⟨0⟩, some ⟨1⟩]⟩).events = [.segment_got 1] :=
  ⟨rfl, by decide,
    (open_read_stops_on_abort fresh_handle { fresh_handle with abort := 1 }
      ⟨[none, some ⟨0⟩, some ⟨1⟩]⟩ rfl).1 (by decide)⟩

/-! ## C20: what compare does to the flags -/

/-- Every failure the embedding of `libvmdk_handle_open_file_io_pool` has on a handle with
an IO handle leaves through `on_error`: the pool reference of the handle is NULL
afterwards. The returns of -1 for a NULL pool and for a
`libbfio_pool_get_number_of_handles` that fails are not part of the embedding. -/
theorem open_file_io_pool_failure_unsets_pool (d : Definitions) (env : Environment)
    (h h1 : libvmdk_internal_handle_t) (io_handle : libvmdk_io_handle_t)
    (file_io_pool : libbfio_pool_t) (flags : Nat) (error : List libcerror_error_t)
    (hio : h.io_handle = some io_handle)
    (hres : (libvmdk_handle_open_file_io_pool d env h file_io_pool flags).result
      = .failure h1 error) :
    h1.file_io_pool = none := by
  simp only [libvmdk_handle_open_file_io_pool, hio] at hres
  split_ifs at hres
  · simp only [Result.failure.injEq] at hres
    rw [← hres.1]
  · split at hres
    · split at hres
      · simp at hres
      · simp only [Result.failure.injEq] at hres
        rw [← hres.1]
      · simp at hres
    · simp only [Result.failure.injEq] at hres
      rw [← hres.1]
    · simp at hres

/-- C21: a failed `libvmdk_handle_open_file_io_pool` leaves more than an unset pool
reference. On the handle `libvmdk_handle_initialize` makes (flags 0, one empty segment
slot), with READ access: for a pool of a format-A extent file followed by a file whose
signature cannot be read the call fails, and the handle keeps the flags of the call and
the extent file of entry 0 in its segment table; for a pool of one file no magic matches
the call fails and the handle keeps the flags of the call. -/
theorem open_file_io_pool_failure_keeps_flags_and_segments :
    fresh_handle.io_handle = some ⟨0⟩ ∧
    fresh_handle.segment_table = ⟨[none]⟩ ∧
    libvmdk_handle_open_file_io_pool vmdk_definitions obliging fresh_handle
      ⟨7, [cowd_file, unreadable_file]⟩ 1
      = ⟨.failure
          { fresh_handle with
            io_handle := some ⟨1⟩
            segment_table := ⟨[some ⟨0⟩]⟩
            file_io_pool := none }
          [⟨.IO_DOMAIN, .IO_ERROR_READ_FAILED⟩, ⟨.IO_DOMAIN, .IO_ERROR_READ_FAILED⟩],
          [.pool_seek 7 0, .pool_read 7 0, .extent_file_initialized 0,
            .extent_file_header_read 0, .segment_set 0 0, .pool_seek 7 1, .pool_read 7 1]⟩ ∧
    libvmdk_handle_open_file_io_pool vmdk_definitions obliging fresh_handle
      ⟨7, [unrecognized_file]⟩ 1
      = ⟨.failure { fresh_handle with io_handle := some ⟨1⟩, file_io_pool := none }
          [⟨.ARGUMENTS, .ARGUMENT_ERROR_UNSUPPORTED_VALUE⟩],
          [.pool_seek 7 0, .pool_read 7 0]⟩ := by
  decide

/-! ## C22: the segment index of an extent file -/

/-- C22: every extent file is registered at segment index 0. On the handle
`libvmdk_handle_initialize` makes, with READ access and a pool of a format-A and a
format-B extent file whose headers parse, `libvmdk_handle_open_file_io_pool` succeeds; it
sets index 0 twice, the segment table ends with the extent file of entry 1 alone, and the
segment pass, which starts at index 1, retrieves no segment. -/
theorem open_file_io_pool_registers_every_extent_at_index_zero :
    libvmdk_handle_open_file_io_pool vmdk_definitions obliging fresh_handle
      ⟨7, [cowd_file, vmdk_file]⟩ 1
      = ⟨.success
          { fresh_handle with
            io_handle := some ⟨1⟩
            segment_table := ⟨[some ⟨1⟩]⟩
            file_io_pool := some ⟨7, [cowd_file, vmdk_file]⟩ },
          [.pool_seek 7 0, .pool_read 7 0, .extent_file_initialized 0,
            .extent_file_header_read 0, .segment_set 0 0, .pool_seek 7 1, .pool_read 7 1,
            .extent_file_initialized 1, .extent_file_header_read 1, .segment_set 0 1]⟩ ∧
    libvmdk_handle_open_read fresh_handle ⟨[some ⟨1⟩]⟩ = ⟨.success (), []⟩ := by
  decide

/-! ## C23: the indices the loops reach when the 32-bit sum wraps -/

/-- A fill loop that has more entries to write than the block has elements left leaves the
block: no run of it returns. -/
theorem fill_loop_leaves_block (g : Nat) :
    ∀ (k : Nat) (grain_table : List Byte) (t : libvmdk_offset_table_t),
      (storage t).length < 2 ^ 32 →
      t.last_grain_offset_filled ≤ (storage t).length →
      (storage t).length < t.last_grain_offset_filled + k →
      fill_loop g k grain_table t = .undefined := by
  intro k
  induction k with
  | zero =>
    intro grain_table t _ hL hk
    omega
  | succ k ih =>
    intro grain_table t hmax hL hk
    obtain ⟨N, L, C, go⟩ := t
    match grain_table with
    | b0 :: b1 :: b2 :: b3 :: rest =>
      cases go with
      | none => simp [fill_loop]
      | some block =>
        simp only [storage, Option.getD_some] at hmax hL hk
        by_cases hlt : L < block.length
        · simp only [fill_loop, List.getElem?_eq_getElem hlt]
          have hu : uint32_t (L + 1) = L + 1 := uint32_t_of_lt _ (by omega)
          rw [hu]
          apply ih
          · simp only [storage, Option.getD_some, List.length_set]; omega
          · simp only [storage, Option.getD_some, List.length_set]; omega
          · simp only [storage, Option.getD_some, List.length_set]; omega
        · simp [fill_loop, List.getElem?_eq_none (Nat.le_of_not_lt hlt)]
    | [] => simp [fill_loop]
    | [_] => simp [fill_loop]
    | [_, _] => simp [fill_loop]
    | [_, _, _] => simp [fill_loop]

/-- A compare loop that has more entries to read than the block has elements left leaves
the block: no run of it returns. -/
theorem compare_loop_leaves_block (p : Platform) (g : Nat) :
    ∀ (k : Nat) (grain_table : List Byte) (t : libvmdk_offset_table_t),
      (storage t).length < 2 ^ 32 →
      t.last_grain_offset_compared ≤ (storage t).length →
      (storage t).length < t.last_grain_offset_compared + k →
      compare_loop p g k grain_table t = .undefined := by
  intro k
  induction k with
  | zero =>
    intro grain_table t _ hC hk
    omega
  | succ k ih =>
    intro grain_table t hmax hC hk
    obtain ⟨N, L, C, go⟩ := t
    match grain_table with
    | b0 :: b1 :: b2 :: b3 :: rest =>
      cases go with
      | none => simp [compare_loop]
      | some block =>
        simp only [storage, Option.getD_some] at hmax hC hk
        by_cases hlt : C < block.length
        · simp only [compare_loop, List.getElem?_eq_getElem hlt]
          have hu : uint32_t (C + 1) = C + 1 := uint32_t_of_lt _ (by omega)
          rw [hu]
          apply ih
          · simp only [storage]; split <;> simp <;> omega
          · simp only [storage]; split <;> simp <;> omega
          · simp only [storage]; split <;> simp <;> omega
        · simp [compare_loop, List.getElem?_eq_none (Nat.le_of_not_lt hlt)]
    | [] => simp [compare_loop]
    | [_] => simp [compare_loop]
    | [_, _] => simp [compare_loop]
    | [_, _, _] => simp [compare_loop]

theorem wrapped_sum_le (a k n : Nat) (ha : a ≤ n) (hn : n < 2 ^ 32) (hk : k < 2 ^ 32)
    (hwrap : 2 ^ 32 ≤ a + k) : ¬ n < uint32_t (a + k) := by
  unfold uint32_t
  omega

/-- Fill on a table whose block holds as many elements as its count says, with an input
the validation accepts: when `last_grain_offset_filled + number_of_grain_table_entries`
does not fit 32 bits, the wrapped sum asks for no resize and the loop leaves the block. -/
theorem fill_wrapped_sum_undefined (p : Platform) (m : Memory)
    (t : libvmdk_offset_table_t) (grain_table : List Byte) (size k g : Nat)
    (hlen : (storage t).length = t.number_of_grain_offsets)
    (hN : t.number_of_grain_offsets < 2 ^ 32)
    (hL : t.last_grain_offset_filled ≤ t.number_of_grain_offsets) (hk : k < 2 ^ 32)
    (hsize : size ≤ SSIZE_MAX p) (h4 : size % 4 = 0) (hcount : k = size / 4)
    (hg0 : g ≠ 0) (hg : g ≤ SSIZE_MAX p)
    (hwrap : 2 ^ 32 ≤ t.last_grain_offset_filled + k) :
    libvmdk_offset_table_fill p m t grain_table size k g = .undefined := by
  unfold libvmdk_offset_table_fill
  rw [if_neg (show ¬ size > SSIZE_MAX p from by omega),
    if_neg (show ¬ size % 4 ≠ 0 from by omega),
    if_neg (show ¬ k ≠ size / 4 from by omega),
    if_neg hg0,
    if_neg (show ¬ g > SSIZE_MAX p from by omega),
    if_neg (wrapped_sum_le _ k _ hL hN hk hwrap)]
  exact fill_loop_leaves_block g k grain_table t (by omega) (by omega) (by omega)

/-- Compare on such a table and input: when
`last_grain_offset_compared + number_of_grain_table_entries` does not fit 32 bits, the
wrapped sum asks for no resize and the loop leaves the block. -/
theorem compare_wrapped_sum_undefined (p : Platform) (m : Memory)
    (t : libvmdk_offset_table_t) (grain_table : List Byte) (size k g : Nat)
    (hlen : (storage t).length = t.number_of_grain_offsets)
    (hN : t.number_of_grain_offsets < 2 ^ 32)
    (hC : t.last_grain_offset_compared ≤ t.number_of_grain_offsets) (hk : k < 2 ^ 32)
    (hsize : size ≤ SSIZE_MAX p) (h4 : size % 4 = 0) (hcount : k = size / 4)
    (hg0 : g ≠ 0) (hg : g ≤ SSIZE_MAX p)
    (hwrap : 2 ^ 32 ≤ t.last_grain_offset_compared + k) :
    libvmdk_offset_table_compare p m t grain_table size k g = .undefined := by
  unfold libvmdk_offset_table_compare
  rw [if_neg (show ¬ size > SSIZE_MAX p from by omega),
    if_neg (show ¬ size % 4 ≠ 0 from by omega),
    if_neg (show ¬ k ≠ size / 4 from by omega),
    if_neg hg0,
    if_neg (show ¬ g > SSIZE_MAX p from by omega),
    if_neg (wrapped_sum_le _ k _ hC hN hk hwrap)]
  exact compare_loop_leaves_block p g k grain_table t (by omega) (by omega) (by omega)

/-- C23: when the 32-bit sum wraps, fill writes and compare reads past the entry count. On a
64-bit build the table with one grain, filled and compared, is reachable; a grain table of
`2 ^ 32 - 1` entries (17179869180 bytes) passes the validation of both calls, the sum
`1 + 4294967295` wraps to 0, so neither call resizes, and the first index the loop of
either call reaches is 1, which is the entry count and lies outside the block. -/
theorem fill_and_compare_wrapped_sum_leave_block :
    Reachable lp64 ⟨1, 1, 1, some [⟨512, 65536, 0⟩]⟩ ∧
    uint32_t (1 + 4294967295) = 0 ∧
    (List.replicate 17179869180 (0 : Byte)).length = 4 * 4294967295 ∧
    (storage ⟨1, 1, 1, some [⟨512, 65536, 0⟩]⟩)[1]? = none ∧
    libvmdk_offset_table_fill lp64 granting ⟨1, 1, 1, some [⟨512, 65536, 0⟩]⟩
      (List.replicate 17179869180 0) 17179869180 4294967295 65536 = .undefined ∧
    libvmdk_offset_table_compare lp64 granting ⟨1, 1, 1, some [⟨512, 65536, 0⟩]⟩
      (List.replicate 17179869180 0) 17179869180 4294967295 65536 = .undefined := by
  refine ⟨?_, by decide, by rw [List.length_replicate], by decide, ?_, ?_⟩
  · exact Reachable.call granting (Call.compare [1, 0, 0, 0] 4 1 65536)
      ⟨1, 1, 0, some [⟨512, 65536, 0⟩]⟩ _
      (Reachable.call granting (Call.fill [1, 0, 0, 0] 4 1 65536)
        cleared_offset_table _
        (Reachable.initialized granting 0 cleared_offset_table (by decide) (by decide))
        ⟨by decide, by decide, by decide⟩ (Or.inl (by decide)))
      ⟨by decide, by decide, by decide⟩ (Or.inl (by decide))
  · exact fill_wrapped_sum_undefined lp64 granting _ _ 17179869180 4294967295 65536
      (by decide) (by decide) (by decide) (by decide) (by decide) (by decide) (by decide)
      (by decide) (by decide) (by decide)
  · exact compare_wrapped_sum_undefined lp64 granting _ _ 17179869180 4294967295 65536
      (by decide) (by decide) (by decide) (by decide) (by decide) (by decide) (by decide)
      (by decide) (by decide) (by decide)

/-! ## C24: the flags of the reachable tables -/

theorem clear_corrupted_zero (p : Platform) : clear_corrupted p 0 = 0 := by
  simp [clear_corrupted]

/-- A loop of fill that ends with success leaves the flags clear when they were. -/
theorem fill_loop_flags_clear (g : Nat) :
    ∀ (k : Nat) (grain_table : List Byte) (t t' : libvmdk_offset_table_t),
      flags_clear t → fill_loop g k grain_table t = .success t' → flags_clear t' := by
  intro k
  induction k with
  | zero =>
    intro grain_table t t' hF h
    simp only [fill_loop, Result.success.injEq] at h
    subst h
    exact hF
  | succ k ih =>
    intro grain_table t t' hF h
    obtain ⟨N, L, C, go⟩ := t
    match grain_table, h with
    | b0 :: b1 :: b2 :: b3 :: rest, h =>
      cases go with
      | none => simp [fill_loop] at h
      | some block =>
        by_cases hL : L < block.length
        · simp only [fill_loop, List.getElem?_eq_getElem hL] at h
          refine ih rest _ t' ?_ h
          intro i e he
          simp only [storage, Option.getD_some, List.getElem?_set] at he
          split at he
          · simp only [Option.some.injEq] at he
            subst he
            have hz : block[L].flags = 0 := hF L block[L] (List.getElem?_eq_getElem hL)
            exact hz
          · exact hF i e he
        · simp [fill_loop, List.getElem?_eq_none (Nat.le_of_not_lt hL)] at h
    | [], h => simp [fill_loop] at h
    | [_], h => simp [fill_loop] at h
    | [_, _], h => simp [fill_loop] at h
    | [_, _, _], h => simp [fill_loop] at h

/-- A loop of compare that ends with success on a table whose flags are clear leaves the
block as it was: clearing a bit of flags that are 0 changes nothing. -/
theorem compare_loop_flags_clear (p : Platform) (g : Nat) :
    ∀ (k : Nat) (grain_table : List Byte) (t t' : libvmdk_offset_table_t),
      flags_clear t → compare_loop p g k grain_table t = .success t' →
      t'.grain_offset = t.grain_offset := by
  intro k
  induction k with
  | zero =>
    intro grain_table t t' _ h
    simp only [compare_loop, Result.success.injEq] at h
    subst h
    rfl
  | succ k ih =>
    intro grain_table t t' hF h
    obtain ⟨N, L, C, go⟩ := t
    match grain_table, h with
    | b0 :: b1 :: b2 :: b3 :: rest, h =>
      cases go with
      | none => simp [compare_loop] at h
      | some block =>
        by_cases hC : C < block.length
        · simp only [compare_loop, List.getElem?_eq_getElem hC] at h
          have hf : block[C].flags = 0 := hF C block[C] (List.getElem?_eq_getElem hC)
          have he : (⟨block[C].file_offset, block[C].size,
              clear_corrupted p block[C].flags⟩ : libvmdk_grain_offset_t) = block[C] := by
            rw [hf, clear_corrupted_zero, ← hf]
          rw [he, set_getElem_same _ _ hC, ite_self] at h
          exact ih rest ⟨N, L, uint32_t (C + 1), some block⟩ t' hF h
        · simp [compare_loop, List.getElem?_eq_none (Nat.le_of_not_lt hC)] at h
    | [], h => simp [compare_loop] at h
    | [_], h => simp [compare_loop] at h
    | [_, _], h => simp [compare_loop] at h
    | [_, _, _], h => simp [compare_loop] at h

theorem initialize_flags_clear (p : Platform) (m : Memory) (n : Nat)
    (t : libvmdk_offset_table_t)
    (h : libvmdk_offset_table_initialize p m none n = .success (some t)) :
    flags_clear t := by
  unfold libvmdk_offset_table_initialize at h
  simp only [gt_iff_lt] at h
  split at h
  · split at h
    · split at h
      · exact absurd h (by simp)
      · split at h
        · simp only [Result.success.injEq, Option.some.injEq] at h
          subst h
          intro i e he
          simp only [storage, Option.getD_some] at he
          rw [List.getElem?_replicate] at he
          split at he
          · simp only [Option.some.injEq] at he
            rw [← he]
            rfl
          · exact absurd he (by simp)
        · exact absurd h (by simp)
    · simp only [Result.success.injEq, Option.some.injEq] at h
      subst h
      intro i e he
      simp [storage, cleared_offset_table] at he
  · exact absurd h (by simp)

/-- A resize that succeeds keeps the elements the block had and leaves the flags clear
when they were: the elements it adds are zeroed. -/
theorem resize_flags_clear (p : Platform) (m : Memory) (t t' : libvmdk_offset_table_t)
    (n : Nat) (hs : 0 < p.sizeof_grain_offset) (hinv : table_invariant p t)
    (hF : flags_clear t)
    (h : libvmdk_offset_table_resize p m t n = .success t') :
    flags_clear t' ∧
    ∀ (i : Nat) (e : libvmdk_grain_offset_t),
      (storage t)[i]? = some e → (storage t')[i]? = some e := by
  by_cases hlt : t.number_of_grain_offsets < n
  · obtain ⟨hN, hL, hC, hJ, hP⟩ := hinv
    obtain ⟨r1, r2, r3, _, r5, r6, _, r8⟩ := resize_success_shape p m t t' n hlt h
    have hroom : t.number_of_grain_offsets
        ≤ size_t p (p.sizeof_grain_offset * n) / p.sizeof_grain_offset := by
      rw [Nat.le_div_iff_mul_le hs, Nat.mul_comm]
      exact r6
    have hsize : size_t p (p.sizeof_grain_offset * n) < 2 ^ p.size_bits :=
      Nat.mod_lt _ (Nat.two_pow_pos _)
    have hlen : (storage t).length = t.number_of_grain_offsets := by
      rcases hJ with hJ | ⟨_, hJ⟩
      · exact hJ
      · omega
    constructor
    · intro i e he
      have hi : i < size_t p (p.sizeof_grain_offset * n) / p.sizeof_grain_offset := by
        rw [← r5]
        by_contra hge
        rw [List.getElem?_eq_none (Nat.le_of_not_lt hge)] at he
        exact absurd he (by simp)
      rw [r8 i hi] at he
      simp only [Option.some.injEq] at he
      subst he
      split
      · rfl
      · have hin : i < (storage t).length := by omega
        apply hF i
        rw [List.getD_eq_getElem?_getD, List.getElem?_eq_getElem hin]
        rfl
    · intro i e he
      have hin : i < (storage t).length := by
        by_contra hge
        rw [List.getElem?_eq_none (Nat.le_of_not_lt hge)] at he
        exact absurd he (by simp)
      have hi : i < size_t p (p.sizeof_grain_offset * n) / p.sizeof_grain_offset := by
        omega
      rw [r8 i hi, if_neg (show ¬ t.number_of_grain_offsets ≤ i from by omega),
        List.getD_eq_getElem?_getD, he]
      rfl
  · unfold libvmdk_offset_table_resize at h
    rw [if_neg hlt] at h
    simp only [Result.success.injEq] at h
    rw [← h]
    exact ⟨hF, fun i e he => he⟩

theorem storage_of_grain_offset_eq (t t' : libvmdk_offset_table_t)
    (h : t'.grain_offset = t.grain_offset) : storage t' = storage t := by
  unfold storage
  rw [h]

theorem fill_flags_clear (p : Platform) (m : Memory) (t t' : libvmdk_offset_table_t)
    (grain_table : List Byte) (size k g : Nat) (hs : 0 < p.sizeof_grain_offset)
    (hinv : table_invariant p t) (hF : flags_clear t)
    (h : libvmdk_offset_table_fill p m t grain_table size k g = .success t') :
    flags_clear t' := by
  unfold libvmdk_offset_table_fill at h
  split at h
  · exact absurd h (by simp)
  split at h
  · exact absurd h (by simp)
  split at h
  · exact absurd h (by simp)
  split at h
  · exact absurd h (by simp)
  split at h
  · exact absurd h (by simp)
  split at h
  · cases hr : libvmdk_offset_table_resize p m t
        (uint32_t (t.last_grain_offset_filled + k)) with
    | failure t1 e => rw [hr] at h; exact absurd h (by simp)
    | undefined => rw [hr] at h; exact absurd h (by simp)
    | success t1 =>
      rw [hr] at h
      exact fill_loop_flags_clear g k grain_table t1 t'
        (resize_flags_clear p m t t1 _ hs hinv hF hr).1 h
  · exact fill_loop_flags_clear g k grain_table t t' hF h

/-- A compare that succeeds on a table whose flags are clear leaves every element the
block had as it was, and the flags clear. -/
theorem compare_flags_clear (p : Platform) (m : Memory) (t t' : libvmdk_offset_table_t)
    (grain_table : List Byte) (size k g : Nat) (hs : 0 < p.sizeof_grain_offset)
    (hinv : table_invariant p t) (hF : flags_clear t)
    (h : libvmdk_offset_table_compare p m t grain_table size k g = .success t') :
    flags_clear t' ∧
    ∀ (i : Nat) (e : libvmdk_grain_offset_t),
      (storage t)[i]? = some e → (storage t')[i]? = some e := by
  unfold libvmdk_offset_table_compare at h
  split at h
  · exact absurd h (by simp)
  split at h
  · exact absurd h (by simp)
  split at h
  · exact absurd h (by simp)
  split at h
  · exact absurd h (by simp)
  split at h
  · exact absurd h (by simp)
  split at h
  · cases hr : libvmdk_offset_table_resize p m t
        (uint32_t (t.last_grain_offset_compared + k)) with
    | failure t1 e => rw [hr] at h; exact absurd h (by simp)
    | undefined => rw [hr] at h; exact absurd h (by simp)
    | success t1 =>
      rw [hr] at h
      obtain ⟨hF1, hkeep⟩ := resize_flags_clear p m t t1 _ hs hinv hF hr
      have hst := storage_of_grain_offset_eq t1 t'
        (compare_loop_flags_clear p g k grain_table t1 t' hF1 h)
      constructor
      · intro i e he
        rw [hst] at he
        exact hF1 i e he
      · intro i e he
        rw [hst]
        exact hkeep i e he
  · have hst := storage_of_grain_offset_eq t t'
      (compare_loop_flags_clear p g k grain_table t t' hF h)
    constructor
    · intro i e he
      rw [hst] at he
      exact hF i e he
    · intro i e he
      rw [hst]
      exact he

/-- The flags are clear in every reachable table. -/
theorem reachable_flags_clear (p : Platform) (hs : 0 < p.sizeof_grain_offset)
    (t : libvmdk_offset_table_t) (h : Reachable p t) : flags_clear t := by
  induction h with
  | initialized m n t hn hinit => exact initialize_flags_clear p m n t hinit
  | call m c t t' hreach htyped hrun ih =>
    have hinv := reachable_invariant p hs t hreach
    rcases hrun with hrun | ⟨e, hrun⟩
    · cases c with
      | resize n => exact (resize_flags_clear p m t t' n hs hinv ih hrun).1
      | fill grain_table size k g =>
        exact fill_flags_clear p m t t' grain_table size k g hs hinv ih hrun
      | compare grain_table size k g =>
        exact (compare_flags_clear p m t t' grain_table size k g hs hinv ih hrun).1
    · cases c with
      | resize n => rw [resize_failure_unchanged p m t t' n e hrun]; exact ih
      | fill grain_table size k g =>
        rw [fill_failure_unchanged p m t t' grain_table size k g e hrun]; exact ih
      | compare grain_table size k g =>
        rw [compare_failure_unchanged p m t t' grain_table size k g e hrun]; exact ih

/-- C24: in every table reachable from initialize by resize, fill and compare calls that
return, every element of the block has flags 0, so the bits of the CORRUPTED constant are
not set; and a compare that succeeds on such a table, whether or not decoded offsets
disagree with stored ones, leaves every element the block had exactly as it was, flags
included. -/
theorem reachable_flags_stay_zero (p : Platform) (hs : 0 < p.sizeof_grain_offset)
    (t : libvmdk_offset_table_t) (h : Reachable p t) :
    (∀ (i : Nat) (e : libvmdk_grain_offset_t), (storage t)[i]? = some e →
      e.flags = 0 ∧ e.flags &&& p.GRAIN_OFFSET_FLAGS_CORRUPTED = 0) ∧
    (∀ (m : Memory) (grain_table : List Byte) (size k g : Nat)
      (t' : libvmdk_offset_table_t),
      libvmdk_offset_table_compare p m t grain_table size k g = .success t' →
      ∀ (i : Nat) (e : libvmdk_grain_offset_t),
        (storage t)[i]? = some e → (storage t')[i]? = some e) := by
  have hF := reachable_flags_clear p hs t h
  have hinv := reachable_invariant p hs t h
  constructor
  · intro i e he
    have hz := hF i e he
    rw [hz]
    exact ⟨rfl, Nat.zero_and _⟩
  · intro m grain_table size k g t' hcompare
    exact (compare_flags_clear p m t t' grain_table size k g hs hinv hF hcompare).2

/-- C24, an instance: the table the grain table `[0, 2]` leaves, compared against the grain
table `[1, 3]`, which disagrees with both stored offsets. -/
theorem reachable_flags_stay_zero_witness :
    (storage ⟨2, 2, 0, some [⟨0, 0, 0⟩, ⟨1024, 65536, 0⟩]⟩)[1]? = some ⟨1024, 65536, 0⟩ ∧
    libvmdk_offset_table_compare lp64 granting
      ⟨2, 2, 0, some [⟨0, 0, 0⟩, ⟨1024, 65536, 0⟩]⟩ [1, 0, 0, 0, 3, 0, 0, 0] 8 2 65536
      = .success ⟨2, 2, 2, some [⟨0, 0, 0⟩, ⟨1024, 65536, 0⟩]⟩ ∧
    ((⟨1024, 65536, 0⟩ : libvmdk_grain_offset_t).flags = 0 ∧
      (⟨1024, 65536, 0⟩ : libvmdk_grain_offset_t).flags
        &&& lp64.GRAIN_OFFSET_FLAGS_CORRUPTED = 0) ∧
    (storage ⟨2, 2, 2, some [⟨0, 0, 0⟩, ⟨1024, 65536, 0⟩]⟩)[1]? = some ⟨1024, 65536, 0⟩ :=
  ⟨by decide, by decide,
    (reachable_flags_stay_zero lp64 (by decide)
      ⟨2, 2, 0, some [⟨0, 0, 0⟩, ⟨1024, 65536, 0⟩]⟩
      (Reachable.call granting (Call.fill [0, 0, 0, 0, 2, 0, 0, 0] 8 2 65536)
        cleared_offset_table _
        (Reachable.initialized granting 0 cleared_offset_table (by decide) (by decide))
        ⟨by decide, by decide, by decide⟩ (Or.inl (by decide)))).1
      1 ⟨1024, 65536, 0⟩ (by decide),
    (reachable_flags_stay_zero lp64 (by decide)
      ⟨2, 2, 0, some [⟨0, 0, 0⟩, ⟨1024, 65536, 0⟩]⟩
      (Reachable.call granting (Call.fill [0, 0, 0, 0, 2, 0, 0, 0] 8 2 65536)
        cleared_offset_table _
        (Reachable.initialized granting 0 cleared_offset_table (by decide) (by decide))
        ⟨by decide, by decide, by decide⟩ (Or.inl (by decide)))).2
      granting [1, 0, 0, 0, 3, 0, 0, 0] 8 2 65536
      ⟨2, 2, 2, some [⟨0, 0, 0⟩, ⟨1024, 65536, 0⟩]⟩ (by decide) 1 ⟨1024, 65536, 0⟩
      (by decide)⟩

end Libvmdk
